import Mathlib

/-!
# Verification of perfume-backend's formula engine

Shallow embedding of `src/lib/aiFormulaService.ts` (the formula-generation
engine) and proofs about it.

Modelling conventions:
* JS numbers are modelled as exact rationals (`ℚ`).  `Math.round x` is
  `⌊x + 1/2⌋`, which is Lean's `round`; `Math.floor` is `Int.floor`;
  `Math.min`/`Math.max` are `min`/`max`.
* A percent string `"lo–hi%"` is modelled by the pair of numbers it carries
  (structure `Pct`).  Every percent string the program ever builds or stores
  has exactly two numeric fields, the JS number↔string round trip is exact,
  and the code re-parses the string with `/[\d.]+/g` (`parseMidpoint`,
  `getLowerPct`, `getUpperPct`), so the pair is a faithful model.
* JS `Set<string>` is modelled as a `List String` queried through
  `List.contains`; `Map` and plain objects used as dictionaries are
  association lists preserving JS insertion order, with assignment
  replacing the value of an existing key in place.
* `Array.prototype.sort` (stable since ES2019) is modelled by the stable
  `List.insertionSort r` where `r a b` holds iff the JS comparator returns
  `≤ 0` on `(a, b)`.
* `charCodeAt` is modelled as the character codepoint (`Char.toNat`);
  they agree on all BMP characters.
-/

/- The Batteries `Rat` arithmetic operations are marked `@[irreducible]`,
which blocks `decide`-style evaluation of the engine on concrete inputs;
restore default transparency for them locally. -/
attribute [local semireducible] Rat.mul Rat.add Rat.sub Rat.inv Rat.ofScientific

/-- Category of a steeping estimate (the union type of `SteepingInfo.category`). -/
inductive SteepCat
  | fastStable
  | mediumSettle
  | slowEvolving
deriving DecidableEq, Repr

/-- `SteepingInfo` from the source. -/
structure SteepingInfo where
  category : SteepCat
  minDays : ℕ
  maxDays : ℕ
  label : String
  notes : String
deriving DecidableEq, Repr

/-- A percent range string `"lo–hi%"`, modelled by the two numbers it carries. -/
structure Pct where
  lo : ℚ
  hi : ℚ
deriving DecidableEq, Repr

/-- The `role` union type of `RawIngredient`. -/
inductive Role
  | hero
  | backbone
  | character
  | lift
deriving DecidableEq, Repr

/-- `RawIngredient` from the source (a database record). -/
structure RawIngredient where
  name : String
  percent : Pct
  supplier : String
  ifraLimit : Option ℚ
  strength : ℕ
  cost : ℕ
  blendsWith : List String
  role : Role
  persistence : ℕ
  dominance : ℕ
deriving DecidableEq, Repr

/-- `FormulaIngredient` from the source (a generated formula entry). -/
structure FormulaIngredient where
  name : String
  percent : Pct
  supplier : String
  normalizedPct : Option ℚ
deriving DecidableEq, Repr

/-- One family's `{top, heart, base}` lists in a generated formula. -/
structure LayerSet where
  top : List FormulaIngredient
  heart : List FormulaIngredient
  base : List FormulaIngredient
deriving DecidableEq, Repr

/-- The generated `formula` object: family name → layers, in insertion order. -/
abbrev Formula := List (String × LayerSet)

/-- `FormulaResult` from the source. -/
structure FormulaResult where
  formula : Formula
  steeping : SteepingInfo
  ingredientCount : ℕ
  ifraWarnings : List String
  perfumerNotes : List String
deriving DecidableEq, Repr

/-- The `_lastMeta` record (process-wide metadata slot). -/
structure GenMeta where
  steeping : SteepingInfo
  ingredientCount : ℕ
  ifraWarnings : List String
  perfumerNotes : List String
deriving DecidableEq, Repr

/-- Helper `ing(...)` from the source, for entries without an `ifraLimit`.
All database entries spell out `role`, `persistence` and `dominance`, so the
source's defaulting (`role ?? 'character'`, `persistence ?? 5`,
`dominance ?? 5`) never fires inside the database. -/
def ing (name : String) (percent : Pct) (supplier : String) (strength cost : ℕ)
    (blendsWith : List String) (role : Role) (persistence dominance : ℕ) :
    RawIngredient :=
  ⟨name, percent, supplier, none, strength, cost, blendsWith, role, persistence, dominance⟩

/-- Helper `ing(...)` for the two entries that carry an `ifraLimit`. -/
def ingL (name : String) (percent : Pct) (supplier : String) (strength cost : ℕ)
    (blendsWith : List String) (role : Role) (persistence dominance : ℕ)
    (ifraLimit : ℚ) : RawIngredient :=
  ⟨name, percent, supplier, some ifraLimit, strength, cost, blendsWith, role, persistence, dominance⟩

/-- `parseMidpoint` on a two-number percent range (every stored percent is one). -/
def parseMidpoint (p : Pct) : ℚ :=
  (p.lo + p.hi) / 2

/-- `Math.round(x * 10) / 10` — round to one decimal, JS rounding (half up). -/
def roundTenth (x : ℚ) : ℚ :=
  (round (x * 10) : ℤ) / 10

/-- `makeRange` from the source: ±30 % band around a midpoint, the low end
floored at 0.1, both ends rounded to one decimal. -/
def makeRange (mid : ℚ) : Pct :=
  ⟨max 0.1 (roundTenth (mid * 0.7)), roundTenth (mid * 1.3)⟩

/-- One state step of `seededRng`: `s = ((s + offset) * 2654435761) % 2147483647`. -/
def seededRngNext (s offset : ℕ) : ℕ :=
  ((s + offset) * 2654435761) % 2147483647

/-- The value returned by a `seededRng` call with state `s` after the step:
`Math.abs(s) / 2147483647` (the state is always non-negative). -/
def seededRngVal (s : ℕ) : ℚ :=
  (s : ℚ) / 2147483647

/-- The RNG seed computed by `generateLocalFormula`:
`scentCode.split('').reduce((a, c) => a + c.charCodeAt(0), 0)`. -/
def seedOf (scentCode : String) : ℕ :=
  (scentCode.data.map Char.toNat).sum

/-- One family's `{top, heart, base}` lists in the ingredient database. -/
structure DbFamily where
  top : List RawIngredient
  heart : List RawIngredient
  base : List RawIngredient
deriving DecidableEq, Repr

/-- `INGREDIENT_DB` from the source, in source order. -/
def INGREDIENT_DB : List (String × DbFamily) := [
  ("floral", ⟨[
      ing "Neroli EO (Bitter Orange)" ⟨2, 4⟩ "🇪🇬 A. Fakhry & Co" 7 4 ["citrus", "green", "powdery"] .lift 6 4,
      ing "Orange Blossom Absolute" ⟨3, 5⟩ "🇪🇬 Cairo Aromatic" 8 4 ["oriental", "gourmand"] .lift 7 5,
      ing "Petitgrain EO" ⟨2, 4⟩ "🇪🇬 A. Fakhry & Co" 5 2 ["aromatic", "citrus"] .lift 5 3],
    [
      ing "Jasmine Absolute (Egyptian)" ⟨4, 6⟩ "🇪🇬 A. Fakhry & Co" 9 5 ["oriental", "woody"] .hero 8 8,
      ing "Rose Absolute (Turkish)" ⟨3, 5⟩ "🌍 Turkey" 8 5 ["spicy", "woody", "powdery"] .hero 8 7,
      ing "Ylang Ylang Extra" ⟨1, 3⟩ "📦 Bulkaroma" 8 3 ["oriental", "gourmand"] .character 6 6,
      ing "Hedione" ⟨5, 10⟩ "📦 Fraterworks" 3 2 ["fresh", "citrus", "green"] .backbone 7 2,
      ing "Geranium EO (Egyptian)" ⟨2, 4⟩ "🇪🇬 Cairo Aromatic" 6 2 ["aromatic", "citrus"] .character 5 4],
    [
      ing "Ambroxan" ⟨2, 4⟩ "📦 Fraterworks" 7 3 ["woody", "fresh", "clean"] .backbone 9 6,
      ing "Musk Accord (white)" ⟨3, 5⟩ "📦 PerfumersWorld" 5 2 ["powdery", "clean"] .backbone 8 3]⟩),
  ("woody", ⟨[
      ing "Bergamot EO (Calabrian type)" ⟨3, 5⟩ "📦 Fraterworks" 6 3 ["citrus", "aromatic"] .lift 4 3,
      ing "Pink Pepper CO2" ⟨1, 2⟩ "📦 Fraterworks" 5 3 ["spicy", "fresh"] .lift 5 3,
      ing "Elemi EO" ⟨1, 3⟩ "📦 Bulkaroma" 5 2 ["citrus", "fresh", "incense"] .lift 6 2,
      ing "Cardamom CO2" ⟨1, 2⟩ "🌍 Guatemala" 7 3 ["spicy", "oriental", "fresh"] .lift 6 4],
    [
      ing "Cedarwood Atlas EO" ⟨5, 8⟩ "🌍 Morocco" 6 2 ["floral", "aromatic"] .backbone 7 4,
      ing "Iso E Super" ⟨5, 15⟩ "📦 Fraterworks" 4 2 ["floral", "fresh", "oriental"] .backbone 9 5,
      ing "Hinoki (Japanese Cypress)" ⟨2, 4⟩ "📦 PerfumersWorld" 5 4 ["green", "fresh"] .character 6 3,
      ing "Guaiac Wood EO" ⟨3, 5⟩ "📦 Bulkaroma" 5 3 ["smoky", "leather"] .character 7 4],
    [
      ing "Vetiver EO (Java)" ⟨4, 6⟩ "📦 Bulkaroma" 7 3 ["smoky", "green"] .hero 9 7,
      ing "Sandalwood (Australian)" ⟨4, 8⟩ "📦 PerfumersWorld" 7 5 ["floral", "oriental", "powdery"] .hero 9 6,
      ing "Cashmeran" ⟨3, 5⟩ "📦 Fraterworks" 5 3 ["powdery", "floral"] .backbone 8 4,
      ing "Patchouli EO (Dark)" ⟨3, 6⟩ "📦 Bulkaroma" 8 2 ["oriental", "gourmand"] .hero 9 7]⟩),
  ("oriental", ⟨[
      ing "Saffron CO2" ⟨0.5, 1⟩ "🌍 Iran" 9 5 ["floral", "woody"] .character 7 7,
      ing "Cardamom CO2" ⟨1, 2⟩ "🌍 Guatemala" 7 3 ["spicy", "fresh"] .lift 6 4,
      ing "Pink Pepper EO" ⟨1, 2⟩ "📦 Fraterworks" 5 3 ["floral", "citrus"] .lift 5 3],
    [
      ing "Oud Oil (Hindi type)" ⟨1, 3⟩ "🌍 UAE (Dubai)" 10 5 ["woody", "smoky", "leather"] .hero 10 9,
      ing "Labdanum Absolute" ⟨3, 5⟩ "📦 Fraterworks" 7 3 ["woody", "leather"] .backbone 8 5,
      ing "Frankincense EO (Omani)" ⟨2, 4⟩ "🌍 Oman" 6 4 ["incense", "woody"] .character 7 4,
      ing "Rose Absolute (Taif type)" ⟨2, 4⟩ "🌍 Turkey" 8 5 ["floral", "spicy"] .character 8 6],
    [
      ing "Amber Accord (in-house blend)" ⟨5, 8⟩ "🇪🇬 MUSK Aromatics" 7 2 ["woody", "powdery"] .hero 9 7,
      ing "Benzoin Resinoid (Siam)" ⟨3, 5⟩ "📦 Bulkaroma" 6 2 ["gourmand", "floral"] .backbone 8 4,
      ing "Vanillin (natural-identical)" ⟨2, 4⟩ "📦 Fraterworks" 6 1 ["gourmand", "floral"] .backbone 8 5,
      ing "Mysore Sandalwood Accord" ⟨3, 5⟩ "📦 PerfumersWorld" 7 4 ["floral", "powdery"] .hero 9 6]⟩),
  ("fresh", ⟨[
      ing "Egyptian Lemon EO" ⟨3, 5⟩ "🇪🇬 A. Fakhry & Co" 7 1 ["citrus", "aromatic"] .lift 3 4,
      ing "Grapefruit EO (Pink)" ⟨2, 4⟩ "📦 Fraterworks" 6 2 ["citrus", "floral"] .lift 3 3,
      ing "Bergamot EO" ⟨3, 6⟩ "📦 Fraterworks" 6 2 ["floral", "aromatic"] .lift 4 3],
    [
      ing "Dihydromyrcenol" ⟨5, 10⟩ "📦 Fraterworks" 5 1 ["woody", "citrus"] .backbone 7 4,
      ing "Hedione HC" ⟨5, 10⟩ "📦 Fraterworks" 3 2 ["floral", "green"] .backbone 7 2,
      ing "Lily of the Valley Accord" ⟨3, 5⟩ "📦 PerfumersWorld" 4 2 ["floral", "green"] .character 5 3],
    [
      ing "White Musk (Galaxolide)" ⟨4, 8⟩ "📦 Fraterworks" 5 1 ["clean", "powdery"] .backbone 8 3,
      ing "Ambroxan" ⟨3, 5⟩ "📦 Fraterworks" 7 3 ["woody", "clean"] .backbone 9 6]⟩),
  ("citrus", ⟨[
      ing "Bergamot EO (Italian)" ⟨5, 10⟩ "📦 Fraterworks" 7 2 ["floral", "aromatic"] .lift 4 4,
      ing "Blood Orange EO" ⟨3, 5⟩ "🇪🇬 A. Fakhry & Co" 7 1 ["gourmand", "fresh"] .lift 3 4,
      ing "Mandarin EO (Green)" ⟨3, 5⟩ "🇪🇬 Cairo Aromatic" 6 1 ["floral", "fresh"] .lift 3 3],
    [
      ing "Neroli EO" ⟨2, 4⟩ "🇪🇬 A. Fakhry & Co" 7 4 ["floral", "green"] .character 6 5,
      ing "Petitgrain Bigarade" ⟨3, 5⟩ "🇪🇬 A. Fakhry & Co" 5 2 ["aromatic", "woody"] .backbone 5 3],
    [
      ing "Musk Ketone" ⟨2, 4⟩ "📦 Fraterworks" 4 2 ["clean", "powdery"] .backbone 7 2,
      ing "Cedarwood Virginia" ⟨3, 5⟩ "📦 Bulkaroma" 5 1 ["woody", "fresh"] .backbone 7 3]⟩),
  ("gourmand", ⟨[
      ing "Bergamot EO" ⟨2, 4⟩ "📦 Fraterworks" 6 2 ["citrus", "floral"] .lift 4 3,
      ing "Pink Pepper CO2" ⟨1, 2⟩ "📦 Fraterworks" 5 3 ["spicy", "oriental"] .lift 5 3],
    [
      ing "Cacao Absolute" ⟨2, 4⟩ "📦 Fraterworks" 7 4 ["oriental", "woody"] .hero 7 6,
      ing "Coffee Absolute" ⟨1, 3⟩ "📦 Bulkaroma" 8 4 ["smoky", "oriental"] .hero 7 7,
      ing "Tonka Bean Absolute" ⟨2, 4⟩ "📦 Fraterworks" 7 3 ["oriental", "powdery"] .character 7 5],
    [
      ing "Vanillin (10% in DPG)" ⟨5, 8⟩ "📦 Fraterworks" 7 1 ["oriental", "floral"] .hero 9 6,
      ing "Ethyl Maltol" ⟨0.5, 1⟩ "📦 Fraterworks" 8 1 ["floral"] .character 7 7,
      ing "Coumarin" ⟨2, 4⟩ "📦 Fraterworks" 6 1 ["aromatic", "powdery"] .backbone 8 4]⟩),
  ("aromatic", ⟨[
      ing "Lavender EO (French type)" ⟨3, 6⟩ "📦 Bulkaroma" 6 2 ["fresh", "woody"] .lift 5 4,
      ing "Rosemary EO (Egyptian)" ⟨2, 3⟩ "🇪🇬 Cairo Aromatic" 6 1 ["green", "woody"] .lift 5 4],
    [
      ing "Clary Sage EO" ⟨2, 4⟩ "📦 Bulkaroma" 5 2 ["floral", "woody"] .character 6 3,
      ing "Geranium Bourbon" ⟨3, 5⟩ "🇪🇬 Cairo Aromatic" 6 2 ["floral", "citrus"] .backbone 6 4],
    [
      ing "Vetiver EO" ⟨3, 5⟩ "📦 Bulkaroma" 7 3 ["woody", "smoky"] .hero 9 7,
      ingL "Oakmoss Absolute (IFRA safe)" ⟨1, 2⟩ "📦 Fraterworks" 7 4 ["woody", "green"] .character 8 5 1,
      ing "Coumarin" ⟨2, 4⟩ "📦 Fraterworks" 6 1 ["gourmand", "powdery"] .backbone 8 4]⟩),
  ("smoky", ⟨[
      ing "Black Pepper CO2" ⟨1, 2⟩ "📦 Fraterworks" 7 2 ["spicy", "woody"] .lift 5 5,
      ing "Elemi EO" ⟨1, 3⟩ "📦 Bulkaroma" 5 2 ["citrus", "fresh", "incense"] .lift 6 2],
    [
      ing "Cade EO (rectified)" ⟨1, 3⟩ "📦 Fraterworks" 8 3 ["leather", "woody"] .hero 8 7,
      ing "Nagarmotha EO" ⟨2, 4⟩ "📦 Bulkaroma" 6 2 ["woody", "incense"] .character 7 4,
      ing "Guaiac Wood EO" ⟨3, 5⟩ "📦 Bulkaroma" 5 3 ["woody", "oriental"] .backbone 7 4],
    [
      ing "Vetiver EO (Haiti)" ⟨4, 6⟩ "📦 Bulkaroma" 7 3 ["woody", "green"] .hero 9 7,
      ing "Labdanum Absolute" ⟨3, 5⟩ "📦 Fraterworks" 7 3 ["oriental", "woody"] .backbone 8 5]⟩),
  ("spicy", ⟨[
      ing "Cardamom CO2 (Guatemala)" ⟨1, 3⟩ "🌍 Guatemala" 7 3 ["oriental", "fresh"] .lift 6 5,
      ing "Ginger CO2" ⟨1, 2⟩ "📦 Bulkaroma" 6 2 ["citrus", "fresh"] .lift 5 4],
    [
      ing "Saffron CO2" ⟨0.5, 1⟩ "🌍 Iran" 9 5 ["oriental", "floral"] .character 7 7,
      ing "Nutmeg EO" ⟨1, 2⟩ "📦 Bulkaroma" 6 2 ["woody", "aromatic"] .character 5 4],
    [
      ing "Benzoin Resinoid" ⟨3, 5⟩ "📦 Bulkaroma" 6 2 ["oriental", "gourmand"] .backbone 8 4,
      ing "Amber Accord" ⟨4, 6⟩ "🇪🇬 MUSK Aromatics" 7 2 ["oriental", "woody"] .hero 9 7]⟩),
  ("powdery", ⟨[
      ing "Bergamot EO" ⟨3, 4⟩ "📦 Fraterworks" 6 2 ["citrus", "floral"] .lift 4 3,
      ing "Aldehydes C-11 (undecylenic)" ⟨0.5, 1⟩ "📦 Fraterworks" 7 2 ["floral", "clean"] .character 4 6],
    [
      ing "Iris Accord (Orris butter type)" ⟨2, 4⟩ "📦 Fraterworks" 7 5 ["floral", "woody"] .hero 8 6,
      ing "Heliotropin" ⟨3, 5⟩ "📦 Fraterworks" 5 1 ["gourmand", "floral"] .backbone 6 3],
    [
      ing "Musk (Ethylene Brassylate)" ⟨5, 8⟩ "📦 Fraterworks" 4 1 ["clean", "floral"] .backbone 9 2,
      ing "Tonka Bean Absolute" ⟨2, 3⟩ "📦 Fraterworks" 7 3 ["gourmand", "aromatic"] .character 8 5]⟩),
  ("green", ⟨[
      ing "Galbanum EO" ⟨1, 2⟩ "📦 Fraterworks" 8 3 ["floral", "aromatic"] .character 5 7,
      ing "Cis-3-Hexenol (leaf alcohol)" ⟨0.5, 1⟩ "📦 Fraterworks" 7 1 ["fresh", "aquatic"] .lift 3 5],
    [
      ing "Fig Leaf Accord" ⟨3, 5⟩ "📦 PerfumersWorld" 5 3 ["woody", "fresh"] .hero 6 5,
      ing "Tea Accord (green)" ⟨2, 4⟩ "📦 PerfumersWorld" 4 2 ["fresh", "aromatic"] .character 5 3],
    [
      ing "Vetiver EO" ⟨3, 5⟩ "📦 Bulkaroma" 7 3 ["woody", "smoky"] .hero 9 7,
      ingL "Oakmoss Absolute" ⟨1, 2⟩ "📦 Fraterworks" 7 4 ["woody", "aromatic"] .character 8 5 1]⟩),
  ("aquatic", ⟨[
      ing "Calone (Watermelon Ketone)" ⟨0.5, 1⟩ "📦 Fraterworks" 8 2 ["fresh", "green"] .character 4 7,
      ing "Lemon EO (Egyptian)" ⟨3, 5⟩ "🇪🇬 A. Fakhry & Co" 6 1 ["citrus", "fresh"] .lift 3 3],
    [
      ing "Marine Accord (Helional)" ⟨3, 5⟩ "📦 Fraterworks" 5 2 ["fresh", "green"] .hero 6 5,
      ing "Dihydromyrcenol" ⟨5, 8⟩ "📦 Fraterworks" 5 1 ["fresh", "citrus"] .backbone 7 4],
    [
      ing "Ambroxan" ⟨3, 5⟩ "📦 Fraterworks" 7 3 ["woody", "fresh"] .backbone 9 6,
      ing "Driftwood Accord (Norlimbanol)" ⟨2, 3⟩ "📦 Fraterworks" 5 3 ["woody", "smoky"] .character 7 4]⟩),
  ("leather", ⟨[
      ing "Birch Tar (rectified)" ⟨0.5, 1⟩ "📦 Fraterworks" 9 3 ["smoky", "woody"] .character 6 8,
      ing "Juniper Berry EO" ⟨1, 2⟩ "📦 Bulkaroma" 5 2 ["aromatic", "fresh"] .lift 5 3],
    [
      ing "Suede Accord (Safraleine)" ⟨3, 5⟩ "📦 Fraterworks" 6 3 ["floral", "powdery"] .hero 7 5,
      ing "Labdanum Absolute" ⟨3, 5⟩ "📦 Fraterworks" 7 3 ["oriental", "woody"] .backbone 8 5],
    [
      ing "Castoreum Accord" ⟨1, 2⟩ "📦 Fraterworks" 8 3 ["smoky", "oriental"] .character 9 7,
      ing "Styrax Resinoid" ⟨2, 3⟩ "📦 Bulkaroma" 7 2 ["smoky", "oriental"] .backbone 8 5]⟩),
  ("clean", ⟨[
      ing "Aldehydes C-12 (MNA)" ⟨0.5, 1⟩ "📦 Fraterworks" 7 2 ["floral", "powdery"] .character 4 6,
      ing "Linalyl Acetate" ⟨3, 5⟩ "📦 Fraterworks" 4 1 ["floral", "fresh"] .lift 4 2],
    [
      ing "Hedione HC" ⟨5, 10⟩ "📦 Fraterworks" 3 2 ["floral", "fresh"] .backbone 7 2,
      ing "Lily of the Valley Accord" ⟨3, 5⟩ "📦 PerfumersWorld" 4 2 ["floral", "green"] .character 5 3],
    [
      ing "White Musk (Galaxolide)" ⟨5, 10⟩ "📦 Fraterworks" 5 1 ["powdery", "floral"] .hero 9 3,
      ing "Cashmeran" ⟨3, 5⟩ "📦 Fraterworks" 5 3 ["woody", "powdery"] .backbone 8 4]⟩),
  ("incense", ⟨[
      ing "Elemi EO" ⟨1, 3⟩ "📦 Bulkaroma" 5 2 ["citrus", "fresh"] .lift 6 2,
      ing "Pink Pepper CO2" ⟨1, 2⟩ "📦 Fraterworks" 5 3 ["spicy", "fresh"] .lift 5 3],
    [
      ing "Frankincense EO (Boswellia sacra)" ⟨3, 6⟩ "🌍 Oman" 7 4 ["woody", "oriental"] .hero 8 6,
      ing "Myrrh EO (Somalian)" ⟨2, 4⟩ "🌍 Somalia" 7 3 ["oriental", "woody"] .character 8 5],
    [
      ing "Benzoin Resinoid" ⟨3, 5⟩ "📦 Bulkaroma" 6 2 ["oriental", "gourmand"] .backbone 8 4,
      ing "Sandalwood (Australian)" ⟨3, 5⟩ "📦 PerfumersWorld" 7 5 ["floral", "oriental"] .hero 9 6]⟩),
  ("niche", ⟨[
      ing "Galbanum EO" ⟨1, 2⟩ "📦 Fraterworks" 8 3 ["green", "floral"] .character 5 7,
      ing "Aldehydes C-11" ⟨0.5, 1⟩ "📦 Fraterworks" 7 2 ["clean", "floral"] .character 4 6],
    [
      ing "Papyrus Accord" ⟨3, 5⟩ "📦 PerfumersWorld" 5 3 ["woody", "green"] .hero 6 4,
      ing "Ambrette Seed CO2" ⟨2, 3⟩ "📦 Bulkaroma" 5 4 ["floral", "powdery"] .character 6 3],
    [
      ing "Ambergris Accord (Ambroxan + Labdanum)" ⟨3, 5⟩ "📦 Fraterworks" 7 3 ["woody", "oriental"] .hero 9 6,
      ing "Iso E Super" ⟨5, 10⟩ "📦 Fraterworks" 4 2 ["woody", "fresh"] .backbone 9 5]⟩)]

/-- `INGREDIENT_DB[fam]` as an option. -/
def dbFind (fam : String) : Option DbFamily :=
  (INGREDIENT_DB.find? (fun p => p.1 == fam)).map Prod.snd

/-- `INGREDIENT_DB[fam]?.top ?? []`. -/
def dbTop (fam : String) : List RawIngredient :=
  match dbFind fam with
  | some l => l.top
  | none => []

/-- `INGREDIENT_DB[fam]?.heart ?? []`. -/
def dbHeart (fam : String) : List RawIngredient :=
  match dbFind fam with
  | some l => l.heart
  | none => []

/-- `INGREDIENT_DB[fam]?.base ?? []`. -/
def dbBase (fam : String) : List RawIngredient :=
  match dbFind fam with
  | some l => l.base
  | none => []

/-- `[...(INGREDIENT_DB[fam]?.heart ?? []), ...(INGREDIENT_DB[fam]?.base ?? [])]`,
the lookup list used by the conflict passes. -/
def dbHeartBase (fam : String) : List RawIngredient :=
  dbHeart fam ++ dbBase fam

/-- Character-level prefix test (helper for modelling `String.includes`). -/
def startsChars : List Char → List Char → Bool
  | _, [] => true
  | [], _ :: _ => false
  | c :: cs, p :: ps => c == p && startsChars cs ps

/-- Character-level substring test (helper for modelling `String.includes`). -/
def containsChars : List Char → List Char → Bool
  | [], pat => pat.isEmpty
  | c :: cs, pat => startsChars (c :: cs) pat || containsChars cs pat

/-- JS `s.includes(pat)`. -/
def strIncludes (s pat : String) : Bool :=
  containsChars s.data pat.data

/-- JS `s.toLowerCase()` (ASCII names only are ever lowercased here). -/
def toLowerStr (s : String) : String :=
  ⟨s.data.map Char.toLower⟩

/-- The fixed `slow` substring list of `estimateSteeping`. -/
def slowSubstances : List String :=
  ["oud", "labdanum", "patchouli", "myrrh", "benzoin", "styrax", "amber", "oakmoss"]

/-- `estimateSteeping` from the source. -/
def estimateSteeping (ingredients : List RawIngredient) (concentration : Option String) :
    SteepingInfo :=
  let slowScore0 : ℚ := ingredients.foldl (fun sc i =>
    let n := toLowerStr i.name
    let sc := if slowSubstances.any (fun s => strIncludes n s) then sc + 3 else sc
    let sc := if 8 ≤ i.persistence then sc + 1 else sc
    if 4 ≤ i.cost then sc + 1 else sc) 0
  let slowScore := if concentration == some "Parfum Extrait" then slowScore0 * 1.5 else slowScore0
  if slowScore < 6 then
    ⟨.fastStable, 1, 3, "24–72 hours",
      "Mostly synthetic backbone. Stabilizes quickly. Evaluate after 48 hours."⟩
  else if slowScore < 14 then
    ⟨.mediumSettle, 7, 14, "1–2 weeks",
      "Contains naturals/resins. Early sharpness softens within first week."⟩
  else
    ⟨.slowEvolving, 14, 42, "2–6 weeks",
      "Heavy naturals and resins. Do not judge before two weeks."⟩

/-- `ContextModifiers` from the source (`noteBalance` fields flattened). -/
structure ContextModifiers where
  heroScale : ℚ
  projectionCap : ℚ
  muskBoost : ℚ
  topPersistMin : ℕ
  noteBalanceTop : ℚ
  noteBalanceHeart : ℚ
  noteBalanceBase : ℚ
deriving DecidableEq, Repr

/-- `computeContext` from the source. -/
def computeContext (concentration occasion intensity : Option String) : ContextModifiers :=
  let ctx : ContextModifiers := ⟨1, 12, 1, 4, 15, 45, 40⟩
  let ctx := if concentration == some "Parfum Extrait" then
      { ctx with
        heroScale := 1.3
        muskBoost := 1.3
        topPersistMin := 6
        noteBalanceTop := 10
        noteBalanceHeart := 40
        noteBalanceBase := 50 }
    else ctx
  let ctx := if intensity == some "Leave a trail" then
      { ctx with
        heroScale := ctx.heroScale * 1.2
        muskBoost := ctx.muskBoost * 1.2 }
    else ctx
  if occasion == some "Everyday signature" then
    { ctx with projectionCap := ctx.projectionCap * 0.8 }
  else ctx

/-- JS number formatting for the values interpolated into notes (all are
non-negative integers or exact tenths, on which JS prints `a` or `a.b`). -/
def fmtTenth (q : ℚ) : String :=
  if q.den = 1 then toString q.num
  else toString ((q * 10).num / 10) ++ "." ++ toString ((q * 10).num % 10)

/-- The mutable state threaded through `generateLocalFormula`: the RNG closure
state, the `used` name set, the `picked` list and the accumulated
warning/note arrays. -/
structure St where
  rng : ℕ
  used : List String
  picked : List RawIngredient
  ifraWarnings : List String
  perfumerNotes : List String
deriving DecidableEq, Repr

/-- A scored candidate (`{ ing, score }`). -/
structure Scored where
  ing : RawIngredient
  score : ℚ
deriving DecidableEq, Repr

/-- `hero?.name`. -/
def heroNameOf (hero : Option RawIngredient) : Option String :=
  hero.map RawIngredient.name

/-- The scoring `map` inside `pick`: synergy (+2 per requested family in
`blendsWith`), RNG jitter `rng(idx*3)*3` (one RNG call per candidate, in
candidate order), and the −4 dominance-clash penalty. -/
def scoreStep (dominant secondary accent : String) (hero : Option RawIngredient) :
    List RawIngredient → ℕ → ℕ → ℕ × List Scored
  | [], rng, _ => (rng, [])
  | c :: rest, rng, idx =>
    let syn : ℚ := ((([dominant, secondary, accent].filter
        (fun f => c.blendsWith.contains f)).length : ℕ) : ℚ) * 2
    let s' := seededRngNext rng (idx * 3)
    let jitter := seededRngVal s' * 3
    let clash : ℚ := match hero with
      | some h => if 7 ≤ c.dominance ∧ 7 ≤ h.dominance then -4 else 0
      | none => 0
    let (rng', tail) := scoreStep dominant secondary accent hero rest s' (idx + 1)
    (rng', ⟨c, syn + jitter + clash⟩ :: tail)

/-- The body of `pick`'s selection loop for one chosen scored candidate:
mark it used, record it, raise the IFRA warning when the scaled midpoint
exceeds the limit, and emit the formula entry with a `makeRange` band. -/
def addPickItem (mult : ℚ) (p : St × List FormulaIngredient) (s : Scored) :
    St × List FormulaIngredient :=
  let st := p.1
  let mid := parseMidpoint s.ing.percent * mult
  let warns := match s.ing.ifraLimit with
    | some lim => if lim < mid then
          st.ifraWarnings ++ [s!"{s.ing.name} capped at {fmtTenth lim}% (IFRA)"]
        else st.ifraWarnings
    | none => st.ifraWarnings
  ({ st with
      used := s.ing.name :: st.used
      picked := st.picked ++ [s.ing]
      ifraWarnings := warns },
    p.2 ++ [⟨s.ing.name, makeRange mid, s.ing.supplier, some mid⟩])

/-- `pick(pool, role, count, mult)` from the source. -/
def pick (dominant secondary accent : String) (hero : Option RawIngredient)
    (pool : List RawIngredient) (role : Role) (count : ℕ) (mult : ℚ) (st : St) :
    St × List FormulaIngredient :=
  let heroName := heroNameOf hero
  let cands0 := pool.filter (fun i =>
    i.role == role && !(st.used.contains i.name) && !(some i.name == heroName))
  let cands := if cands0.isEmpty then
      pool.filter (fun i => !(st.used.contains i.name) && !(some i.name == heroName))
    else cands0
  let (rng', scored) := scoreStep dominant secondary accent hero cands st.rng 0
  let sorted := List.insertionSort (fun a b : Scored => b.score ≤ a.score) scored
  (sorted.take count).foldl (addPickItem mult) ({ st with rng := rng' }, [])

/-- Step 1 of the engine: hero selection (hero-role pool over base+heart of the
dominant family, persistence-sorted fallback, RNG pick among the top 3). -/
def heroSelect (dominant : String) (st : St) : Option RawIngredient × St :=
  let fullPool := dbBase dominant ++ dbHeart dominant
  let pool0 := fullPool.filter (fun i => i.role == Role.hero)
  let heroPool := if pool0.isEmpty then
      List.insertionSort (fun a b : RawIngredient => b.persistence ≤ a.persistence) fullPool
    else pool0
  match heroPool with
  | [] => (none, st)
  | h0 :: _ =>
    let s' := seededRngNext st.rng 0
    let idx := (Int.floor (seededRngVal s' * ((min 3 heroPool.length : ℕ) : ℚ))).toNat
    (some (heroPool.getD idx h0), { st with rng := s' })

/-- Association-list write `formula[fam] = ls` (replaces in place, else appends). -/
def setFam : Formula → String → LayerSet → Formula
  | [], fam, ls => [(fam, ls)]
  | (k, v) :: rest, fam, ls =>
    if k == fam then (k, ls) :: rest else (k, v) :: setFam rest fam ls

/-- Association-list read `formula[fam]`. -/
def getFam : Formula → String → Option LayerSet
  | [], _ => none
  | (k, v) :: rest, fam => if k == fam then some v else getFam rest fam

/-- In-place update of an existing key (no-op when the key is absent). -/
def modFam : Formula → String → (LayerSet → LayerSet) → Formula
  | [], _, _ => []
  | (k, v) :: rest, fam, g =>
    if k == fam then (k, g v) :: rest else (k, v) :: modFam rest fam g

/-- `if (!formula[fam]) formula[fam] = { top: [], heart: [], base: [] }`. -/
def ensureFam (f : Formula) (fam : String) : Formula :=
  if (getFam f fam).isSome then f else f ++ [(fam, ⟨[], [], []⟩)]

/-- Total ingredient count of a formula (top+heart+base over every family). -/
def layerCount (ls : LayerSet) : ℕ :=
  ls.top.length + ls.heart.length + ls.base.length

/-- `totalIngredientsCount()` from the source. -/
def totalFormulaCount (f : Formula) : ℕ :=
  f.foldl (fun n p => n + layerCount p.2) 0

/-- The dominant top-note block of step 3: pick a persistent lifter at random
among the top 2 of the (sorted, unused) pool, and add a persistence booster
when the pick's persistence is below 5. -/
def pickDomTop (st : St) (topPool : List RawIngredient) : St × List FormulaIngredient :=
  match topPool with
  | [] => (st, ([] : List FormulaIngredient))
  | t0 :: _ =>
    let s' := seededRngNext st.rng 10
    let idx := (Int.floor (seededRngVal s' * ((min 2 topPool.length : ℕ) : ℚ))).toNat
    let t := topPool.getD idx t0
    let st1 := { st with
      rng := s'
      used := t.name :: st.used
      picked := st.picked ++ [t] }
    let items : List FormulaIngredient := [⟨t.name, t.percent, t.supplier, none⟩]
    if t.persistence < 5 ∧ 1 < topPool.length then
      match topPool.find? (fun x => !(st1.used.contains x.name) && decide (5 ≤ x.persistence)) with
      | some b => ({ st1 with
          used := b.name :: st1.used
          picked := st1.picked ++ [b] },
          items ++ [⟨b.name, b.percent, b.supplier, none⟩])
      | none => (st1, items)
    else (st1, items)

/-- Step 3 of the engine: dominant-family fill (top pick with persistence
booster, hero placement, heart/base backbones). -/
def step3 (dominant secondary accent : String) (ctx : ContextModifiers)
    (hero : Option RawIngredient) (st : St) (formula : Formula) : St × Formula :=
  match dbFind dominant with
  | none => (st, formula)
  | some dom =>
    let heroName := heroNameOf hero
    let st := match hero with
      | some h => { st with
          used := h.name :: st.used
          picked := st.picked ++ [h] }
      | none => st
    let cappedHeroScale := min ctx.heroScale 1.3
    let topPool := List.insertionSort (fun a b : RawIngredient => b.persistence ≤ a.persistence)
      (dom.top.filter (fun i => !(st.used.contains i.name)))
    let (st, domTop) := pickDomTop st topPool
    let heroInHeart : Option RawIngredient := match hero with
      | some _ => dom.heart.find? (fun i => some i.name == heroName)
      | none => none
    let heroInBase : Option RawIngredient := match hero with
      | some _ => dom.base.find? (fun i => some i.name == heroName)
      | none => none
    let heroHeartItems : List FormulaIngredient := match heroInHeart, heroName with
      | some hh, some hn => [⟨hn, makeRange (parseMidpoint hh.percent * cappedHeroScale), hh.supplier, none⟩]
      | _, _ => []
    let heartBackboneCount := if heroInHeart.isSome then 1 else if heroInBase.isSome then 1 else 2
    let heartBackboneMult : ℚ := if heroInBase.isSome then 0.75 else 1
    let (st, heartPicks) :=
      pick dominant secondary accent hero dom.heart Role.backbone heartBackboneCount heartBackboneMult st
    let domHeart := heroHeartItems ++ heartPicks
    let heroBaseItems : List FormulaIngredient := match heroInHeart, heroInBase, heroName with
      | none, some hb, some hn => [⟨hn, makeRange (parseMidpoint hb.percent * cappedHeroScale), hb.supplier, none⟩]
      | _, _, _ => []
    let baseBackboneMult := if heroInBase.isSome then ctx.muskBoost * 0.7 else ctx.muskBoost
    let (st, basePicks) :=
      pick dominant secondary accent hero dom.base Role.backbone 1 baseBackboneMult st
    let domBase := heroBaseItems ++ basePicks
    (st, setFam formula dominant ⟨domTop, domHeart, domBase⟩)

/-- Step 4 of the engine: secondary-family fill (one lift, one heart backbone,
one base backbone at 0.8/0.7/0.6 scale). -/
def step4 (dominant secondary accent : String) (hero : Option RawIngredient)
    (st : St) (formula : Formula) : St × Formula :=
  match dbFind secondary with
  | none => (st, formula)
  | some sec =>
    let (st, topP) := pick dominant secondary accent hero sec.top Role.lift 1 0.8 st
    let (st, heartP) := pick dominant secondary accent hero sec.heart Role.backbone 1 0.7 st
    let (st, baseP) := pick dominant secondary accent hero sec.base Role.backbone 1 0.6 st
    (st, setFam formula secondary ⟨topP, heartP, baseP⟩)

/-- Step 5 of the engine: accent-family fill (one character pick at 0.5 scale,
placed into the layer it naturally belongs to). -/
def step5 (dominant secondary accent : String) (hero : Option RawIngredient)
    (st : St) (formula : Formula) : St × Formula :=
  match dbFind accent with
  | none => (st, formula)
  | some acc =>
    let (st, accPick) :=
      pick dominant secondary accent hero (acc.heart ++ acc.base) Role.character 1 0.5 st
    let accHeart := accPick.filter (fun a => acc.heart.any (fun h => h.name == a.name))
    let accBase := accPick.filter (fun a => !(acc.heart.any (fun h => h.name == a.name)))
    (st, setFam formula accent ⟨[], accHeart, accBase⟩)

/-- The fixed heavy-family set (used verbatim by steps 5b and 5c, where the
source repeats the same literal as `heavyFamiliesForStructure`). -/
def heavyFamilies : List String :=
  ["oriental", "woody", "smoky", "leather", "incense", "gourmand", "spicy"]

/-- The scoring `map` of step 5b: synergy +2 per family, jitter
`rng(idx*7+99)*2`, no clash penalty. -/
def fillScoreStep (dominant secondary accent : String) :
    List RawIngredient → ℕ → ℕ → ℕ × List Scored
  | [], rng, _ => (rng, [])
  | c :: rest, rng, idx =>
    let syn : ℚ := ((([dominant, secondary, accent].filter
        (fun f => c.blendsWith.contains f)).length : ℕ) : ℚ) * 2
    let s' := seededRngNext rng (idx * 7 + 99)
    let jitter := seededRngVal s' * 2
    let (rng', tail) := fillScoreStep dominant secondary accent rest s' (idx + 1)
    (rng', ⟨c, syn + jitter⟩ :: tail)

/-- The `fillSources` pool of step 5b: unused character-role ingredients from
the secondary/accent heart and base pools, in source concatenation order. -/
def fillSourcesOf (secondary accent : String) (used : List String) : List RawIngredient :=
  (dbHeart secondary ++ dbHeart accent ++ dbBase secondary ++ dbBase accent).filter
    (fun i => !(used.contains i.name) && i.role == Role.character)

/-- The body of step 5b's top-up loop for a single fill ingredient. -/
def addFillItem (secondary accent : String) (p : St × Formula) (fill : RawIngredient) :
    St × Formula :=
  let st := { p.1 with
    used := fill.name :: p.1.used
    picked := p.1.picked ++ [fill] }
  let mid := parseMidpoint fill.percent * 0.4
  let item : FormulaIngredient := ⟨fill.name, makeRange mid, fill.supplier, some mid⟩
  let inSec := (dbHeart secondary ++ dbBase secondary).any (fun i => i.name == fill.name)
  let targetFam := if inSec then secondary else accent
  let f := ensureFam p.2 targetFam
  let inHeart := (dbHeart targetFam).any (fun h => h.name == fill.name)
  let f := modFam f targetFam (fun ls =>
    if inHeart then { ls with heart := ls.heart ++ [item] }
    else { ls with base := ls.base ++ [item] })
  (st, f)

/-- Step 5b of the engine: the ingredient floor (top up heavy dominants to 9). -/
def step5b (dominant secondary accent : String) (st : St) (formula : Formula) :
    St × Formula :=
  let currentCount := totalFormulaCount formula
  if heavyFamilies.contains dominant ∧ currentCount < 9 then
    let fillSources := fillSourcesOf secondary accent st.used
    let (rng', scored) := fillScoreStep dominant secondary accent fillSources st.rng 0
    let sorted := List.insertionSort (fun a b : Scored => b.score ≤ a.score) scored
    let needed := min scored.length (9 - currentCount)
    ((sorted.take needed).map Scored.ing).foldl (addFillItem secondary accent)
      ({ st with rng := rng' }, formula)
  else (st, formula)

/-- The step 5c comparator, as the `≤`-relation of the JS sort: Ambroxan
first, then Iso E, then ascending persistence. -/
def structuralRel (a b : RawIngredient) : Prop :=
  if strIncludes a.name "Ambroxan" then True
  else if strIncludes b.name "Ambroxan" then False
  else if strIncludes a.name "Iso E" then True
  else if strIncludes b.name "Iso E" then False
  else a.persistence ≤ b.persistence

instance : DecidableRel structuralRel := fun a b => by
  unfold structuralRel; infer_instance

/-- The body of step 5c's injection loop for a single structural ingredient. -/
def addStructuralItem (dominant : String) (p : St × Formula) (s : RawIngredient) :
    St × Formula :=
  let mid := parseMidpoint s.percent * 0.4
  let item : FormulaIngredient := ⟨s.name, makeRange mid, s.supplier, some mid⟩
  let f := ensureFam p.2 dominant
  let f := modFam f dominant (fun ls => { ls with base := ls.base ++ [item] })
  ({ p.1 with
      used := s.name :: p.1.used
      picked := p.1.picked ++ [s]
      perfumerNotes := p.1.perfumerNotes ++
        [s!"{s.name} added at low dose as structural backbone — improves diffusion and polish"] },
    f)

/-- Step 5c of the engine: structural backbone injection for sparse heavy
dominants (up to 2 backbone diffusers at 0.4 scale into the dominant base). -/
def step5c (dominant : String) (concentration : Option String) (st : St)
    (formula : Formula) : St × Formula :=
  if heavyFamilies.contains dominant ∧ totalFormulaCount formula < 7 ∧
      (estimateSteeping st.picked concentration).category ≠ SteepCat.fastStable then
    let structuralCandidates := List.insertionSort structuralRel
      ((dbBase "clean" ++ dbHeart "woody" ++ dbBase "woody").filter
        (fun i => i.role == Role.backbone && !(st.used.contains i.name) &&
          i.blendsWith.contains dominant))
    let injectCount := min 2 (8 - totalFormulaCount formula)
    (structuralCandidates.take injectCount).foldl (addStructuralItem dominant) (st, formula)
  else (st, formula)

/-- `getLowerPct` from the source (first number of the percent range). -/
def getLowerPct (item : FormulaIngredient) : ℚ :=
  item.percent.lo

/-- `getUpperPct` from the source (last number of the percent range). -/
def getUpperPct (item : FormulaIngredient) : ℚ :=
  item.percent.hi

/-- Does the original database record of this formula entry (looked up by name
in the family's heart+base pools) have dominance ≥ 7? -/
def isHighDom (fam : String) (item : FormulaIngredient) : Bool :=
  match (dbHeartBase fam).find? (fun i => i.name == item.name) with
  | some orig => decide (7 ≤ orig.dominance)
  | none => false

/-- The `highDom` counter of pass 6a. -/
def highDomCount (f : Formula) : ℕ :=
  f.foldl (fun n p =>
    n + (p.2.heart.filter (isHighDom p.1)).length + (p.2.base.filter (isHighDom p.1)).length) 0

/-- The per-item rewrite of pass 6a (non-hero high-dominance entries to 40 %). -/
def reduce6aItem (heroName : Option String) (fam : String) (item : FormulaIngredient) :
    FormulaIngredient :=
  if some item.name == heroName then item
  else if isHighDom fam item then
    { item with percent := ⟨roundTenth (getLowerPct item * 0.4), roundTenth (getUpperPct item * 0.4)⟩ }
  else item

/-- Map a (family-dependent) rewrite over every heart and base entry,
leaving tops untouched — the shared shape of passes 6a, 6b and of pass D's
dampening sweep. -/
def mapHB (g : String → FormulaIngredient → FormulaIngredient) (f : Formula) : Formula :=
  f.map (fun p => (p.1, ⟨p.2.top, p.2.heart.map (g p.1), p.2.base.map (g p.1)⟩))

/-- Pass 6a: high-dominance conflict correction. -/
def pass6a (heroName : Option String) (f : Formula) : Formula :=
  if 1 < highDomCount f then mapHB (reduce6aItem heroName) f
  else f

/-- The per-item rewrite of pass 6b (non-hero cap at 6.5 %). -/
def clamp6bItem (heroName : Option String) (item : FormulaIngredient) : FormulaIngredient :=
  if some item.name == heroName then item
  else if 6.5 < getUpperPct item then
    { item with percent := ⟨roundTenth (min (getLowerPct item) 3.5), roundTenth (min (getUpperPct item) 6.5)⟩ }
  else item

/-- Pass 6b: unconditional non-hero hard cap at 6.5 %. -/
def pass6b (heroName : Option String) (f : Formula) : Formula :=
  mapHB (fun _ => clamp6bItem heroName) f

/-- A `heavyItems` record of pass 6c. -/
structure HeavyItem where
  fam : String
  isHeart : Bool
  idx : ℕ
  upper : ℚ
  persistence : ℕ
  name : String
deriving DecidableEq, Repr

/-- The persistence recorded by pass 6c (database lookup, defaulting to 5). -/
def origPersistence (fam : String) (nm : String) : ℕ :=
  match (dbHeartBase fam).find? (fun i => i.name == nm) with
  | some o => o.persistence
  | none => 5

/-- Collect the over-5 % entries of one layer (with their positions). -/
def collectLayer (fam : String) (isHeart : Bool) (items : List FormulaIngredient) :
    List HeavyItem :=
  items.enum.filterMap (fun p =>
    if 5 < getUpperPct p.2 then
      some ⟨fam, isHeart, p.1, getUpperPct p.2, origPersistence fam p.2.name, p.2.name⟩
    else none)

/-- The `heavyItems` list of pass 6c, in formula traversal order. -/
def collectHeavy (f : Formula) : List HeavyItem :=
  f.foldl (fun a p => a ++ collectLayer p.1 true p.2.heart ++ collectLayer p.1 false p.2.base) []

/-- The pass 6c sort, as the `≤`-relation of the JS comparator: hero first,
then ascending persistence. -/
def heavyRel (heroName : Option String) (a b : HeavyItem) : Prop :=
  if some a.name == heroName then True
  else if some b.name == heroName then False
  else a.persistence ≤ b.persistence

instance (heroName : Option String) : DecidableRel (heavyRel heroName) := fun a b => by
  unfold heavyRel; infer_instance

/-- Read the formula entry at a recorded (family, layer, index) position. -/
def itemAt (f : Formula) (fam : String) (isHeart : Bool) (idx : ℕ) :
    Option FormulaIngredient :=
  match getFam f fam with
  | some ls => (if isHeart then ls.heart else ls.base).get? idx
  | none => none

/-- `items[idx] = g(items[idx])` (no-op when out of range, which never happens
for positions collected from the same formula). -/
def setIdx (l : List FormulaIngredient) (idx : ℕ)
    (g : FormulaIngredient → FormulaIngredient) : List FormulaIngredient :=
  match l.get? idx with
  | some it => l.set idx (g it)
  | none => l

/-- Rewrite the formula entry at a recorded position. -/
def updateAt (f : Formula) (fam : String) (isHeart : Bool) (idx : ℕ)
    (g : FormulaIngredient → FormulaIngredient) : Formula :=
  modFam f fam (fun ls =>
    if isHeart then { ls with heart := setIdx ls.heart idx g }
    else { ls with base := setIdx ls.base idx g })

/-- The 70 % band reduction of pass 6c. -/
def reduce07 (item : FormulaIngredient) : FormulaIngredient :=
  { item with percent := ⟨roundTenth (getLowerPct item * 0.7), roundTenth (getUpperPct item * 0.7)⟩ }

/-- The perfumer note recorded by one pass 6c reduction. -/
def note6c (item : FormulaIngredient) : String :=
  let newLo := fmtTenth (roundTenth (getLowerPct item * 0.7))
  let newHi := fmtTenth (roundTenth (getUpperPct item * 0.7))
  s!"{item.name} reduced to support role ({newLo}–{newHi}%) — yields headroom to hero"

/-- The reduction loop of pass 6c: skip the hero, stop once at most 2 heavy
entries remain, otherwise reduce to 70 % and record a note. -/
def reduceLoop (heroName : Option String) (total : ℕ) :
    List HeavyItem → ℕ → Formula → List String → Formula × List String
  | [], _, f, ns => (f, ns)
  | h :: rest, reductions, f, ns =>
    if some h.name == heroName then reduceLoop heroName total rest reductions f ns
    else if total - reductions ≤ 2 then (f, ns)
    else
      match itemAt f h.fam h.isHeart h.idx with
      | some item =>
        reduceLoop heroName total rest (reductions + 1)
          (updateAt f h.fam h.isHeart h.idx reduce07) (ns ++ [note6c item])
      | none => reduceLoop heroName total rest reductions f ns

/-- Pass 6c: auto-correction by count (reduce weakest-persistence heavy
entries until at most 2 remain). -/
def pass6c (heroName : Option String) (f : Formula) (notes : List String) :
    Formula × List String :=
  let heavyItems := collectHeavy f
  if 2 < heavyItems.length then
    reduceLoop heroName heavyItems.length
      (List.insertionSort (heavyRel heroName) heavyItems) 0 f notes
  else (f, notes)

/-- `functionalGroups` from the source. -/
def functionalGroups : List (String × List String) := [
  ("white-musk", ["White Musk (Galaxolide)", "Musk Accord (white)", "Musk Ketone", "Musk (Ethylene Brassylate)"]),
  ("ambergris", ["Ambroxan", "Ambergris Accord (Ambroxan + Labdanum)"]),
  ("sandalwood", ["Sandalwood (Australian)", "Mysore Sandalwood Accord"]),
  ("vetiver", ["Vetiver EO (Java)", "Vetiver EO (Haiti)", "Vetiver EO"]),
  ("cedar", ["Cedarwood Atlas EO", "Cedarwood Virginia"]),
  ("labdanum-amber", ["Labdanum Absolute", "Amber Accord (in-house blend)"]),
  ("pepper", ["Pink Pepper CO2", "Pink Pepper EO", "Black Pepper CO2"]),
  ("hedione", ["Hedione", "Hedione HC"]),
  ("bergamot", ["Bergamot EO", "Bergamot EO (Italian)", "Bergamot EO (Calabrian type)"])]

/-- `usedGroups` update for one occurrence (JS `Map` semantics: first
occurrence inserts the key at the end, later ones append to its list). -/
def addOccurrence : List (String × List String) → String → String → List (String × List String)
  | [], group, nm => [(group, [nm])]
  | (g, ms) :: rest, group, nm =>
    if g == group then (g, ms ++ [nm]) :: rest else (g, ms) :: addOccurrence rest group nm

/-- Record one formula entry against every functional group whose member list
contains its name. -/
def recordItem (acc : List (String × List String)) (item : FormulaIngredient) :
    List (String × List String) :=
  functionalGroups.foldl (fun a gp =>
    if gp.2.contains item.name then addOccurrence a gp.1 item.name else a) acc

/-- The `usedGroups` map of step 7, built over the whole formula in traversal
order (top, heart, base per family). -/
def usedGroupsOf (f : Formula) : List (String × List String) :=
  f.foldl (fun a p => (p.2.top ++ p.2.heart ++ p.2.base).foldl recordItem a) []

/-- The 60 % band reduction of step 7. -/
def reduce06 (item : FormulaIngredient) : FormulaIngredient :=
  { item with percent := ⟨roundTenth (getLowerPct item * 0.6), roundTenth (getUpperPct item * 0.6)⟩ }

/-- Reduce every heart/base occurrence of the given name to 60 %. -/
def dampenWeaker (weakerName : String) (f : Formula) : Formula :=
  mapHB (fun _ it => if it.name == weakerName then reduce06 it else it) f

/-- The functional-overlap note of step 7. -/
def overlapNote (group : String) (members : List String) : String :=
  let joined := String.intercalate " + " members
  s!"Functional overlap: {joined} (both serve {group} role). Consider replacing one for complexity."

/-- The step 7 treatment of one recorded group: when it holds at least two
occurrences, dampen the second occurrence's name and append the overlap note. -/
def applyGroup (p : Formula × List String) (gp : String × List String) :
    Formula × List String :=
  match gp.2 with
  | _ :: weakerName :: _ =>
    (dampenWeaker weakerName p.1, p.2 ++ [overlapNote gp.1 gp.2])
  | _ => p

/-- Step 7 (pass D): functional duplicate detection.  For every group with
more than one recorded occurrence, append the overlap note and dampen every
heart/base entry named like the second recorded occurrence (`members[1]`). -/
def pass7 (f : Formula) (notes : List String) : Formula × List String :=
  (usedGroupsOf f).foldl applyGroup (f, notes)

/-- The state of the engine right after assembly (steps 1–5c), before the
conflict-resolution passes. -/
def assembled (dominant secondary accent scentCode : String)
    (concentration occasion intensity : Option String) : Option RawIngredient × St × Formula :=
  let ctx := computeContext concentration occasion intensity
  let st0 : St := ⟨seedOf scentCode, [], [], [], []⟩
  let (hero, st1) := heroSelect dominant st0
  let (st2, f3) := step3 dominant secondary accent ctx hero st1 []
  let (st3, f4) := step4 dominant secondary accent hero st2 f3
  let (st4, f5) := step5 dominant secondary accent hero st3 f4
  let (st5, f5b) := step5b dominant secondary accent st4 f5
  let (st6, f5c) := step5c dominant concentration st5 f5b
  (hero, st6, f5c)

/-- `generateLocalFormula` from the source: assembly followed by the four
conflict passes, the steeping estimate and the result record. -/
def generateLocalFormula (dominant secondary accent scentCode : String)
    (concentration occasion intensity : Option String) : FormulaResult :=
  let (hero, st, f) := assembled dominant secondary accent scentCode concentration occasion intensity
  let heroName := heroNameOf hero
  let f6a := pass6a heroName f
  let f6b := pass6b heroName f6a
  let (f6c, n6c) := pass6c heroName f6b st.perfumerNotes
  let (f7, n7) := pass7 f6c n6c
  ⟨f7, estimateSteeping st.picked concentration, st.picked.length, st.ifraWarnings, n7⟩

/-- The argument record of the public facade `generateSmartFormula`. -/
structure GenerateOpts where
  dominant : String
  secondary : String
  accent : String
  scentCode : String
  concentration : Option String
  occasion : Option String
  intensity : Option String
deriving DecidableEq, Repr

/-- `generateSmartFormula` from the source (the `USE_CLAUDE_API` flag is
`false`, so it always returns the local result). -/
def generateSmartFormula (o : GenerateOpts) : FormulaResult :=
  generateLocalFormula o.dominant o.secondary o.accent o.scentCode
    o.concentration o.occasion o.intensity

/-- The `_lastMeta` record written at the end of a generation. -/
def metaOf (r : FormulaResult) : GenMeta :=
  ⟨r.steeping, r.ingredientCount, r.ifraWarnings, r.perfumerNotes⟩

/-- One facade invocation against the process-wide `_lastMeta` slot: the
result is returned and the slot is overwritten. -/
def runGenerate (o : GenerateOpts) (_slot : Option GenMeta) :
    FormulaResult × Option GenMeta :=
  let r := generateSmartFormula o
  (r, some (metaOf r))

/-!
### Predicates used by the verification
-/

/-- The non-hero cap condition established by pass 6b and preserved by the
later passes: an entry is named like the hero, or its upper bound is at most
6.5. -/
def hbCond (hn : Option String) (it : FormulaIngredient) : Prop :=
  some it.name = hn ∨ getUpperPct it ≤ 6.5

/-- `hbCond` on every heart/base entry of every family of a formula. -/
def hbCondAll (hn : Option String) (f : Formula) : Prop :=
  ∀ p ∈ f, ∀ it ∈ p.2.heart ++ p.2.base, hbCond hn it

/-- Concrete witness data for the cap-invariant claim: the formula from one
fixed generation. -/
def c2wFormula : Formula :=
  (generateLocalFormula "oriental" "floral" "citrus" "AB" none none none).formula

/-- The oriental sub-formula of the witness generation. -/
def c2wLayers : LayerSet :=
  (getFam c2wFormula "oriental").getD ⟨[], [], []⟩

/-- A non-hero heart entry of the witness generation. -/
def c2wItem : FormulaIngredient :=
  c2wLayers.heart.getD 1 ⟨"", ⟨0, 0⟩, "", none⟩

/-- The top-layer list of one family of a formula (empty when the family is
absent). -/
def topAt (f : Formula) (fam : String) : List FormulaIngredient :=
  match getFam f fam with
  | some ls => ls.top
  | none => []

/-- A formula entry that carries a database top record verbatim: same name,
the database percent pair unchanged (no `makeRange`, no scaling), same
supplier, no `normalizedPct`. -/
def topRaw (dominant : String) (f : Formula) : Prop :=
  ∀ it ∈ topAt f dominant, ∃ rec ∈ dbTop dominant,
    it = ⟨rec.name, rec.percent, rec.supplier, none⟩

/-- The occurrences of one ingredient name in one family's layer object, in
top/heart/base order. -/
def namedInLayers (ls : LayerSet) (nm : String) : List FormulaIngredient :=
  ls.top.filter (fun it => it.name == nm) ++ ls.heart.filter (fun it => it.name == nm) ++
    ls.base.filter (fun it => it.name == nm)

/-- All occurrences of one ingredient name across the whole formula, in
traversal order. -/
def namedItems (f : Formula) (nm : String) : List FormulaIngredient :=
  (f.map (fun p => namedInLayers p.2 nm)).flatten

/-- How many entries of the formula carry the given name. -/
def countName (f : Formula) (nm : String) : ℕ :=
  (namedItems f nm).length

/-- The family keys of a formula, in order. -/
def keysOf (f : Formula) : List String :=
  f.map Prod.fst

/-- How many heart entries of one family carry the given name. -/
def heartCountAt (f : Formula) (fam nm : String) : ℕ :=
  ((getFam f fam).map (fun ls => (ls.heart.filter (fun it => it.name == nm)).length)).getD 0

/-- How many base entries of one family carry the given name. -/
def baseCountAt (f : Formula) (fam nm : String) : ℕ :=
  ((getFam f fam).map (fun ls => (ls.base.filter (fun it => it.name == nm)).length)).getD 0

/-- The formula entry emitted by `pick` for one chosen scored candidate. -/
def pickItemOf (mult : ℚ) (s : Scored) : FormulaIngredient :=
  ⟨s.ing.name, makeRange (parseMidpoint s.ing.percent * mult), s.ing.supplier,
    some (parseMidpoint s.ing.percent * mult)⟩

/-- Is the hero's database record in the family's heart pool (this decides the
placement layer in step 3)? -/
def inHeartOf (fam nm : String) : Bool :=
  ((dbHeart fam).find? (fun i => i.name == nm)).isSome

/-- The hero-exclusivity bundle carried through steps 3–5c: no family other
than the dominant one holds an entry named like the hero, and the dominant
family's layers hold the hero name exactly once, in the layer decided by
`inHeartOf`, never in the top layer. -/
def heroBundle (dominant nm : String) (f : Formula) : Prop :=
  (∀ p ∈ f, p.1 ≠ dominant → namedInLayers p.2 nm = []) ∧
  ∃ L, getFam f dominant = some L ∧
    L.top.filter (fun it => it.name == nm) = [] ∧
    (if inHeartOf dominant nm then
      (L.heart.filter (fun it => it.name == nm)).length = 1 ∧
        L.base.filter (fun it => it.name == nm) = []
    else
      (L.base.filter (fun it => it.name == nm)).length = 1 ∧
        L.heart.filter (fun it => it.name == nm) = [])

def isHeavyNonHero (hn : Option String) (x : FormulaIngredient) : Bool :=
  !(some x.name == hn) && decide (5 < getUpperPct x)

def heavyLayerCount (hn : Option String) (items : List FormulaIngredient) : ℕ :=
  (items.filter (isHeavyNonHero hn)).length

def heavyCount (hn : Option String) (f : Formula) : ℕ :=
  (f.map (fun p => heavyLayerCount hn p.2.heart + heavyLayerCount hn p.2.base)).sum

def posOf (rec : HeavyItem) : String × Bool × ℕ :=
  (rec.fam, rec.isHeart, rec.idx)

instance (hn : Option String) : IsTotal HeavyItem (heavyRel hn) where
  total a b := by
    unfold heavyRel
    by_cases ha : (some a.name == hn) = true
    · left
      rw [if_pos ha]
      trivial
    · by_cases hbb : (some b.name == hn) = true
      · right
        rw [if_pos hbb]
        trivial
      · rw [if_neg ha, if_neg hbb, if_neg hbb, if_neg ha]
        exact Nat.le_total a.persistence b.persistence

instance (hn : Option String) : IsTrans HeavyItem (heavyRel hn) where
  trans a b c hab hbc := by
    unfold heavyRel at hab hbc ⊢
    by_cases ha : (some a.name == hn) = true
    · rw [if_pos ha]
      trivial
    · rw [if_neg ha] at hab ⊢
      by_cases hbb : (some b.name == hn) = true
      · rw [if_pos hbb] at hab
        exact hab.elim
      · rw [if_neg hbb] at hab hbc
        by_cases hc : (some c.name == hn) = true
        · rw [if_pos hc] at hbc
          exact hbc.elim
        · rw [if_neg hc] at hbc ⊢
          exact le_trans hab hbc

/-- The formula and notes as they stand right after pass C (auto-correction),
before pass D, for the given engine inputs. -/
def stageB (dominant secondary accent scentCode : String)
    (concentration occasion intensity : Option String) : Formula :=
  pass6b (heroNameOf (assembled dominant secondary accent scentCode
      concentration occasion intensity).1)
    (pass6a (heroNameOf (assembled dominant secondary accent scentCode
        concentration occasion intensity).1)
      (assembled dominant secondary accent scentCode
        concentration occasion intensity).2.2)

/-- The pass C output (formula and perfumer notes) for the given engine
inputs. -/
def stageC (dominant secondary accent scentCode : String)
    (concentration occasion intensity : Option String) : Formula × List String :=
  pass6c (heroNameOf (assembled dominant secondary accent scentCode
      concentration occasion intensity).1)
    (stageB dominant secondary accent scentCode concentration occasion intensity)
    (assembled dominant secondary accent scentCode
      concentration occasion intensity).2.1.perfumerNotes

def familyPoolCount (fam : String) : ℕ :=
  (dbTop fam).length + (dbHeart fam).length + (dbBase fam).length

/-- The engine state after step 5 (dominant, secondary and accent fills),
right before the heavy-family floor of step 5b. -/
def stage5 (dominant secondary accent scentCode : String)
    (concentration occasion intensity : Option String) : St × Formula :=
  let ctx := computeContext concentration occasion intensity
  let st0 : St := ⟨seedOf scentCode, [], [], [], []⟩
  let (hero, st1) := heroSelect dominant st0
  let (st2, f3) := step3 dominant secondary accent ctx hero st1 []
  let (st3, f4) := step4 dominant secondary accent hero st2 f3
  step5 dominant secondary accent hero st3 f4

/-- The formula entry emitted by step 5b for one fill ingredient. -/
def fillItemOf (i : RawIngredient) : FormulaIngredient :=
  ⟨i.name, makeRange (parseMidpoint i.percent * 0.4), i.supplier,
    some (parseMidpoint i.percent * 0.4)⟩

/-- All heart/base entries (hero included) stay at or below an upper bound of
6.5 % — the entry condition of claim C3. -/
@[reducible]
def capAll (f : Formula) : Prop :=
  ∀ p ∈ f, (∀ it ∈ p.2.heart, getUpperPct it ≤ 6.5) ∧
    (∀ it ∈ p.2.base, getUpperPct it ≤ 6.5)

/-- The four conflict passes of step 6/7 chained, as in `generateLocalFormula`. -/
def conflictPasses (hn : Option String) (f : Formula) (ns : List String) :
    Formula × List String :=
  pass7 (pass6c hn (pass6b hn (pass6a hn f)) ns).1
    (pass6c hn (pass6b hn (pass6a hn f)) ns).2

/-- One step-7 group applied to one formula entry: when the group recorded at
least two occurrences, an entry named like the second recorded occurrence is
reduced to 60 %. -/
def applySecond (it : FormulaIngredient) (gp : String × List String) :
    FormulaIngredient :=
  match gp.2 with
  | _ :: weakerName :: _ => if it.name == weakerName then reduce06 it else it
  | _ => it

/-- The overlap note a recorded group contributes (none below two occurrences). -/
def overlapNoteOf (gp : String × List String) : Option String :=
  match gp.2 with
  | _ :: _ :: _ => some (overlapNote gp.1 gp.2)
  | _ => none

/-- All overlap notes of a recorded-group list, in recording order. -/
def overlapNotesOf (gs : List (String × List String)) : List String :=
  gs.filterMap overlapNoteOf

/-- A small formula meeting all four no-conflict conditions: no database name,
no band above 5 %, no functional-group member. -/
def c3w : Formula :=
  [("woody", ⟨[⟨"Tt", ⟨1, 2⟩, "s", none⟩],
    [⟨"Hh", ⟨2, 4⟩, "s", none⟩], [⟨"Bb", ⟨2, 3⟩, "s", none⟩]⟩)]

/-!
## Claim theorems
-/

set_option maxRecDepth 100000
set_option maxHeartbeats 2000000

/-!
### Rounding lemmas
-/

/-- `roundTenth` is monotone. -/
theorem roundTenth_mono {x y : ℚ} (h : x ≤ y) : roundTenth x ≤ roundTenth y := by
  unfold roundTenth
  have h2 : round (x * 10) ≤ round (y * 10) := by
    rw [round_eq, round_eq]
    exact Int.floor_mono (by linarith)
  have h3 : ((round (x * 10) : ℤ) : ℚ) ≤ ((round (y * 10) : ℤ) : ℚ) := Int.cast_le.mpr h2
  linarith

/-- Rounding after clamping at 6.5 stays at most 6.5. -/
theorem roundTenth_min_65 (x : ℚ) : roundTenth (min x 6.5) ≤ 6.5 := by
  have h := roundTenth_mono (min_le_right x 6.5)
  have h65 : roundTenth 6.5 = 6.5 := by decide
  linarith [h65 ▸ h]

/-- A 70 % reduction of a band bounded by 6.5 lands at most at 4.6. -/
theorem roundTenth_07_le {x : ℚ} (h : x ≤ 6.5) : roundTenth (x * 0.7) ≤ 4.6 := by
  have h1 : x * 0.7 ≤ 6.5 * 0.7 := by nlinarith
  have h2 := roundTenth_mono h1
  have h3 : roundTenth (6.5 * 0.7) = 4.6 := by decide
  linarith [h3 ▸ h2]

/-- A 60 % reduction of a band bounded by 6.5 lands at most at 3.9. -/
theorem roundTenth_06_le {x : ℚ} (h : x ≤ 6.5) : roundTenth (x * 0.6) ≤ 3.9 := by
  have h1 : x * 0.6 ≤ 6.5 * 0.6 := by nlinarith
  have h2 := roundTenth_mono h1
  have h3 : roundTenth (6.5 * 0.6) = 3.9 := by decide
  linarith [h3 ▸ h2]

/-!
### The cap condition through the passes
-/

theorem hbCond_clamp6b (hn : Option String) (it : FormulaIngredient) :
    hbCond hn (clamp6bItem hn it) := by
  unfold clamp6bItem
  by_cases h1 : (some it.name == hn) = true
  · rw [if_pos h1]
    exact Or.inl (by simpa using h1)
  · rw [if_neg h1]
    by_cases h2 : (6.5 : ℚ) < getUpperPct it
    · rw [if_pos h2]
      exact Or.inr (roundTenth_min_65 _)
    · rw [if_neg h2]
      exact Or.inr (not_lt.mp h2)

theorem hbCond_reduce07 {hn : Option String} {it : FormulaIngredient}
    (h : hbCond hn it) : hbCond hn (reduce07 it) := by
  rcases h with h | h
  · exact Or.inl h
  · refine Or.inr ?_
    have := roundTenth_07_le h
    show roundTenth (getUpperPct it * 0.7) ≤ 6.5
    linarith

theorem hbCond_reduce06 {hn : Option String} {it : FormulaIngredient}
    (h : hbCond hn it) : hbCond hn (reduce06 it) := by
  rcases h with h | h
  · exact Or.inl h
  · refine Or.inr ?_
    have := roundTenth_06_le h
    show roundTenth (getUpperPct it * 0.6) ≤ 6.5
    linarith

/-- Entries of `modFam f fam g` satisfy `P` when both the original entries and
their `g`-images do. -/
theorem modFam_forall {P : String × LayerSet → Prop} {f : Formula} {fam : String}
    {g : LayerSet → LayerSet}
    (h1 : ∀ p ∈ f, P p) (h2 : ∀ p ∈ f, P (p.1, g p.2)) :
    ∀ p ∈ modFam f fam g, P p := by
  induction f with
  | nil => intro p hp; simp [modFam] at hp
  | cons hd tl ih =>
    obtain ⟨k, v⟩ := hd
    intro p hp
    unfold modFam at hp
    by_cases hk : (k == fam) = true
    · rw [if_pos hk] at hp
      rcases List.mem_cons.mp hp with rfl | hp
      · exact h2 (k, v) (List.mem_cons_self _ _)
      · exact h1 p (List.mem_cons_of_mem _ hp)
    · rw [if_neg hk] at hp
      rcases List.mem_cons.mp hp with rfl | hp
      · exact h1 (k, v) (List.mem_cons_self _ _)
      · exact ih (fun q hq => h1 q (List.mem_cons_of_mem _ hq))
          (fun q hq => h2 q (List.mem_cons_of_mem _ hq)) p hp

/-- Members of `setIdx l idx g` are members of `l` or `g`-images of members. -/
theorem mem_setIdx {l : List FormulaIngredient} {idx : ℕ}
    {g : FormulaIngredient → FormulaIngredient} {x : FormulaIngredient}
    (hx : x ∈ setIdx l idx g) : x ∈ l ∨ ∃ y ∈ l, x = g y := by
  unfold setIdx at hx
  cases hget : l.get? idx with
  | none => rw [hget] at hx; exact Or.inl hx
  | some y =>
    rw [hget] at hx
    rcases List.mem_or_eq_of_mem_set hx with h | rfl
    · exact Or.inl h
    · exact Or.inr ⟨y, List.get?_mem hget, rfl⟩

theorem hbCondAll_updateAt {hn : Option String} {f : Formula} {fam : String}
    {ih : Bool} {idx : ℕ} {g : FormulaIngredient → FormulaIngredient}
    (h : hbCondAll hn f) (hg : ∀ it, hbCond hn it → hbCond hn (g it)) :
    hbCondAll hn (updateAt f fam ih idx g) := by
  unfold updateAt
  refine modFam_forall h ?_
  intro p hp it hit
  have hbase := h p hp
  by_cases hih : ih = true
  · rw [if_pos hih] at hit
    rcases List.mem_append.mp hit with hm | hm
    · rcases mem_setIdx hm with hm' | ⟨y, hy, rfl⟩
      · exact hbase it (List.mem_append.mpr (Or.inl hm'))
      · exact hg y (hbase y (List.mem_append.mpr (Or.inl hy)))
    · exact hbase it (List.mem_append.mpr (Or.inr hm))
  · rw [if_neg hih] at hit
    rcases List.mem_append.mp hit with hm | hm
    · exact hbase it (List.mem_append.mpr (Or.inl hm))
    · rcases mem_setIdx hm with hm' | ⟨y, hy, rfl⟩
      · exact hbase it (List.mem_append.mpr (Or.inr hm'))
      · exact hg y (hbase y (List.mem_append.mpr (Or.inr hy)))

/-- Pass 6b establishes the cap condition on every formula. -/
theorem pass6b_establishes_cap (hn : Option String) (f : Formula) :
    hbCondAll hn (pass6b hn f) := by
  intro p hp it hit
  unfold pass6b mapHB at hp
  rw [List.mem_map] at hp
  obtain ⟨q, _, rfl⟩ := hp
  rcases List.mem_append.mp hit with hm | hm
  all_goals {
    rw [List.mem_map] at hm
    obtain ⟨o, _, rfl⟩ := hm
    exact hbCond_clamp6b hn o
  }

/-- The reduction loop of pass 6c preserves the cap condition. -/
theorem reduceLoop_preserves_cap {hn : Option String} (total : ℕ)
    (l : List HeavyItem) :
    ∀ (r : ℕ) (f : Formula) (ns : List String), hbCondAll hn f →
      hbCondAll hn (reduceLoop hn total l r f ns).1 := by
  induction l with
  | nil => intro r f ns h; exact h
  | cons hd tl ih =>
    intro r f ns h
    unfold reduceLoop
    by_cases h1 : (some hd.name == hn) = true
    · rw [if_pos h1]; exact ih r f ns h
    · rw [if_neg h1]
      by_cases h2 : total - r ≤ 2
      · rw [if_pos h2]; exact h
      · rw [if_neg h2]
        cases itemAt f hd.fam hd.isHeart hd.idx with
        | some item =>
          exact ih _ _ _ (hbCondAll_updateAt h (fun it hc => hbCond_reduce07 hc))
        | none => exact ih _ _ _ h

/-- Pass 6c preserves the cap condition. -/
theorem pass6c_preserves_cap {hn : Option String} {f : Formula} {ns : List String}
    (h : hbCondAll hn f) : hbCondAll hn (pass6c hn f ns).1 := by
  unfold pass6c
  by_cases h2 : 2 < (collectHeavy f).length
  · rw [if_pos h2]
    exact reduceLoop_preserves_cap _ _ 0 f ns h
  · rw [if_neg h2]
    exact h

/-- Pass D's dampening preserves the cap condition. -/
theorem dampenWeaker_preserves_cap {hn : Option String} {f : Formula}
    (w : String) (h : hbCondAll hn f) : hbCondAll hn (dampenWeaker w f) := by
  intro p hp it hit
  unfold dampenWeaker mapHB at hp
  rw [List.mem_map] at hp
  obtain ⟨q, hq, rfl⟩ := hp
  have hbase := h q hq
  rcases List.mem_append.mp hit with hm | hm
  all_goals {
    rw [List.mem_map] at hm
    obtain ⟨o, ho, rfl⟩ := hm
    have hco : hbCond hn o := by
      first
      | exact hbase o (List.mem_append.mpr (Or.inl ho))
      | exact hbase o (List.mem_append.mpr (Or.inr ho))
    show hbCond hn (if (o.name == w) = true then reduce06 o else o)
    by_cases hw : (o.name == w) = true
    · rw [if_pos hw]; exact hbCond_reduce06 hco
    · rw [if_neg hw]; exact hco
  }

/-- Pass 7 (pass D) preserves the cap condition. -/
theorem pass7_preserves_cap {hn : Option String} {f : Formula} {ns : List String}
    (h : hbCondAll hn f) : hbCondAll hn (pass7 f ns).1 := by
  unfold pass7
  generalize usedGroupsOf f = L
  induction L generalizing f ns with
  | nil => exact h
  | cons hd tl ih =>
    rw [List.foldl_cons]
    cases hmm : hd.2 with
    | nil =>
      have happ : applyGroup (f, ns) hd = (f, ns) := by
        unfold applyGroup
        rw [hmm]
      rw [happ]
      exact ih h
    | cons m0 ms =>
      cases ms with
      | nil =>
        have happ : applyGroup (f, ns) hd = (f, ns) := by
          unfold applyGroup
          rw [hmm]
        rw [happ]
        exact ih h
      | cons m1 ms' =>
        have happ : applyGroup (f, ns) hd =
            (dampenWeaker m1 f, ns ++ [overlapNote hd.1 hd.2]) := by
          unfold applyGroup
          rw [hmm]
        rw [happ]
        exact ih (dampenWeaker_preserves_cap m1 h)

/-!
### Frame lemmas: the top layers through the engine
-/

theorem topAt_setFam_self (f : Formula) (k : String) (ls : LayerSet) :
    topAt (setFam f k ls) k = ls.top := by
  induction f with
  | nil => simp [setFam, topAt, getFam]
  | cons hd tl ih =>
    obtain ⟨k', v⟩ := hd
    unfold setFam
    by_cases hk : (k' == k) = true
    · rw [if_pos hk]
      unfold topAt getFam
      rw [if_pos hk]
    · rw [if_neg hk]
      unfold topAt getFam
      rw [if_neg hk]
      exact ih

theorem topAt_setFam_ne {d k : String} (f : Formula) (ls : LayerSet) (h : d ≠ k) :
    topAt (setFam f k ls) d = topAt f d := by
  induction f with
  | nil =>
    have hkd : (k == d) = false := by simpa using fun hh => h hh.symm
    simp [setFam, topAt, getFam, hkd]
  | cons hd tl ih =>
    obtain ⟨k', v⟩ := hd
    by_cases hk : (k' == k) = true
    · have hk' : (k' == d) = false := by
        have : k' = k := by simpa using hk
        subst this
        simpa using fun hh => h hh.symm
      simp [setFam, topAt, getFam, hk, hk']
    · by_cases hd' : (k' == d) = true
      · simp [setFam, topAt, getFam, hk, hd']
      · simp only [setFam, hk, if_neg, Bool.false_eq_true, ite_false]
        simp only [topAt, getFam, hd', Bool.false_eq_true, ite_false] at ih ⊢
        exact ih

theorem topAt_modFam {g : LayerSet → LayerSet} (hg : ∀ ls, (g ls).top = ls.top)
    (f : Formula) (k d : String) : topAt (modFam f k g) d = topAt f d := by
  induction f with
  | nil => simp [modFam]
  | cons hd tl ih =>
    obtain ⟨k', v⟩ := hd
    unfold modFam
    by_cases hk : (k' == k) = true
    · rw [if_pos hk]
      unfold topAt getFam
      by_cases hd' : (k' == d) = true
      · rw [if_pos hd', if_pos hd']
        exact hg v
      · rw [if_neg hd', if_neg hd']
    · rw [if_neg hk]
      unfold topAt getFam
      by_cases hd' : (k' == d) = true
      · rw [if_pos hd', if_pos hd']
      · rw [if_neg hd', if_neg hd']
        exact ih

theorem topAt_append_emptyFam (f : Formula) (k d : String) :
    topAt (f ++ [(k, ⟨[], [], []⟩)]) d = topAt f d := by
  induction f with
  | nil =>
    by_cases hd' : (k == d) = true
    · simp [topAt, getFam, hd']
    · simp [topAt, getFam, hd']
  | cons hd tl ih =>
    obtain ⟨k', v⟩ := hd
    by_cases hd' : (k' == d) = true
    · simp [topAt, getFam, hd']
    · simp only [List.cons_append]
      simp only [topAt, getFam, hd', Bool.false_eq_true, ite_false] at ih ⊢
      exact ih

theorem topAt_ensureFam (f : Formula) (k d : String) :
    topAt (ensureFam f k) d = topAt f d := by
  unfold ensureFam
  by_cases hk : (getFam f k).isSome = true
  · rw [if_pos hk]
  · rw [if_neg hk]
    exact topAt_append_emptyFam f k d

theorem topAt_addFillItem (secondary accent : String) (p : St × Formula)
    (fill : RawIngredient) (d : String) :
    topAt (addFillItem secondary accent p fill).2 d = topAt p.2 d := by
  unfold addFillItem
  rw [topAt_modFam ?hg, topAt_ensureFam]
  case hg =>
    intro ls
    show (if _ then { ls with heart := _ } else { ls with base := _ } : LayerSet).top = ls.top
    split <;> first | rfl | (split <;> rfl)

theorem topAt_fillFold (secondary accent : String) (l : List RawIngredient)
    (init : St × Formula) (d : String) :
    topAt (l.foldl (addFillItem secondary accent) init).2 d = topAt init.2 d := by
  induction l generalizing init with
  | nil => rfl
  | cons hd tl ih =>
    rw [List.foldl_cons, ih]
    exact topAt_addFillItem _ _ _ _ _

theorem topAt_step5b (dominant secondary accent : String) (st : St) (f : Formula)
    (d : String) : topAt (step5b dominant secondary accent st f).2 d = topAt f d := by
  unfold step5b
  by_cases hc : heavyFamilies.contains dominant = true ∧ totalFormulaCount f < 9
  · rw [if_pos hc]
    exact topAt_fillFold _ _ _ _ _
  · rw [if_neg hc]

theorem topAt_addStructuralItem (dominant : String) (p : St × Formula)
    (s : RawIngredient) (d : String) :
    topAt (addStructuralItem dominant p s).2 d = topAt p.2 d := by
  unfold addStructuralItem
  rw [topAt_modFam ?hg, topAt_ensureFam]
  case hg => intro ls; rfl

theorem topAt_structFold (dominant : String) (l : List RawIngredient)
    (init : St × Formula) (d : String) :
    topAt (l.foldl (addStructuralItem dominant) init).2 d = topAt init.2 d := by
  induction l generalizing init with
  | nil => rfl
  | cons hd tl ih =>
    rw [List.foldl_cons, ih]
    exact topAt_addStructuralItem _ _ _ _

theorem topAt_step5c (dominant : String) (concentration : Option String) (st : St)
    (f : Formula) (d : String) :
    topAt (step5c dominant concentration st f).2 d = topAt f d := by
  unfold step5c
  by_cases hc : heavyFamilies.contains dominant = true ∧ totalFormulaCount f < 7 ∧
      (estimateSteeping st.picked concentration).category ≠ SteepCat.fastStable
  · rw [if_pos hc]
    exact topAt_structFold dominant _ (st, f) d
  · rw [if_neg hc]

theorem getFam_mapHB (g : String → FormulaIngredient → FormulaIngredient)
    (f : Formula) (d : String) :
    getFam (mapHB g f) d =
      (getFam f d).map (fun ls => ⟨ls.top, ls.heart.map (g d), ls.base.map (g d)⟩) := by
  induction f with
  | nil => rfl
  | cons hd tl ih =>
    obtain ⟨k, v⟩ := hd
    by_cases hk : (k == d) = true
    · have hkd : k = d := by simpa using hk
      subst hkd
      simp only [mapHB, List.map_cons, getFam, hk, if_pos, Option.map_some']
    · simp only [mapHB, List.map_cons, getFam, hk, Bool.false_eq_true, ite_false]
      simp only [mapHB] at ih
      exact ih

theorem topAt_mapHB (g : String → FormulaIngredient → FormulaIngredient)
    (f : Formula) (d : String) : topAt (mapHB g f) d = topAt f d := by
  unfold topAt
  rw [getFam_mapHB]
  cases getFam f d <;> rfl

theorem topAt_pass6a (hn : Option String) (f : Formula) (d : String) :
    topAt (pass6a hn f) d = topAt f d := by
  unfold pass6a
  by_cases hc : 1 < highDomCount f
  · rw [if_pos hc]
    exact topAt_mapHB _ _ _
  · rw [if_neg hc]

theorem topAt_pass6b (hn : Option String) (f : Formula) (d : String) :
    topAt (pass6b hn f) d = topAt f d := by
  unfold pass6b
  exact topAt_mapHB _ _ _

theorem topAt_updateAt (f : Formula) (fam : String) (ih : Bool) (idx : ℕ)
    (g : FormulaIngredient → FormulaIngredient) (d : String) :
    topAt (updateAt f fam ih idx g) d = topAt f d := by
  unfold updateAt
  exact topAt_modFam (by intro ls; by_cases h : ih = true <;> simp [h]) _ _ _

theorem topAt_reduceLoop (hn : Option String) (total : ℕ) (l : List HeavyItem)
    (r : ℕ) (f : Formula) (ns : List String) (d : String) :
    topAt (reduceLoop hn total l r f ns).1 d = topAt f d := by
  induction l generalizing r f ns with
  | nil => rfl
  | cons hd tl ih =>
    unfold reduceLoop
    by_cases h1 : (some hd.name == hn) = true
    · rw [if_pos h1]; exact ih _ _ _
    · rw [if_neg h1]
      by_cases h2 : total - r ≤ 2
      · rw [if_pos h2]
      · rw [if_neg h2]
        cases itemAt f hd.fam hd.isHeart hd.idx with
        | some item =>
          rw [ih _ _ _]
          exact topAt_updateAt _ _ _ _ _ _
        | none => exact ih _ _ _

theorem topAt_pass6c (hn : Option String) (f : Formula) (ns : List String)
    (d : String) : topAt (pass6c hn f ns).1 d = topAt f d := by
  unfold pass6c
  by_cases hc : 2 < (collectHeavy f).length
  · rw [if_pos hc]
    exact topAt_reduceLoop _ _ _ _ _ _ _
  · rw [if_neg hc]

theorem topAt_dampenWeaker (w : String) (f : Formula) (d : String) :
    topAt (dampenWeaker w f) d = topAt f d := by
  unfold dampenWeaker
  exact topAt_mapHB _ _ _

theorem topAt_pass7 (f : Formula) (ns : List String) (d : String) :
    topAt (pass7 f ns).1 d = topAt f d := by
  unfold pass7
  generalize usedGroupsOf f = L
  induction L generalizing f ns with
  | nil => rfl
  | cons hd tl ih =>
    rw [List.foldl_cons]
    cases hmm : hd.2 with
    | nil =>
      have happ : applyGroup (f, ns) hd = (f, ns) := by
        unfold applyGroup
        rw [hmm]
      rw [happ]
      exact ih _ _
    | cons m0 ms =>
      cases ms with
      | nil =>
        have happ : applyGroup (f, ns) hd = (f, ns) := by
          unfold applyGroup
          rw [hmm]
        rw [happ]
        exact ih _ _
      | cons m1 ms' =>
        have happ : applyGroup (f, ns) hd =
            (dampenWeaker m1 f, ns ++ [overlapNote hd.1 hd.2]) := by
          unfold applyGroup
          rw [hmm]
        rw [happ, ih _ _]
        exact topAt_dampenWeaker _ _ _

/-!
### Provenance of the dominant top layer
-/

theorem getD_cons_mem (t0 : RawIngredient) (rest : List RawIngredient) (i : ℕ) :
    (t0 :: rest).getD i t0 ∈ t0 :: rest := by
  rw [List.getD_eq_getElem?_getD]
  cases h : (t0 :: rest)[i]? with
  | none => exact List.mem_cons_self _ _
  | some x =>
    show x ∈ t0 :: rest
    first
    | exact List.mem_of_getElem? h
    | exact List.getElem?_mem h

theorem pickDomTop_raw (st : St) (pool : List RawIngredient) :
    ∀ it ∈ (pickDomTop st pool).2, ∃ rec ∈ pool,
      it = ⟨rec.name, rec.percent, rec.supplier, none⟩ := by
  cases pool with
  | nil => intro it hit; simp [pickDomTop] at hit
  | cons t0 rest =>
    intro it hit
    unfold pickDomTop at hit
    simp only [] at hit
    split at hit
    · split at hit
      · rename_i b hb
        simp only [List.cons_append, List.nil_append, List.mem_cons,
          List.not_mem_nil, or_false] at hit
        rcases hit with hit | hit
        · exact ⟨_, getD_cons_mem t0 rest _, hit⟩
        · exact ⟨b, List.mem_of_find?_eq_some hb, hit⟩
      · simp only [List.mem_singleton] at hit
        exact ⟨_, getD_cons_mem t0 rest _, hit⟩
    · simp only [List.mem_singleton] at hit
      exact ⟨_, getD_cons_mem t0 rest _, hit⟩

/-- After step 3 (called with the empty formula, as the engine does), every
dominant top-layer entry is a verbatim database top record. -/
theorem topRaw_step3 (dominant secondary accent : String) (ctx : ContextModifiers)
    (hero : Option RawIngredient) (st : St) :
    topRaw dominant (step3 dominant secondary accent ctx hero st []).2 := by
  unfold step3
  split
  · intro it hit
    simp [topAt, getFam] at hit
  · rename_i dom hdb
    intro it hit
    simp only [topAt_setFam_self] at hit
    obtain ⟨rec, hrec, hit⟩ := pickDomTop_raw _ _ it hit
    rw [List.mem_insertionSort] at hrec
    refine ⟨rec, ?_, hit⟩
    have : dbTop dominant = dom.top := by unfold dbTop; rw [hdb]
    rw [this]
    exact List.mem_of_mem_filter hrec

/-- Step 4 preserves the dominant top layer when the secondary family is a
different name. -/
theorem topRaw_step4 (dominant secondary accent : String) (hero : Option RawIngredient)
    (st : St) (f : Formula) (hds : dominant ≠ secondary)
    (h : topRaw dominant f) :
    topRaw dominant (step4 dominant secondary accent hero st f).2 := by
  unfold step4
  split
  · exact h
  · intro it hit
    rw [topAt_setFam_ne _ _ hds] at hit
    exact h it hit

/-- Step 5 preserves the raw-top property of the dominant family: if the
accent family is a different name the layer is untouched, and if it is the
same name it is replaced by an empty top layer. -/
theorem topRaw_step5 (dominant secondary accent : String) (hero : Option RawIngredient)
    (st : St) (f : Formula) (h : topRaw dominant f) :
    topRaw dominant (step5 dominant secondary accent hero st f).2 := by
  unfold step5
  split
  · exact h
  · intro it hit
    by_cases hda : dominant = accent
    · subst hda
      rw [topAt_setFam_self] at hit
      simp at hit
    · rw [topAt_setFam_ne _ _ hda] at hit
      exact h it hit

/-- Steps 5b and 5c preserve every top layer verbatim. -/
theorem topRaw_step5bc (dominant secondary accent : String)
    (concentration : Option String) (st4 st5 : St) (f : Formula)
    (h : topRaw dominant f) :
    topRaw dominant (step5c dominant concentration st5
      (step5b dominant secondary accent st4 f).2).2 := by
  intro it hit
  rw [topAt_step5c, topAt_step5b] at hit
  exact h it hit

/-!
## C5: hero exclusivity (counterexample)
-/

/-!
## C5 machinery: names, keys, positions and the hero bundle
-/



/-!
### Association-list structure lemmas
-/

theorem mem_setFam {f : Formula} {k : String} {ls : LayerSet} :
    ∀ p ∈ setFam f k ls, p ∈ f ∨ p = (k, ls) := by
  induction f with
  | nil => intro p hp; simp [setFam] at hp; right; exact hp
  | cons q rest ih =>
    intro p hp
    obtain ⟨k0, v0⟩ := q
    unfold setFam at hp
    split at hp
    · rcases List.mem_cons.mp hp with h | h
      · right; rename_i hk; rw [h]; rw [beq_iff_eq] at hk; rw [hk]
      · left; exact List.mem_cons_of_mem _ h
    · rcases List.mem_cons.mp hp with h | h
      · left; rw [h]; exact List.mem_cons_self _ _
      · rcases ih p h with h' | h'
        · left; exact List.mem_cons_of_mem _ h'
        · right; exact h'

theorem getFam_setFam_ne {f : Formula} {k d : String} (h : d ≠ k) (ls : LayerSet) :
    getFam (setFam f k ls) d = getFam f d := by
  induction f with
  | nil =>
    simp only [setFam, getFam]
    rw [if_neg]
    intro hb; exact h (beq_iff_eq.mp hb).symm
  | cons q rest ih =>
    obtain ⟨k0, v0⟩ := q
    unfold setFam
    split
    · rename_i hk
      rw [beq_iff_eq] at hk
      subst hk
      unfold getFam
      rw [if_neg, if_neg] <;>
        (intro hb; exact h (beq_iff_eq.mp hb).symm)
    · unfold getFam
      split
      · rfl
      · exact ih

theorem mem_modFam {f : Formula} {k : String} {g : LayerSet → LayerSet} :
    ∀ p ∈ modFam f k g, p ∈ f ∨ ∃ v, (k, v) ∈ f ∧ p = (k, g v) := by
  induction f with
  | nil => intro p hp; simp [modFam] at hp
  | cons q rest ih =>
    intro p hp
    obtain ⟨k0, v0⟩ := q
    unfold modFam at hp
    split at hp
    · rename_i hk
      rw [beq_iff_eq] at hk
      subst hk
      rcases List.mem_cons.mp hp with h | h
      · right; exact ⟨v0, List.mem_cons_self _ _, h⟩
      · left; exact List.mem_cons_of_mem _ h
    · rcases List.mem_cons.mp hp with h | h
      · left; rw [h]; exact List.mem_cons_self _ _
      · rcases ih p h with h' | ⟨v, hv, hpv⟩
        · left; exact List.mem_cons_of_mem _ h'
        · right; exact ⟨v, List.mem_cons_of_mem _ hv, hpv⟩

theorem getFam_modFam (f : Formula) (k d : String) (g : LayerSet → LayerSet) :
    getFam (modFam f k g) d = if k = d then (getFam f d).map g else getFam f d := by
  induction f with
  | nil => simp [modFam, getFam]
  | cons q rest ih =>
    obtain ⟨k0, v0⟩ := q
    unfold modFam
    split
    · rename_i hk
      rw [beq_iff_eq] at hk
      subst hk
      by_cases hkd : k0 = d
      · subst hkd
        simp [getFam]
      · unfold getFam
        rw [if_neg (fun hb => hkd (beq_iff_eq.mp hb)),
          if_neg (fun hb => hkd (beq_iff_eq.mp hb)), if_neg hkd]
    · rename_i hk
      unfold getFam
      by_cases hk0d : k0 = d
      · subst hk0d
        rw [if_pos (beq_iff_eq.mpr rfl), if_pos (beq_iff_eq.mpr rfl)]
        rw [if_neg]
        intro hkd
        subst hkd
        exact hk (beq_iff_eq.mpr rfl)
      · rw [if_neg (fun hb => hk0d (beq_iff_eq.mp hb)),
          if_neg (fun hb => hk0d (beq_iff_eq.mp hb))]
        exact ih

theorem getFam_append_of_some {f r : Formula} {d : String} {L : LayerSet}
    (h : getFam f d = some L) : getFam (f ++ r) d = some L := by
  induction f with
  | nil => simp [getFam] at h
  | cons q rest ih =>
    obtain ⟨k0, v0⟩ := q
    rw [List.cons_append]
    unfold getFam at h ⊢
    split at h
    · rename_i hk; rw [if_pos hk]; exact h
    · rename_i hk; rw [if_neg hk]; exact ih h

theorem mem_ensureFam {f : Formula} {k : String} :
    ∀ p ∈ ensureFam f k, p ∈ f ∨ p = (k, ⟨[], [], []⟩) := by
  intro p hp
  unfold ensureFam at hp
  split at hp
  · left; exact hp
  · rcases List.mem_append.mp hp with h | h
    · left; exact h
    · right; exact List.mem_singleton.mp h

theorem getFam_ensureFam_of_some {f : Formula} {k d : String} {L : LayerSet}
    (h : getFam f d = some L) : getFam (ensureFam f k) d = some L := by
  unfold ensureFam
  split
  · exact h
  · exact getFam_append_of_some h

/-!
### Key lists and their nodup preservation
-/

theorem keysOf_modFam (f : Formula) (k : String) (g : LayerSet → LayerSet) :
    keysOf (modFam f k g) = keysOf f := by
  induction f with
  | nil => rfl
  | cons q rest ih =>
    obtain ⟨k0, v0⟩ := q
    unfold modFam
    split
    · rfl
    · unfold keysOf at ih ⊢
      simp only [List.map_cons]
      rw [ih]

theorem mem_keysOf_setFam {f : Formula} {k x : String} {ls : LayerSet}
    (h : x ∈ keysOf (setFam f k ls)) : x ∈ keysOf f ∨ x = k := by
  induction f with
  | nil => right; simpa [setFam, keysOf] using h
  | cons q rest ih =>
    obtain ⟨k0, v0⟩ := q
    unfold setFam at h
    split at h
    · left; exact h
    · unfold keysOf at h
      rw [List.map_cons] at h
      rcases List.mem_cons.mp h with h' | h'
      · left; rw [h']; exact List.mem_cons_self _ _
      · rcases ih h' with h'' | h''
        · left; exact List.mem_cons_of_mem _ h''
        · right; exact h''

theorem nodup_keysOf_setFam {f : Formula} (k : String) (ls : LayerSet)
    (h : (keysOf f).Nodup) : (keysOf (setFam f k ls)).Nodup := by
  induction f with
  | nil => simp [setFam, keysOf]
  | cons q rest ih =>
    obtain ⟨k0, v0⟩ := q
    unfold setFam
    split
    · exact h
    · rename_i hk
      unfold keysOf at h ⊢
      rw [List.map_cons] at h ⊢
      rw [List.nodup_cons] at h ⊢
      refine ⟨?_, ih h.2⟩
      intro hmem
      rcases mem_keysOf_setFam hmem with h' | h'
      · exact h.1 h'
      · exact hk (beq_iff_eq.mpr h')

theorem not_mem_keysOf_of_getFam_none {f : Formula} {k : String}
    (h : getFam f k = none) : k ∉ keysOf f := by
  induction f with
  | nil => simp [keysOf]
  | cons q rest ih =>
    obtain ⟨k0, v0⟩ := q
    unfold getFam at h
    split at h
    · exact absurd h (by simp)
    · rename_i hk
      unfold keysOf
      rw [List.map_cons, List.mem_cons]
      rintro (h' | h')
      · exact hk (beq_iff_eq.mpr h'.symm)
      · exact ih h h'

theorem nodup_keysOf_ensureFam {f : Formula} (k : String)
    (h : (keysOf f).Nodup) : (keysOf (ensureFam f k)).Nodup := by
  unfold ensureFam
  split
  · exact h
  · rename_i hs
    have hk : k ∉ keysOf f := by
      apply not_mem_keysOf_of_getFam_none
      cases hg : getFam f k
      · rfl
      · rw [hg] at hs; simp at hs
    unfold keysOf at h hk ⊢
    rw [List.map_append]
    rw [List.nodup_append]
    refine ⟨h, by simp, ?_⟩
    intro x hx hx'
    simp only [List.map_cons, List.map_nil, List.mem_singleton] at hx'
    rw [hx'] at hx
    exact hk hx

theorem getFam_of_mem_nodup {f : Formula} {k : String} {v : LayerSet}
    (hnd : (keysOf f).Nodup) (hm : (k, v) ∈ f) : getFam f k = some v := by
  induction f with
  | nil => simp at hm
  | cons q rest ih =>
    obtain ⟨k0, v0⟩ := q
    unfold keysOf at hnd
    rw [List.map_cons, List.nodup_cons] at hnd
    rcases List.mem_cons.mp hm with h | h
    · rw [Prod.mk.injEq] at h
      obtain ⟨hk, hv⟩ := h
      subst hk; subst hv
      unfold getFam
      rw [if_pos (beq_iff_eq.mpr rfl)]
    · unfold getFam
      split
      · rename_i hk
        exfalso
        apply hnd.1
        show k0 ∈ List.map Prod.fst rest
        rw [beq_iff_eq.mp hk]
        exact List.mem_map_of_mem Prod.fst h
      · exact ih hnd.2 h

/-!
### Positions: setIdx and updateAt
-/

theorem setIdx_get? (l : List FormulaIngredient) (i j : ℕ)
    (g : FormulaIngredient → FormulaIngredient) :
    (setIdx l i g).get? j = if i = j then (l.get? j).map g else l.get? j := by
  unfold setIdx
  split
  · rename_i it hit
    rw [List.get?_set]
    by_cases hij : i = j
    · subst hij
      rw [if_pos rfl, if_pos rfl, hit]
      rfl
    · rw [if_neg hij, if_neg hij]
  · rename_i hit
    by_cases hij : i = j
    · subst hij
      rw [if_pos rfl, hit]
      rfl
    · rw [if_neg hij]

theorem setIdx_getElem? (l : List FormulaIngredient) (i j : ℕ)
    (g : FormulaIngredient → FormulaIngredient) :
    (setIdx l i g)[j]? = if i = j then l[j]?.map g else l[j]? := by
  have h := setIdx_get? l i j g
  simp only [List.get?_eq_getElem?] at h
  exact h

theorem itemAt_updateAt (f : Formula) (fam : String) (ih : Bool) (idx : ℕ)
    (fam' : String) (ih' : Bool) (idx' : ℕ)
    (g : FormulaIngredient → FormulaIngredient) :
    itemAt (updateAt f fam ih idx g) fam' ih' idx' =
      if fam = fam' ∧ ih = ih' ∧ idx = idx' then (itemAt f fam' ih' idx').map g
      else itemAt f fam' ih' idx' := by
  unfold itemAt updateAt
  rw [getFam_modFam]
  by_cases hf : fam = fam'
  · subst hf
    rw [if_pos rfl]
    cases hL : getFam f fam with
    | none =>
      simp only [Option.map_none']
      split <;> rfl
    | some L =>
      simp only [Option.map_some']
      cases ih <;> cases ih' <;> by_cases hidx : idx = idx' <;>
        simp [hidx, setIdx_getElem?]
  · rw [if_neg hf, if_neg (fun hc => hf hc.1)]

theorem itemAt_updateAt_name {g : FormulaIngredient → FormulaIngredient}
    (hg : ∀ y, (g y).name = y.name) {f : Formula} {fam : String} {ih : Bool} {idx : ℕ}
    {fam' : String} {ih' : Bool} {idx' : ℕ} {x : FormulaIngredient}
    (hx : itemAt (updateAt f fam ih idx g) fam' ih' idx' = some x) :
    ∃ y, itemAt f fam' ih' idx' = some y ∧ x.name = y.name := by
  rw [itemAt_updateAt] at hx
  split at hx
  · cases hy : itemAt f fam' ih' idx' with
    | none => rw [hy] at hx; simp at hx
    | some y =>
      rw [hy] at hx
      simp only [Option.map_some', Option.some.injEq] at hx
      exact ⟨y, rfl, by rw [← hx]; exact hg y⟩
  · exact ⟨x, hx, rfl⟩

/-!
### Name-directed filters
-/

theorem filter_name_map {nm : String} {g : FormulaIngredient → FormulaIngredient}
    (hg : ∀ x, (g x).name = x.name) (hfix : ∀ x, x.name = nm → g x = x) :
    ∀ l : List FormulaIngredient,
      (l.map g).filter (fun x => x.name == nm) = l.filter (fun x => x.name == nm)
  | [] => rfl
  | x :: xs => by
    rw [List.map_cons, List.filter_cons, List.filter_cons]
    by_cases hx : x.name = nm
    · rw [if_pos (by rw [hg]; exact beq_iff_eq.mpr hx), if_pos (beq_iff_eq.mpr hx),
        hfix x hx, filter_name_map hg hfix xs]
    · rw [if_neg (by rw [hg]; simp [hx]), if_neg (by simp [hx]),
        filter_name_map hg hfix xs]

theorem filter_name_map_length {nm : String} {g : FormulaIngredient → FormulaIngredient}
    (hg : ∀ x, (g x).name = x.name) (l : List FormulaIngredient) :
    ((l.map g).filter (fun x => x.name == nm)).length =
      (l.filter (fun x => x.name == nm)).length := by
  induction l with
  | nil => rfl
  | cons x xs ih =>
    rw [List.map_cons, List.filter_cons, List.filter_cons]
    by_cases hx : x.name = nm
    · rw [if_pos (by rw [hg]; exact beq_iff_eq.mpr hx), if_pos (beq_iff_eq.mpr hx)]
      simp only [List.length_cons, ih]
    · rw [if_neg (by rw [hg]; simp [hx]), if_neg (by simp [hx]), ih]

theorem filter_name_setIdx_length {nm : String} {g : FormulaIngredient → FormulaIngredient}
    (hg : ∀ y, (g y).name = y.name) :
    ∀ (l : List FormulaIngredient) (idx : ℕ),
      ((setIdx l idx g).filter (fun x => x.name == nm)).length =
        (l.filter (fun x => x.name == nm)).length
  | [], _ => rfl
  | x :: xs, 0 => by
    show ((g x :: xs).filter _).length = _
    rw [List.filter_cons, List.filter_cons]
    by_cases hx : x.name = nm
    · rw [if_pos (by rw [hg]; exact beq_iff_eq.mpr hx), if_pos (beq_iff_eq.mpr hx)]
      rfl
    · rw [if_neg (by rw [hg]; simp [hx]), if_neg (by simp [hx])]
  | x :: xs, idx + 1 => by
    have hstep : setIdx (x :: xs) (idx + 1) g = x :: setIdx xs idx g := by
      unfold setIdx
      show (match (xs.get? idx : Option FormulaIngredient) with
        | some it => (x :: xs).set (idx + 1) (g it) | none => x :: xs) = _
      cases h : xs.get? idx with
      | none => rfl
      | some it => rfl
    rw [hstep, List.filter_cons, List.filter_cons]
    split
    · simp only [List.length_cons, filter_name_setIdx_length hg xs idx]
    · exact filter_name_setIdx_length hg xs idx

theorem filter_name_setIdx_ne {nm : String} {g : FormulaIngredient → FormulaIngredient} :
    ∀ (l : List FormulaIngredient) (idx : ℕ) (it : FormulaIngredient),
      l.get? idx = some it → ¬it.name = nm → (g it).name = it.name →
      (setIdx l idx g).filter (fun x => x.name == nm) = l.filter (fun x => x.name == nm)
  | [], _, it, hit, _, _ => by simp at hit
  | x :: xs, 0, it, hit, hne, hgn => by
    have hx : x = it := by
      simp only [List.get?] at hit
      exact Option.some.inj hit
    subst hx
    show ((g x :: xs).filter _) = _
    rw [List.filter_cons, List.filter_cons,
      if_neg (by rw [hgn]; simp [hne]), if_neg (by simp [hne])]
  | x :: xs, idx + 1, it, hit, hne, hgn => by
    have hstep : setIdx (x :: xs) (idx + 1) g = x :: setIdx xs idx g := by
      unfold setIdx
      show (match (xs.get? idx : Option FormulaIngredient) with
        | some it => (x :: xs).set (idx + 1) (g it) | none => x :: xs) = _
      cases h : xs.get? idx with
      | none => rfl
      | some it => rfl
    have hit' : xs.get? idx = some it := hit
    rw [hstep, List.filter_cons, List.filter_cons]
    split
    · rw [filter_name_setIdx_ne xs idx it hit' hne hgn]
    · exact filter_name_setIdx_ne xs idx it hit' hne hgn

/-!
### Name-blind measures through the conflict passes
-/

theorem reduce07_name (y : FormulaIngredient) : (reduce07 y).name = y.name := rfl

theorem reduce06_name (y : FormulaIngredient) : (reduce06 y).name = y.name := rfl

theorem reduce6aItem_name (hn : Option String) (fam : String) (x : FormulaIngredient) :
    (reduce6aItem hn fam x).name = x.name := by
  unfold reduce6aItem
  split
  · rfl
  · split <;> rfl

theorem clamp6bItem_name (hn : Option String) (x : FormulaIngredient) :
    (clamp6bItem hn x).name = x.name := by
  unfold clamp6bItem
  split
  · rfl
  · split <;> rfl

theorem namedInLayers_mapHB_length {nm : String}
    {g : String → FormulaIngredient → FormulaIngredient}
    (hg : ∀ fam x, (g fam x).name = x.name) (k : String) (v : LayerSet) :
    (namedInLayers ⟨v.top, v.heart.map (g k), v.base.map (g k)⟩ nm).length =
      (namedInLayers v nm).length := by
  unfold namedInLayers
  simp only [List.length_append]
  rw [filter_name_map_length (hg k), filter_name_map_length (hg k)]

theorem countName_mapHB {nm : String} {g : String → FormulaIngredient → FormulaIngredient}
    (hg : ∀ fam x, (g fam x).name = x.name) (f : Formula) :
    countName (mapHB g f) nm = countName f nm := by
  unfold countName namedItems mapHB
  simp only [List.map_map, List.length_flatten]
  congr 1
  apply List.map_congr_left
  intro p _
  show (namedInLayers ⟨p.2.top, p.2.heart.map (g p.1), p.2.base.map (g p.1)⟩ nm).length =
    (namedInLayers p.2 nm).length
  exact namedInLayers_mapHB_length hg p.1 p.2

theorem namedItems_mapHB_fix {nm : String} {g : String → FormulaIngredient → FormulaIngredient}
    (hg : ∀ fam x, (g fam x).name = x.name)
    (hfix : ∀ fam x, x.name = nm → g fam x = x) (f : Formula) :
    namedItems (mapHB g f) nm = namedItems f nm := by
  unfold namedItems mapHB
  rw [List.map_map]
  congr 1
  apply List.map_congr_left
  intro p _
  show namedInLayers ⟨p.2.top, p.2.heart.map (g p.1), p.2.base.map (g p.1)⟩ nm =
    namedInLayers p.2 nm
  unfold namedInLayers
  rw [filter_name_map (hg p.1) (hfix p.1), filter_name_map (hg p.1) (hfix p.1)]

theorem heartCountAt_mapHB {nm : String} {g : String → FormulaIngredient → FormulaIngredient}
    (hg : ∀ fam x, (g fam x).name = x.name) (f : Formula) (d : String) :
    heartCountAt (mapHB g f) d nm = heartCountAt f d nm := by
  unfold heartCountAt
  rw [getFam_mapHB]
  cases getFam f d with
  | none => rfl
  | some L =>
    simp only [Option.map_some', Option.getD_some]
    exact filter_name_map_length (hg d) L.heart

theorem baseCountAt_mapHB {nm : String} {g : String → FormulaIngredient → FormulaIngredient}
    (hg : ∀ fam x, (g fam x).name = x.name) (f : Formula) (d : String) :
    baseCountAt (mapHB g f) d nm = baseCountAt f d nm := by
  unfold baseCountAt
  rw [getFam_mapHB]
  cases getFam f d with
  | none => rfl
  | some L =>
    simp only [Option.map_some', Option.getD_some]
    exact filter_name_map_length (hg d) L.base

theorem namedItems_modFam_of_eqAt {nm : String} {f : Formula} {k : String}
    {g : LayerSet → LayerSet}
    (hgg : ∀ v, getFam f k = some v → namedInLayers (g v) nm = namedInLayers v nm) :
    namedItems (modFam f k g) nm = namedItems f nm := by
  induction f with
  | nil => rfl
  | cons q rest ih =>
    obtain ⟨k0, v0⟩ := q
    unfold modFam
    split
    · rename_i hk
      unfold namedItems
      rw [List.map_cons, List.map_cons]
      have hv : namedInLayers (g v0) nm = namedInLayers v0 nm :=
        hgg v0 (by unfold getFam; rw [if_pos hk])
      rw [hv]
    · rename_i hk
      unfold namedItems at ih ⊢
      rw [List.map_cons, List.map_cons, List.flatten_cons, List.flatten_cons]
      exact congrArg _ (ih (fun v hv => hgg v (by unfold getFam; rw [if_neg hk]; exact hv)))

theorem countName_modFam_of_lenAt {nm : String} {f : Formula} {k : String}
    {g : LayerSet → LayerSet}
    (hgg : ∀ v, getFam f k = some v →
      (namedInLayers (g v) nm).length = (namedInLayers v nm).length) :
    countName (modFam f k g) nm = countName f nm := by
  induction f with
  | nil => rfl
  | cons q rest ih =>
    obtain ⟨k0, v0⟩ := q
    unfold modFam
    split
    · rename_i hk
      unfold countName namedItems
      rw [List.map_cons, List.map_cons, List.flatten_cons, List.flatten_cons,
        List.length_append, List.length_append,
        hgg v0 (by unfold getFam; rw [if_pos hk])]
    · rename_i hk
      unfold countName namedItems at ih ⊢
      rw [List.map_cons, List.map_cons, List.flatten_cons, List.flatten_cons,
        List.length_append, List.length_append,
        ih (fun v hv => hgg v (by unfold getFam; rw [if_neg hk]; exact hv))]

theorem countName_updateAt {nm : String} {g : FormulaIngredient → FormulaIngredient}
    (hg : ∀ y, (g y).name = y.name) (f : Formula) (fam : String) (ih : Bool) (idx : ℕ) :
    countName (updateAt f fam ih idx g) nm = countName f nm := by
  unfold updateAt
  apply countName_modFam_of_lenAt
  intro v _
  cases ih
  · show (namedInLayers ⟨v.top, v.heart, setIdx v.base idx g⟩ nm).length = _
    unfold namedInLayers
    simp only [List.length_append]
    rw [filter_name_setIdx_length hg]
  · show (namedInLayers ⟨v.top, setIdx v.heart idx g, v.base⟩ nm).length = _
    unfold namedInLayers
    simp only [List.length_append]
    rw [filter_name_setIdx_length hg]

theorem namedItems_updateAt_ne {nm : String} {g : FormulaIngredient → FormulaIngredient}
    (hg : ∀ y, (g y).name = y.name) {f : Formula} {fam : String} {ih : Bool} {idx : ℕ}
    {it : FormulaIngredient} (hit : itemAt f fam ih idx = some it) (hne : ¬it.name = nm) :
    namedItems (updateAt f fam ih idx g) nm = namedItems f nm := by
  unfold updateAt
  apply namedItems_modFam_of_eqAt
  intro v hv
  unfold itemAt at hit
  rw [hv] at hit
  cases ih
  · show namedInLayers ⟨v.top, v.heart, setIdx v.base idx g⟩ nm = _
    unfold namedInLayers
    rw [filter_name_setIdx_ne v.base idx it hit hne (hg it)]
  · show namedInLayers ⟨v.top, setIdx v.heart idx g, v.base⟩ nm = _
    unfold namedInLayers
    rw [filter_name_setIdx_ne v.heart idx it hit hne (hg it)]

theorem heartCountAt_updateAt {nm : String} {g : FormulaIngredient → FormulaIngredient}
    (hg : ∀ y, (g y).name = y.name) (f : Formula) (fam : String) (ih : Bool) (idx : ℕ)
    (d : String) :
    heartCountAt (updateAt f fam ih idx g) d nm = heartCountAt f d nm := by
  unfold heartCountAt updateAt
  rw [getFam_modFam]
  by_cases hfd : fam = d
  · subst hfd
    rw [if_pos rfl]
    cases hL : getFam f fam with
    | none => rfl
    | some L =>
      simp only [Option.map_some', Option.getD_some]
      cases ih
      · rfl
      · exact filter_name_setIdx_length hg L.heart idx
  · rw [if_neg hfd]

theorem baseCountAt_updateAt {nm : String} {g : FormulaIngredient → FormulaIngredient}
    (hg : ∀ y, (g y).name = y.name) (f : Formula) (fam : String) (ih : Bool) (idx : ℕ)
    (d : String) :
    baseCountAt (updateAt f fam ih idx g) d nm = baseCountAt f d nm := by
  unfold baseCountAt updateAt
  rw [getFam_modFam]
  by_cases hfd : fam = d
  · subst hfd
    rw [if_pos rfl]
    cases hL : getFam f fam with
    | none => rfl
    | some L =>
      simp only [Option.map_some', Option.getD_some]
      cases ih
      · exact filter_name_setIdx_length hg L.base idx
      · rfl
  · rw [if_neg hfd]

theorem measure_reduceLoop {m : Formula → ℕ}
    (hm : ∀ f fam ih idx, m (updateAt f fam ih idx reduce07) = m f)
    {hn : Option String} {total : ℕ} :
    ∀ (l : List HeavyItem) (r : ℕ) (f : Formula) (ns : List String),
      m (reduceLoop hn total l r f ns).1 = m f
  | [], _, _, _ => rfl
  | rec :: rest, r, f, ns => by
    unfold reduceLoop
    split
    · exact measure_reduceLoop hm rest r f ns
    · split
      · rfl
      · split
        · rw [measure_reduceLoop hm rest _ _ _, hm]
        · exact measure_reduceLoop hm rest r f ns

theorem namedItems_reduceLoop {nm : String} {hn : Option String} (hhn : hn = some nm)
    (total : ℕ) :
    ∀ (l : List HeavyItem) (r : ℕ) (f : Formula) (ns : List String),
      (∀ rec ∈ l, ∀ x, itemAt f rec.fam rec.isHeart rec.idx = some x → x.name = rec.name) →
      namedItems (reduceLoop hn total l r f ns).1 nm = namedItems f nm
  | [], _, _, _, _ => rfl
  | rec :: rest, r, f, ns, hcons => by
    unfold reduceLoop
    split
    · exact namedItems_reduceLoop hhn total rest r f ns
        (fun rc hrc => hcons rc (List.mem_cons_of_mem _ hrc))
    · rename_i hskip
      split
      · rfl
      · split
        · rename_i item hitem
          have hname : item.name = rec.name := hcons rec (List.mem_cons_self _ _) item hitem
          have hne : ¬item.name = nm := by
            intro he
            apply hskip
            rw [hhn, hname.symm.trans he]
            exact beq_iff_eq.mpr rfl
          rw [namedItems_reduceLoop hhn total rest _ _ _ ?_,
            namedItems_updateAt_ne reduce07_name hitem hne]
          intro rc hrc x hx
          rcases itemAt_updateAt_name reduce07_name hx with ⟨y, hy, hxy⟩
          rw [hxy]
          exact hcons rc (List.mem_cons_of_mem _ hrc) y hy
        · exact namedItems_reduceLoop hhn total rest r f ns
            (fun rc hrc => hcons rc (List.mem_cons_of_mem _ hrc))

theorem countName_pass6c {nm : String} (hn : Option String) (f : Formula)
    (ns : List String) : countName (pass6c hn f ns).1 nm = countName f nm := by
  simp only [pass6c]
  show countName (if 2 < (collectHeavy f).length then
      reduceLoop hn (collectHeavy f).length
        (List.insertionSort (heavyRel hn) (collectHeavy f)) 0 f ns
    else (f, ns)).1 nm = countName f nm
  split
  · exact @measure_reduceLoop (fun f => countName f nm)
      (fun f fam ih idx => countName_updateAt reduce07_name f fam ih idx) hn _ _ _ _ _
  · rfl

theorem heartCountAt_pass6c {nm : String} (hn : Option String) (f : Formula)
    (ns : List String) (d : String) :
    heartCountAt (pass6c hn f ns).1 d nm = heartCountAt f d nm := by
  simp only [pass6c]
  show heartCountAt (if 2 < (collectHeavy f).length then
      reduceLoop hn (collectHeavy f).length
        (List.insertionSort (heavyRel hn) (collectHeavy f)) 0 f ns
    else (f, ns)).1 d nm = heartCountAt f d nm
  split
  · exact @measure_reduceLoop (fun f => heartCountAt f d nm)
      (fun f fam ih idx => heartCountAt_updateAt reduce07_name f fam ih idx d) hn _ _ _ _ _
  · rfl

theorem baseCountAt_pass6c {nm : String} (hn : Option String) (f : Formula)
    (ns : List String) (d : String) :
    baseCountAt (pass6c hn f ns).1 d nm = baseCountAt f d nm := by
  simp only [pass6c]
  show baseCountAt (if 2 < (collectHeavy f).length then
      reduceLoop hn (collectHeavy f).length
        (List.insertionSort (heavyRel hn) (collectHeavy f)) 0 f ns
    else (f, ns)).1 d nm = baseCountAt f d nm
  split
  · exact @measure_reduceLoop (fun f => baseCountAt f d nm)
      (fun f fam ih idx => baseCountAt_updateAt reduce07_name f fam ih idx d) hn _ _ _ _ _
  · rfl

theorem dampen_name (w : String) (fam : String) (x : FormulaIngredient) :
    ((fun (_ : String) (it : FormulaIngredient) =>
      if it.name == w then reduce06 it else it) fam x).name = x.name := by
  show (if x.name == w then reduce06 x else x).name = x.name
  split <;> rfl

theorem measure_applyGroup_fold {m : Formula → ℕ}
    (hd : ∀ w f, m (dampenWeaker w f) = m f) :
    ∀ (l : List (String × List String)) (p : Formula × List String),
      m (l.foldl applyGroup p).1 = m p.1
  | [], _ => rfl
  | gp :: rest, p => by
    rw [List.foldl_cons, measure_applyGroup_fold hd rest _]
    unfold applyGroup
    split
    · exact hd _ _
    · rfl

theorem countName_pass7 {nm : String} (f : Formula) (ns : List String) :
    countName (pass7 f ns).1 nm = countName f nm := by
  unfold pass7
  exact @measure_applyGroup_fold (fun f => countName f nm)
    (fun w f => by unfold dampenWeaker; exact countName_mapHB (dampen_name w) f) _ _

theorem heartCountAt_pass7 {nm : String} (f : Formula) (ns : List String) (d : String) :
    heartCountAt (pass7 f ns).1 d nm = heartCountAt f d nm := by
  unfold pass7
  exact @measure_applyGroup_fold (fun f => heartCountAt f d nm)
    (fun w f => by unfold dampenWeaker; exact heartCountAt_mapHB (dampen_name w) f d) _ _

theorem baseCountAt_pass7 {nm : String} (f : Formula) (ns : List String) (d : String) :
    baseCountAt (pass7 f ns).1 d nm = baseCountAt f d nm := by
  unfold pass7
  exact @measure_applyGroup_fold (fun f => baseCountAt f d nm)
    (fun w f => by unfold dampenWeaker; exact baseCountAt_mapHB (dampen_name w) f d) _ _

theorem namedItems_pass6a {nm : String} (f : Formula) :
    namedItems (pass6a (some nm) f) nm = namedItems f nm := by
  unfold pass6a
  split
  · apply namedItems_mapHB_fix (reduce6aItem_name (some nm))
    intro fam x hx
    unfold reduce6aItem
    rw [if_pos (beq_iff_eq.mpr (by rw [hx]))]
  · rfl

theorem namedItems_pass6b {nm : String} (f : Formula) :
    namedItems (pass6b (some nm) f) nm = namedItems f nm := by
  unfold pass6b
  apply namedItems_mapHB_fix (fun _ => clamp6bItem_name (some nm))
  intro fam x hx
  unfold clamp6bItem
  rw [if_pos (beq_iff_eq.mpr (by rw [hx]))]

theorem countName_pass6a {nm : String} (hn : Option String) (f : Formula) :
    countName (pass6a hn f) nm = countName f nm := by
  unfold pass6a
  split
  · exact countName_mapHB (reduce6aItem_name hn) f
  · rfl

theorem countName_pass6b {nm : String} (hn : Option String) (f : Formula) :
    countName (pass6b hn f) nm = countName f nm :=
  countName_mapHB (fun _ => clamp6bItem_name hn) f

theorem heartCountAt_pass6a {nm : String} (hn : Option String) (f : Formula) (d : String) :
    heartCountAt (pass6a hn f) d nm = heartCountAt f d nm := by
  unfold pass6a
  split
  · exact heartCountAt_mapHB (reduce6aItem_name hn) f d
  · rfl

theorem heartCountAt_pass6b {nm : String} (hn : Option String) (f : Formula) (d : String) :
    heartCountAt (pass6b hn f) d nm = heartCountAt f d nm :=
  heartCountAt_mapHB (fun _ => clamp6bItem_name hn) f d

theorem baseCountAt_pass6a {nm : String} (hn : Option String) (f : Formula) (d : String) :
    baseCountAt (pass6a hn f) d nm = baseCountAt f d nm := by
  unfold pass6a
  split
  · exact baseCountAt_mapHB (reduce6aItem_name hn) f d
  · rfl

theorem baseCountAt_pass6b {nm : String} (hn : Option String) (f : Formula) (d : String) :
    baseCountAt (pass6b hn f) d nm = baseCountAt f d nm :=
  baseCountAt_mapHB (fun _ => clamp6bItem_name hn) f d

/-!
### Consistency of the pass 6c position records
-/

theorem foldl_append_collect :
    ∀ (l : Formula) (init : List HeavyItem),
      l.foldl (fun a p => a ++ collectLayer p.1 true p.2.heart ++
          collectLayer p.1 false p.2.base) init =
        init ++ (l.map (fun p => collectLayer p.1 true p.2.heart ++
          collectLayer p.1 false p.2.base)).flatten
  | [], init => by simp
  | q :: rest, init => by
    rw [List.foldl_cons, foldl_append_collect rest _, List.map_cons, List.flatten_cons]
    simp [List.append_assoc]

theorem mem_collectHeavy {f : Formula} {rec : HeavyItem} (h : rec ∈ collectHeavy f) :
    ∃ p ∈ f, rec ∈ collectLayer p.1 true p.2.heart ∨ rec ∈ collectLayer p.1 false p.2.base := by
  unfold collectHeavy at h
  rw [foldl_append_collect, List.nil_append, List.mem_flatten] at h
  obtain ⟨l, hl, hrl⟩ := h
  rw [List.mem_map] at hl
  obtain ⟨p, hp, hlp⟩ := hl
  rw [← hlp] at hrl
  exact ⟨p, hp, List.mem_append.mp hrl⟩

theorem mem_collectLayer {fam : String} {hb : Bool} {items : List FormulaIngredient}
    {rec : HeavyItem} (h : rec ∈ collectLayer fam hb items) :
    rec.fam = fam ∧ rec.isHeart = hb ∧
      ∃ y, items.get? rec.idx = some y ∧ rec.name = y.name ∧ 5 < getUpperPct y := by
  unfold collectLayer at h
  rw [List.mem_filterMap] at h
  obtain ⟨⟨i, y⟩, hmem, hF⟩ := h
  obtain ⟨hlen, hy⟩ := List.mem_enum hmem
  split at hF
  · rename_i h5
    have hrec := Option.some.inj hF
    subst hrec
    refine ⟨rfl, rfl, y, ?_, rfl, h5⟩
    show items.get? i = some y
    rw [List.get?_eq_getElem?, List.getElem?_eq_getElem hlen, hy]
  · exact absurd hF (by simp)

theorem collect_consistent {f : Formula} (hnd : (keysOf f).Nodup) :
    ∀ rec ∈ collectHeavy f, ∀ x,
      itemAt f rec.fam rec.isHeart rec.idx = some x →
        x.name = rec.name ∧ 5 < getUpperPct x := by
  intro rec hrec x hx
  obtain ⟨p, hp, hcol⟩ := mem_collectHeavy hrec
  have hget : getFam f p.1 = some p.2 := getFam_of_mem_nodup hnd (by exact hp)
  rcases hcol with hcol | hcol <;>
  · obtain ⟨hfam, hih, y, hgy, hny, h5y⟩ := mem_collectLayer hcol
    unfold itemAt at hx
    rw [hfam, hih, hget] at hx
    have hxy : some x = some y := by rw [← hx, ← hgy]; rfl
    constructor
    · rw [Option.some.inj hxy]
      exact hny.symm
    · rw [Option.some.inj hxy]
      exact h5y

theorem keysOf_mapHB (g : String → FormulaIngredient → FormulaIngredient) (f : Formula) :
    keysOf (mapHB g f) = keysOf f := by
  unfold keysOf mapHB
  rw [List.map_map]
  apply List.map_congr_left
  intro p _
  rfl

theorem keysOf_pass6a (hn : Option String) (f : Formula) :
    keysOf (pass6a hn f) = keysOf f := by
  unfold pass6a
  split
  · exact keysOf_mapHB _ f
  · rfl

theorem keysOf_pass6b (hn : Option String) (f : Formula) :
    keysOf (pass6b hn f) = keysOf f :=
  keysOf_mapHB _ f

theorem namedItems_pass6c {nm : String} {f : Formula} {ns : List String}
    (hnd : (keysOf f).Nodup) :
    namedItems (pass6c (some nm) f ns).1 nm = namedItems f nm := by
  simp only [pass6c]
  show namedItems (if 2 < (collectHeavy f).length then
      reduceLoop (some nm) (collectHeavy f).length
        (List.insertionSort (heavyRel (some nm)) (collectHeavy f)) 0 f ns
    else (f, ns)).1 nm = namedItems f nm
  split
  · apply namedItems_reduceLoop rfl
    intro rc hrc x hx
    exact (collect_consistent hnd rc ((List.mem_insertionSort _).mp hrc) x hx).1
  · rfl

/-!
### Provenance of picked items
-/

theorem foldAddPick_snd (mult : ℚ) :
    ∀ (l : List Scored) (init : St × List FormulaIngredient),
      (l.foldl (addPickItem mult) init).2 = init.2 ++ l.map (pickItemOf mult)
  | [], init => by simp
  | s :: rest, init => by
    rw [List.foldl_cons, foldAddPick_snd mult rest _]
    have h2 : (addPickItem mult init s).2 = init.2 ++ [pickItemOf mult s] := rfl
    rw [h2, List.map_cons, List.append_assoc]
    rfl

theorem foldAddPick_used (mult : ℚ) {x : String} :
    ∀ (l : List Scored) (init : St × List FormulaIngredient),
      x ∈ init.1.used → x ∈ (l.foldl (addPickItem mult) init).1.used
  | [], _, hx => hx
  | s :: rest, init, hx => by
    rw [List.foldl_cons]
    apply foldAddPick_used mult rest
    show x ∈ s.ing.name :: init.1.used
    exact List.mem_cons_of_mem _ hx

theorem scoreStep_ings (dominant secondary accent : String) (hero : Option RawIngredient) :
    ∀ (cands : List RawIngredient) (rng idx : ℕ),
      (scoreStep dominant secondary accent hero cands rng idx).2.map Scored.ing = cands
  | [], _, _ => rfl
  | c :: rest, rng, idx => by
    simp only [scoreStep]
    rcases h : scoreStep dominant secondary accent hero rest
      (seededRngNext rng (idx * 3)) (idx + 1) with ⟨rng2, tail⟩
    have ih := scoreStep_ings dominant secondary accent hero rest
      (seededRngNext rng (idx * 3)) (idx + 1)
    rw [h] at ih
    simpa using ih

theorem fillScoreStep_ings (dominant secondary accent : String) :
    ∀ (cands : List RawIngredient) (rng idx : ℕ),
      (fillScoreStep dominant secondary accent cands rng idx).2.map Scored.ing = cands
  | [], _, _ => rfl
  | c :: rest, rng, idx => by
    simp only [fillScoreStep]
    rcases h : fillScoreStep dominant secondary accent rest
      (seededRngNext rng (idx * 7 + 99)) (idx + 1) with ⟨rng2, tail⟩
    have ih := fillScoreStep_ings dominant secondary accent rest
      (seededRngNext rng (idx * 7 + 99)) (idx + 1)
    rw [h] at ih
    simpa using ih

theorem pick_mem_cands (dominant secondary accent : String) (hero : Option RawIngredient)
    (pool : List RawIngredient) (role : Role) (count : ℕ) (mult : ℚ) (st : St) :
    ∀ it ∈ (pick dominant secondary accent hero pool role count mult st).2, ∃ s : Scored,
      it = pickItemOf mult s ∧
      ¬(st.used.contains s.ing.name) = true ∧ ¬(some s.ing.name == heroNameOf hero) = true ∧
      s.ing ∈ pool := by
  intro it hit
  unfold pick at hit
  rw [foldAddPick_snd] at hit
  rw [List.nil_append, List.mem_map] at hit
  obtain ⟨s, hs, hit⟩ := hit
  refine ⟨s, hit.symm, ?_⟩
  have hs2 := List.mem_of_mem_take hs
  rw [List.mem_insertionSort] at hs2
  have hing := List.mem_map_of_mem Scored.ing hs2
  rw [scoreStep_ings] at hing
  split at hing <;> rw [List.mem_filter] at hing
  · obtain ⟨hp, hcond⟩ := hing
    rw [Bool.and_eq_true, Bool.not_eq_true', Bool.not_eq_true'] at hcond
    exact ⟨by rw [hcond.1]; simp, by rw [hcond.2]; simp, hp⟩
  · obtain ⟨hp, hcond⟩ := hing
    rw [Bool.and_eq_true, Bool.and_eq_true, Bool.not_eq_true', Bool.not_eq_true'] at hcond
    exact ⟨by rw [hcond.1.2]; simp, by rw [hcond.2]; simp, hp⟩

theorem pick_used_mono (dominant secondary accent : String) (hero : Option RawIngredient)
    (pool : List RawIngredient) (role : Role) (count : ℕ) (mult : ℚ) (st : St) {x : String}
    (hx : x ∈ st.used) :
    x ∈ (pick dominant secondary accent hero pool role count mult st).1.used := by
  unfold pick
  apply foldAddPick_used
  exact hx

/-!
### Hero selection and used-list monotonicity
-/

theorem heroSelect_mem {dominant : String} {st : St} {h : RawIngredient}
    (hh : (heroSelect dominant st).1 = some h) :
    h ∈ dbBase dominant ++ dbHeart dominant := by
  unfold heroSelect at hh
  simp only [] at hh
  split at hh
  · exact absurd hh (by simp)
  · rename_i h0 tail heq
    have hx := Option.some.inj hh
    have hmem : h ∈ h0 :: tail := by
      rw [← hx, heq]
      exact getD_cons_mem h0 tail _
    rw [← heq] at hmem
    split at hmem
    · rw [List.mem_insertionSort] at hmem
      exact hmem
    · exact List.mem_of_mem_filter hmem

theorem heroSelect_none {dominant : String} (hdb : dbFind dominant = none) (st : St) :
    (heroSelect dominant st).1 = none := by
  unfold heroSelect
  have hb : dbBase dominant = [] := by unfold dbBase; rw [hdb]
  have hh : dbHeart dominant = [] := by unfold dbHeart; rw [hdb]
  rw [hb, hh]
  rfl

theorem pickDomTop_used_mono {st : St} {pool : List RawIngredient} {x : String}
    (hx : x ∈ st.used) : x ∈ (pickDomTop st pool).1.used := by
  unfold pickDomTop
  split
  · exact hx
  · simp only []
    split
    · split
      · show x ∈ _ :: _ :: st.used
        exact List.mem_cons_of_mem _ (List.mem_cons_of_mem _ hx)
      · show x ∈ _ :: st.used
        exact List.mem_cons_of_mem _ hx
    · show x ∈ _ :: st.used
      exact List.mem_cons_of_mem _ hx

theorem step3_used {dominant secondary accent : String} {ctx : ContextModifiers}
    {h : RawIngredient} {st : St} {f : Formula} {dom : DbFamily}
    (hdb : dbFind dominant = some dom) :
    h.name ∈ (step3 dominant secondary accent ctx (some h) st f).1.used := by
  unfold step3
  rw [hdb]
  apply pick_used_mono
  apply pick_used_mono
  apply pickDomTop_used_mono
  exact List.mem_cons_self _ _

theorem step4_used_mono {dominant secondary accent : String} {hero : Option RawIngredient}
    {st : St} {f : Formula} {x : String} (hx : x ∈ st.used) :
    x ∈ (step4 dominant secondary accent hero st f).1.used := by
  unfold step4
  split
  · exact hx
  · apply pick_used_mono
    apply pick_used_mono
    apply pick_used_mono
    exact hx

theorem step5_used_mono {dominant secondary accent : String} {hero : Option RawIngredient}
    {st : St} {f : Formula} {x : String} (hx : x ∈ st.used) :
    x ∈ (step5 dominant secondary accent hero st f).1.used := by
  unfold step5
  split
  · exact hx
  · apply pick_used_mono
    exact hx

/-!
### Key nodup through the assembly
-/

theorem foldl_preserve {α β : Type} (P : α → Prop) (g : α → β → α)
    (h : ∀ a b, P a → P (g a b)) : ∀ (l : List β) (a : α), P a → P (l.foldl g a)
  | [], _, ha => ha
  | b :: rest, a, ha => foldl_preserve P g h rest _ (h a b ha)

theorem nodup_step3 (dominant secondary accent : String) (ctx : ContextModifiers)
    (hero : Option RawIngredient) (st : St) (f : Formula) (h : (keysOf f).Nodup) :
    (keysOf (step3 dominant secondary accent ctx hero st f).2).Nodup := by
  unfold step3
  split
  · exact h
  · exact nodup_keysOf_setFam _ _ h

theorem nodup_step4 (dominant secondary accent : String) (hero : Option RawIngredient)
    (st : St) (f : Formula) (h : (keysOf f).Nodup) :
    (keysOf (step4 dominant secondary accent hero st f).2).Nodup := by
  unfold step4
  split
  · exact h
  · exact nodup_keysOf_setFam _ _ h

theorem nodup_step5 (dominant secondary accent : String) (hero : Option RawIngredient)
    (st : St) (f : Formula) (h : (keysOf f).Nodup) :
    (keysOf (step5 dominant secondary accent hero st f).2).Nodup := by
  unfold step5
  split
  · exact h
  · exact nodup_keysOf_setFam _ _ h

theorem nodup_addFillItem (secondary accent : String) (p : St × Formula)
    (fill : RawIngredient) (h : (keysOf p.2).Nodup) :
    (keysOf (addFillItem secondary accent p fill).2).Nodup := by
  unfold addFillItem
  simp only []
  rw [keysOf_modFam]
  exact nodup_keysOf_ensureFam _ h

theorem nodup_step5b (dominant secondary accent : String) (st : St) (f : Formula)
    (h : (keysOf f).Nodup) :
    (keysOf (step5b dominant secondary accent st f).2).Nodup := by
  unfold step5b
  simp only []
  split
  · exact @foldl_preserve _ _ (fun q => (keysOf q.2).Nodup) (addFillItem secondary accent)
      (fun a b ha => nodup_addFillItem secondary accent a b ha) _
      ({ st with rng := (fillScoreStep dominant secondary accent
        (fillSourcesOf secondary accent st.used) st.rng 0).1 }, f) h
  · exact h

theorem nodup_addStructuralItem (dominant : String) (p : St × Formula)
    (s : RawIngredient) (h : (keysOf p.2).Nodup) :
    (keysOf (addStructuralItem dominant p s).2).Nodup := by
  unfold addStructuralItem
  simp only []
  rw [keysOf_modFam]
  exact nodup_keysOf_ensureFam _ h

theorem nodup_step5c (dominant : String) (concentration : Option String) (st : St)
    (f : Formula) (h : (keysOf f).Nodup) :
    (keysOf (step5c dominant concentration st f).2).Nodup := by
  unfold step5c
  split
  · exact @foldl_preserve _ _ (fun q => (keysOf q.2).Nodup) (addStructuralItem dominant)
      (fun a b ha => nodup_addStructuralItem dominant a b ha) _ (st, f) h
  · exact h

theorem nodupKeys_assembled (dominant secondary accent scentCode : String)
    (concentration occasion intensity : Option String) :
    (keysOf (assembled dominant secondary accent scentCode
      concentration occasion intensity).2.2).Nodup := by
  unfold assembled
  apply nodup_step5c
  apply nodup_step5b
  apply nodup_step5
  apply nodup_step4
  apply nodup_step3
  simp [keysOf]

/-!
### The hero bundle: establishment and preservation
-/

theorem namedInLayers_nil_of_names {nm : String} {ls : LayerSet}
    (ht : ∀ it ∈ ls.top, ¬it.name = nm) (hh : ∀ it ∈ ls.heart, ¬it.name = nm)
    (hb : ∀ it ∈ ls.base, ¬it.name = nm) : namedInLayers ls nm = [] := by
  unfold namedInLayers
  rw [List.filter_eq_nil_iff.mpr (fun a ha => by simp [ht a ha]),
    List.filter_eq_nil_iff.mpr (fun a ha => by simp [hh a ha]),
    List.filter_eq_nil_iff.mpr (fun a ha => by simp [hb a ha])]
  rfl

theorem filter_append_nil {nm : String} {l : List FormulaIngredient}
    {item : FormulaIngredient} (hne : ¬item.name = nm) :
    (l ++ [item]).filter (fun it => it.name == nm) = l.filter (fun it => it.name == nm) := by
  rw [List.filter_append]
  simp [hne]

theorem heroBundle_setFam {dominant nm : String} {f : Formula} {k : String} {ls : LayerSet}
    (hk : k ≠ dominant) (hls : namedInLayers ls nm = [])
    (hb : heroBundle dominant nm f) : heroBundle dominant nm (setFam f k ls) := by
  obtain ⟨h1, L, hL, htop, hif⟩ := hb
  refine ⟨?_, L, ?_, htop, hif⟩
  · intro p hp hpd
    rcases mem_setFam p hp with h | h
    · exact h1 p h hpd
    · rw [h]
      exact hls
  · rw [getFam_setFam_ne (Ne.symm hk) ls]
    exact hL

theorem heroBundle_ensureFam {dominant nm : String} {f : Formula} (k : String)
    (hb : heroBundle dominant nm f) : heroBundle dominant nm (ensureFam f k) := by
  obtain ⟨h1, L, hL, htop, hif⟩ := hb
  refine ⟨?_, L, getFam_ensureFam_of_some hL, htop, hif⟩
  intro p hp hpd
  rcases mem_ensureFam p hp with h | h
  · exact h1 p h hpd
  · rw [h]
    rfl

theorem heroBundle_modFam_append {dominant nm : String} {f : Formula} {k : String}
    {g : LayerSet → LayerSet}
    (hgt : ∀ v, (g v).top = v.top)
    (hgh : ∀ v, (g v).heart.filter (fun it => it.name == nm) =
      v.heart.filter (fun it => it.name == nm))
    (hgb : ∀ v, (g v).base.filter (fun it => it.name == nm) =
      v.base.filter (fun it => it.name == nm))
    (hb : heroBundle dominant nm f) : heroBundle dominant nm (modFam f k g) := by
  obtain ⟨h1, L, hL, htop, hif⟩ := hb
  constructor
  · intro p hp hpd
    rcases mem_modFam p hp with h | ⟨v, hv, hpv⟩
    · exact h1 p h hpd
    · have hkd : k ≠ dominant := by
        rw [hpv] at hpd
        exact hpd
      have hv0 : namedInLayers v nm = [] := h1 (k, v) hv hkd
      rw [hpv]
      show namedInLayers (g v) nm = []
      unfold namedInLayers at hv0 ⊢
      rw [hgt, hgh, hgb]
      exact hv0
  · by_cases hkd : k = dominant
    · subst hkd
      refine ⟨g L, ?_, ?_, ?_⟩
      · rw [getFam_modFam, if_pos rfl, hL]
        rfl
      · rw [hgt]
        exact htop
      · cases hinh : inHeartOf k nm with
        | true =>
          rw [hinh] at hif
          rw [if_pos rfl] at hif ⊢
          exact ⟨by rw [hgh]; exact hif.1, by rw [hgb]; exact hif.2⟩
        | false =>
          rw [hinh] at hif
          rw [if_neg (by simp)] at hif ⊢
          exact ⟨by rw [hgb]; exact hif.1, by rw [hgh]; exact hif.2⟩
    · refine ⟨L, ?_, htop, hif⟩
      rw [getFam_modFam, if_neg hkd]
      exact hL

theorem pick_item_name_ne {dominant secondary accent : String} {hero : Option RawIngredient}
    {pool : List RawIngredient} {role : Role} {count : ℕ} {mult : ℚ} {st : St} {nm : String}
    (hname : heroNameOf hero = some nm) :
    ∀ it ∈ (pick dominant secondary accent hero pool role count mult st).2,
      ¬it.name = nm := by
  intro it hit he
  obtain ⟨s, hit_eq, _, hbeq, _⟩ :=
    pick_mem_cands dominant secondary accent hero pool role count mult st it hit
  apply hbeq
  rw [hname]
  rw [hit_eq] at he
  have hsn : s.ing.name = nm := he
  rw [hsn]
  exact beq_iff_eq.mpr rfl

theorem foldl_preserve_mem {α β : Type} (P : α → Prop) (Q : β → Prop) (g : α → β → α)
    (h : ∀ a b, Q b → P a → P (g a b)) :
    ∀ (l : List β), (∀ b ∈ l, Q b) → ∀ (a : α), P a → P (l.foldl g a)
  | [], _, _, ha => ha
  | b :: rest, hQ, a, ha =>
    foldl_preserve_mem P Q g h rest (fun c hc => hQ c (List.mem_cons_of_mem _ hc)) _
      (h a b (hQ b (List.mem_cons_self _ _)) ha)

theorem mem_fillSources_name_ne {secondary accent : String} {used : List String} {nm : String}
    (hnm : nm ∈ used) : ∀ i ∈ fillSourcesOf secondary accent used, ¬i.name = nm := by
  intro i hi he
  unfold fillSourcesOf at hi
  rw [List.mem_filter] at hi
  obtain ⟨_, hcond⟩ := hi
  rw [Bool.and_eq_true, Bool.not_eq_true'] at hcond
  have hc := hcond.1
  rw [he] at hc
  simp at hc
  exact hc hnm

theorem heroBundle_step4 {dominant secondary accent nm : String} {hero : Option RawIngredient}
    {st : St} {f : Formula} (hsec : secondary ≠ dominant)
    (hname : heroNameOf hero = some nm) (hb : heroBundle dominant nm f) :
    heroBundle dominant nm (step4 dominant secondary accent hero st f).2 := by
  unfold step4
  split
  · exact hb
  · rename_i sec hdb
    simp only []
    apply heroBundle_setFam hsec ?_ hb
    apply namedInLayers_nil_of_names
    · exact pick_item_name_ne hname
    · exact pick_item_name_ne hname
    · exact pick_item_name_ne hname

theorem heroBundle_step5 {dominant secondary accent nm : String} {hero : Option RawIngredient}
    {st : St} {f : Formula} (hacc : accent ≠ dominant)
    (hname : heroNameOf hero = some nm) (hb : heroBundle dominant nm f) :
    heroBundle dominant nm (step5 dominant secondary accent hero st f).2 := by
  unfold step5
  split
  · exact hb
  · rename_i acc hdb
    simp only []
    apply heroBundle_setFam hacc ?_ hb
    apply namedInLayers_nil_of_names
    · intro it hit
      simp at hit
    · intro it hit
      exact pick_item_name_ne hname it (List.mem_of_mem_filter hit)
    · intro it hit
      exact pick_item_name_ne hname it (List.mem_of_mem_filter hit)

theorem heroBundle_addFillItem {dominant secondary accent nm : String} {p : St × Formula}
    {fill : RawIngredient} (hne : ¬fill.name = nm) (hb : heroBundle dominant nm p.2) :
    heroBundle dominant nm (addFillItem secondary accent p fill).2 := by
  unfold addFillItem
  simp only []
  apply heroBundle_modFam_append ?_ ?_ ?_ (heroBundle_ensureFam _ hb)
  · intro v
    split
    · split <;> rfl
    · split <;> rfl
  · intro v
    split
    · split
      · exact filter_append_nil hne
      · rfl
    · split
      · exact filter_append_nil hne
      · rfl
  · intro v
    split
    · split
      · rfl
      · exact filter_append_nil hne
    · split
      · rfl
      · exact filter_append_nil hne

theorem heroBundle_step5b {dominant secondary accent nm : String} {st : St} {f : Formula}
    (hnm : nm ∈ st.used) (hb : heroBundle dominant nm f) :
    heroBundle dominant nm (step5b dominant secondary accent st f).2 := by
  unfold step5b
  simp only []
  split
  · refine @foldl_preserve_mem _ _ (fun q => heroBundle dominant nm q.2)
      (fun i => ¬i.name = nm) (addFillItem secondary accent)
      (fun a b hQ hP => heroBundle_addFillItem hQ hP) _ ?_
      ({ st with rng := (fillScoreStep dominant secondary accent
        (fillSourcesOf secondary accent st.used) st.rng 0).1 }, f) hb
    intro b hbm
    rw [List.mem_map] at hbm
    obtain ⟨s, hsm, hbe⟩ := hbm
    have hs2 := List.mem_of_mem_take hsm
    rw [List.mem_insertionSort] at hs2
    have hmm := List.mem_map_of_mem Scored.ing hs2
    rw [fillScoreStep_ings] at hmm
    rw [← hbe]
    exact mem_fillSources_name_ne hnm s.ing hmm
  · exact hb

theorem heroBundle_addStructuralItem {dominant nm : String} {p : St × Formula}
    {s : RawIngredient} (hne : ¬s.name = nm) (hb : heroBundle dominant nm p.2) :
    heroBundle dominant nm (addStructuralItem dominant p s).2 := by
  unfold addStructuralItem
  simp only []
  apply heroBundle_modFam_append ?_ ?_ ?_ (heroBundle_ensureFam _ hb)
  · intro v
    rfl
  · intro v
    rfl
  · intro v
    exact filter_append_nil hne

theorem heroBundle_step5c {dominant nm : String} {concentration : Option String} {st : St}
    {f : Formula} (hnm : nm ∈ st.used) (hb : heroBundle dominant nm f) :
    heroBundle dominant nm (step5c dominant concentration st f).2 := by
  unfold step5c
  split
  · refine @foldl_preserve_mem _ _ (fun q => heroBundle dominant nm q.2)
      (fun i => ¬i.name = nm) (addStructuralItem dominant)
      (fun a b hQ hP => heroBundle_addStructuralItem hQ hP) _ ?_ (st, f) hb
    intro b hbm
    have hb2 := List.mem_of_mem_take hbm
    rw [List.mem_insertionSort, List.mem_filter] at hb2
    obtain ⟨_, hcond⟩ := hb2
    intro he
    rw [Bool.and_eq_true, Bool.and_eq_true] at hcond
    have hc := hcond.1.2
    rw [Bool.not_eq_true'] at hc
    rw [he] at hc
    simp at hc
    exact hc hnm
  · exact hb

theorem heroBundle_single {dominant nm : String} {L : LayerSet}
    (htop : L.top.filter (fun it => it.name == nm) = [])
    (hif : if inHeartOf dominant nm then
        (L.heart.filter (fun it => it.name == nm)).length = 1 ∧
          L.base.filter (fun it => it.name == nm) = []
      else
        (L.base.filter (fun it => it.name == nm)).length = 1 ∧
          L.heart.filter (fun it => it.name == nm) = []) :
    heroBundle dominant nm (setFam [] dominant L) := by
  refine ⟨?_, L, ?_, htop, hif⟩
  · intro p hp hpd
    rcases mem_setFam p hp with h | h
    · simp at h
    · rw [h] at hpd
      exact absurd rfl hpd
  · show getFam [(dominant, L)] dominant = some L
    unfold getFam
    rw [if_pos (beq_iff_eq.mpr rfl)]

theorem pickDomTop_names_ne {st : St} {pool : List RawIngredient} {nm : String}
    (hpool : ∀ r ∈ pool, ¬r.name = nm) :
    ∀ it ∈ (pickDomTop st pool).2, ¬it.name = nm := by
  intro it hit
  obtain ⟨rec, hrec, hit_eq⟩ := pickDomTop_raw st pool it hit
  rw [hit_eq]
  exact hpool rec hrec

theorem filter_hero_pick_nil {dominant secondary accent : String} {h : RawIngredient}
    (pool : List RawIngredient) (role : Role) (count : ℕ) (mult : ℚ) (st2 : St) :
    (pick dominant secondary accent (some h) pool role count mult st2).2.filter
      (fun it => it.name == h.name) = [] := by
  rw [List.filter_eq_nil_iff]
  intro a ha
  simp only [beq_iff_eq]
  exact pick_item_name_ne (show heroNameOf (some h) = some h.name from rfl) a ha

theorem heroBundle_step3 {dominant secondary accent : String} {ctx : ContextModifiers}
    {h : RawIngredient} {st : St} {dom : DbFamily} (hdb : dbFind dominant = some dom)
    (hmem : h ∈ dbBase dominant ++ dbHeart dominant) :
    heroBundle dominant h.name (step3 dominant secondary accent ctx (some h) st []).2 := by
  have hdbh : dbHeart dominant = dom.heart := by unfold dbHeart; rw [hdb]
  have hdbb : dbBase dominant = dom.base := by unfold dbBase; rw [hdb]
  have hpred : (fun i : RawIngredient => some i.name == heroNameOf (some h)) =
      (fun i : RawIngredient => i.name == h.name) := funext (fun i => rfl)
  have htopn : ∀ (st1 : St), h.name ∈ st1.used →
      ∀ it ∈ (pickDomTop st1 (List.insertionSort
        (fun a b : RawIngredient => b.persistence ≤ a.persistence)
        (dom.top.filter (fun i => !(st1.used.contains i.name))))).2, ¬it.name = h.name := by
    intro st1 hu
    apply pickDomTop_names_ne
    intro r hr he
    rw [List.mem_insertionSort, List.mem_filter] at hr
    have hc := hr.2
    rw [Bool.not_eq_true'] at hc
    rw [he] at hc
    simp at hc
    exact hc hu
  unfold step3
  rw [hdb]
  simp only []
  rw [hpred, show heroNameOf (some h) = some h.name from rfl]
  cases hfh : dom.heart.find? (fun i => i.name == h.name) with
  | some hh =>
    have hinh : inHeartOf dominant h.name = true := by
      unfold inHeartOf
      rw [hdbh, hfh]
      rfl
    simp only []
    apply heroBundle_single
    · rw [List.filter_eq_nil_iff]
      intro a ha
      simp only [beq_iff_eq]
      exact htopn _ (List.mem_cons_self _ _) a ha
    · rw [hinh, if_pos rfl]
      constructor
      · rw [List.filter_append, filter_hero_pick_nil]
        simp
      · simp only [List.nil_append]
        exact filter_hero_pick_nil _ _ _ _ _
  | none =>
    have hinh : inHeartOf dominant h.name = false := by
      unfold inHeartOf
      rw [hdbh, hfh]
      rfl
    have hmb : h ∈ dom.base := by
      rw [hdbb, hdbh] at hmem
      rcases List.mem_append.mp hmem with hm | hm
      · exact hm
      · exfalso
        have his : (dom.heart.find? (fun i => i.name == h.name)).isSome = true :=
          List.find?_isSome.mpr ⟨h, hm, beq_iff_eq.mpr rfl⟩
        rw [hfh] at his
        simp at his
    obtain ⟨hb', hfb⟩ : ∃ b, dom.base.find? (fun i => i.name == h.name) = some b := by
      cases hx : dom.base.find? (fun i => i.name == h.name) with
      | none =>
        exfalso
        have his : (dom.base.find? (fun i => i.name == h.name)).isSome = true :=
          List.find?_isSome.mpr ⟨h, hmb, beq_iff_eq.mpr rfl⟩
        rw [hx] at his
        simp at his
      | some b => exact ⟨b, rfl⟩
    rw [hfb]
    simp only []
    apply heroBundle_single
    · rw [List.filter_eq_nil_iff]
      intro a ha
      simp only [beq_iff_eq]
      exact htopn _ (List.mem_cons_self _ _) a ha
    · rw [hinh, if_neg (by simp)]
      constructor
      · rw [List.filter_append, filter_hero_pick_nil]
        simp
      · simp only [List.nil_append]
        exact filter_hero_pick_nil _ _ _ _ _

theorem step5b_used_mono {dominant secondary accent : String} {st : St} {f : Formula}
    {x : String} (hx : x ∈ st.used) :
    x ∈ (step5b dominant secondary accent st f).1.used := by
  unfold step5b
  simp only []
  split
  · refine @foldl_preserve _ _ (fun q => x ∈ q.1.used) (addFillItem secondary accent)
      (fun a b ha => ?_) _
      ({ st with rng := (fillScoreStep dominant secondary accent
        (fillSourcesOf secondary accent st.used) st.rng 0).1 }, f) hx
    show x ∈ b.name :: a.1.used
    exact List.mem_cons_of_mem _ ha
  · exact hx

theorem assembled_bundle {dominant secondary accent scentCode : String}
    {concentration occasion intensity : Option String} {h : RawIngredient}
    (hds : secondary ≠ dominant) (hda : accent ≠ dominant)
    (hh : (assembled dominant secondary accent scentCode
      concentration occasion intensity).1 = some h) :
    heroBundle dominant h.name
      (assembled dominant secondary accent scentCode
        concentration occasion intensity).2.2 := by
  unfold assembled at hh ⊢
  simp only [] at hh ⊢
  cases hdb : dbFind dominant with
  | none =>
    rw [heroSelect_none hdb] at hh
    simp at hh
  | some dom =>
    have hmem := heroSelect_mem hh
    rw [hh]
    have hname : heroNameOf (some h) = some h.name := rfl
    apply heroBundle_step5c
    · apply step5b_used_mono
      apply step5_used_mono
      apply step4_used_mono
      exact step3_used hdb
    · apply heroBundle_step5b
      · apply step5_used_mono
        apply step4_used_mono
        exact step3_used hdb
      · apply heroBundle_step5 hda hname
        apply heroBundle_step4 hds hname
        exact heroBundle_step3 hdb hmem

theorem namedItems_eq_single {dominant nm : String} :
    ∀ (f : Formula) (L : LayerSet), (keysOf f).Nodup →
      getFam f dominant = some L →
      (∀ p ∈ f, p.1 ≠ dominant → namedInLayers p.2 nm = []) →
      namedItems f nm = namedInLayers L nm
  | [], L, _, hL, _ => by simp [getFam] at hL
  | (k0, v0) :: rest, L, hnd, hL, hother => by
    unfold getFam at hL
    unfold keysOf at hnd
    rw [List.map_cons, List.nodup_cons] at hnd
    unfold namedItems
    rw [List.map_cons, List.flatten_cons]
    split at hL
    · rename_i hk
      have hv : v0 = L := Option.some.inj hL
      subst hv
      have hrest : (rest.map (fun p => namedInLayers p.2 nm)).flatten = [] := by
        rw [List.flatten_eq_nil_iff]
        intro l hl
        rw [List.mem_map] at hl
        obtain ⟨p, hp, hlp⟩ := hl
        rw [← hlp]
        apply hother p (List.mem_cons_of_mem _ hp)
        intro hpd
        apply hnd.1
        show k0 ∈ List.map Prod.fst rest
        rw [beq_iff_eq.mp hk, ← hpd]
        exact List.mem_map_of_mem Prod.fst hp
      rw [hrest, List.append_nil]
    · rename_i hk
      rw [hother (k0, v0) (List.mem_cons_self _ _) (fun he => hk (beq_iff_eq.mpr he)),
        List.nil_append]
      exact namedItems_eq_single rest L hnd.2 hL
        (fun p hp => hother p (List.mem_cons_of_mem _ hp))

theorem counts_of_bundle {dominant nm : String} {f : Formula}
    (hnd : (keysOf f).Nodup) (hb : heroBundle dominant nm f) :
    countName f nm = 1 ∧
      (if inHeartOf dominant nm then
        heartCountAt f dominant nm = 1 ∧ baseCountAt f dominant nm = 0
      else
        baseCountAt f dominant nm = 1 ∧ heartCountAt f dominant nm = 0) := by
  obtain ⟨h1, L, hL, htop, hif⟩ := hb
  have hnamed := namedItems_eq_single f L hnd hL h1
  constructor
  · unfold countName
    rw [hnamed]
    unfold namedInLayers
    rw [htop, List.nil_append, List.length_append]
    cases hinh : inHeartOf dominant nm with
    | true =>
      rw [hinh, if_pos rfl] at hif
      rw [hif.2, hif.1]
      rfl
    | false =>
      rw [hinh, if_neg (by simp)] at hif
      rw [hif.2, hif.1]
      rfl
  · unfold heartCountAt baseCountAt
    rw [hL]
    simp only [Option.map_some', Option.getD_some]
    cases hinh : inHeartOf dominant nm with
    | true =>
      rw [hinh, if_pos rfl] at hif
      rw [if_pos rfl]
      exact ⟨hif.1, by rw [hif.2]; rfl⟩
    | false =>
      rw [hinh, if_neg (by simp)] at hif
      rw [if_neg (by simp)]
      exact ⟨hif.1, by rw [hif.2]; rfl⟩

theorem generateLocalFormula_formula (dominant secondary accent scentCode : String)
    (concentration occasion intensity : Option String) :
    (generateLocalFormula dominant secondary accent scentCode
      concentration occasion intensity).formula =
      (pass7
        (pass6c (heroNameOf (assembled dominant secondary accent scentCode
            concentration occasion intensity).1)
          (pass6b (heroNameOf (assembled dominant secondary accent scentCode
              concentration occasion intensity).1)
            (pass6a (heroNameOf (assembled dominant secondary accent scentCode
                concentration occasion intensity).1)
              (assembled dominant secondary accent scentCode
                concentration occasion intensity).2.2))
          (assembled dominant secondary accent scentCode
            concentration occasion intensity).2.1.perfumerNotes).1
        (pass6c (heroNameOf (assembled dominant secondary accent scentCode
            concentration occasion intensity).1)
          (pass6b (heroNameOf (assembled dominant secondary accent scentCode
              concentration occasion intensity).1)
            (pass6a (heroNameOf (assembled dominant secondary accent scentCode
                concentration occasion intensity).1)
              (assembled dominant secondary accent scentCode
                concentration occasion intensity).2.2))
          (assembled dominant secondary accent scentCode
            concentration occasion intensity).2.1.perfumerNotes).2).1 := rfl

/-!
### C7: the heavy-entry counter
-/

theorem enumFrom_collect_length (fam : String) (hb : Bool) :
    ∀ (items : List FormulaIngredient) (n : ℕ),
      ((List.enumFrom n items).filterMap (fun p =>
        if 5 < getUpperPct p.2 then
          some (⟨fam, hb, p.1, getUpperPct p.2, origPersistence fam p.2.name, p.2.name⟩
            : HeavyItem)
        else none)).length =
      (items.filter (fun it => decide (5 < getUpperPct it))).length
  | [], _ => rfl
  | it :: rest, n => by
    rw [List.enumFrom_cons, List.filterMap_cons, List.filter_cons]
    by_cases h5 : 5 < getUpperPct it
    · rw [if_pos h5, if_pos (by simpa using h5)]
      show _ + 1 = _ + 1
      rw [enumFrom_collect_length fam hb rest (n + 1)]
    · rw [if_neg h5, if_neg (by simpa using h5)]
      exact enumFrom_collect_length fam hb rest (n + 1)

theorem collectLayer_length (fam : String) (hb : Bool) (items : List FormulaIngredient) :
    (collectLayer fam hb items).length =
      (items.filter (fun it => decide (5 < getUpperPct it))).length := by
  unfold collectLayer
  exact enumFrom_collect_length fam hb items 0

theorem heavyLayerCount_le (hn : Option String) (fam : String) (hb : Bool)
    (items : List FormulaIngredient) :
    heavyLayerCount hn items ≤ (collectLayer fam hb items).length := by
  rw [collectLayer_length]
  unfold heavyLayerCount
  rw [← List.countP_eq_length_filter, ← List.countP_eq_length_filter]
  apply List.countP_mono_left
  intro a _ ha
  unfold isHeavyNonHero at ha
  rw [Bool.and_eq_true] at ha
  exact ha.2

theorem heavyCount_le_collect (hn : Option String) (f : Formula) :
    heavyCount hn f ≤ (collectHeavy f).length := by
  unfold heavyCount collectHeavy
  rw [foldl_append_collect, List.nil_append, List.length_flatten, List.map_map]
  apply List.sum_le_sum
  intro p _
  show heavyLayerCount hn p.2.heart + heavyLayerCount hn p.2.base ≤
    (collectLayer p.1 true p.2.heart ++ collectLayer p.1 false p.2.base).length
  rw [List.length_append]
  exact Nat.add_le_add (heavyLayerCount_le hn p.1 true p.2.heart)
    (heavyLayerCount_le hn p.1 false p.2.base)

theorem filter_length_set_dec {p : FormulaIngredient → Bool} :
    ∀ (l : List FormulaIngredient) (idx : ℕ) {x y : FormulaIngredient},
      l.get? idx = some x → p x = true → p y = false →
      ((l.set idx y).filter p).length + 1 = (l.filter p).length
  | [], _, _, _, hx, _, _ => by simp at hx
  | a :: rest, 0, x, y, hget, hpx, hpy => by
    have ha : a = x := Option.some.inj hget
    subst ha
    show ((y :: rest).filter p).length + 1 = _
    simp [List.filter_cons, hpy, hpx]
  | a :: rest, idx + 1, x, y, hget, hpx, hpy => by
    show ((a :: rest.set idx y).filter p).length + 1 = _
    rw [List.filter_cons, List.filter_cons]
    have ih := filter_length_set_dec rest idx hget hpx hpy
    split
    · simp only [List.length_cons]
      omega
    · exact ih

theorem setIdx_eq_set {l : List FormulaIngredient} {idx : ℕ} {x : FormulaIngredient}
    (h : l.get? idx = some x) (g : FormulaIngredient → FormulaIngredient) :
    setIdx l idx g = l.set idx (g x) := by
  unfold setIdx
  rw [h]

theorem heavyCount_modFam_dec {hn : Option String} {f : Formula} {k : String}
    {g : LayerSet → LayerSet} (hsome : ∃ v0, getFam f k = some v0)
    (hgg : ∀ v, getFam f k = some v →
      (heavyLayerCount hn (g v).heart + heavyLayerCount hn (g v).base) + 1 =
      heavyLayerCount hn v.heart + heavyLayerCount hn v.base) :
    heavyCount hn (modFam f k g) + 1 = heavyCount hn f := by
  induction f with
  | nil =>
    obtain ⟨v0, hv0⟩ := hsome
    simp [getFam] at hv0
  | cons q rest ih =>
    obtain ⟨k0, v0⟩ := q
    unfold modFam
    split
    · rename_i hk
      unfold heavyCount
      rw [List.map_cons, List.map_cons, List.sum_cons, List.sum_cons]
      have hv := hgg v0 (by unfold getFam; rw [if_pos hk])
      simp only []
      omega
    · rename_i hk
      unfold heavyCount at ih ⊢
      rw [List.map_cons, List.map_cons, List.sum_cons, List.sum_cons]
      have hsome' : ∃ v1, getFam rest k = some v1 := by
        obtain ⟨v1, hv1⟩ := hsome
        unfold getFam at hv1
        rw [if_neg hk] at hv1
        exact ⟨v1, hv1⟩
      have ih' := ih hsome' (fun v hv => hgg v (by unfold getFam; rw [if_neg hk]; exact hv))
      simp only []
      simp only [] at ih'
      omega

theorem heavyCount_updateAt_dec {hn : Option String} {f : Formula} {fam : String}
    {hb : Bool} {idx : ℕ} {x : FormulaIngredient}
    (hit : itemAt f fam hb idx = some x)
    (hpx : isHeavyNonHero hn x = true)
    (hpy : isHeavyNonHero hn (reduce07 x) = false) :
    heavyCount hn (updateAt f fam hb idx reduce07) + 1 = heavyCount hn f := by
  unfold itemAt at hit
  unfold updateAt
  cases hL : getFam f fam with
  | none => rw [hL] at hit; simp at hit
  | some L =>
    rw [hL] at hit
    apply heavyCount_modFam_dec ⟨L, hL⟩
    intro v hv
    have hvL : v = L := (Option.some.inj (hL.symm.trans hv)).symm
    subst hvL
    cases hb
    · have hit' : v.base.get? idx = some x := hit
      show heavyLayerCount hn v.heart + heavyLayerCount hn (setIdx v.base idx reduce07) + 1 = _
      rw [setIdx_eq_set hit']
      unfold heavyLayerCount
      have hd := filter_length_set_dec v.base idx hit' hpx hpy
      omega
    · have hit' : v.heart.get? idx = some x := hit
      show heavyLayerCount hn (setIdx v.heart idx reduce07) + heavyLayerCount hn v.base + 1 = _
      rw [setIdx_eq_set hit']
      unfold heavyLayerCount
      have hd := filter_length_set_dec v.heart idx hit' hpx hpy
      omega

theorem getFam_mem : ∀ {f : Formula} {k : String} {v : LayerSet},
    getFam f k = some v → (k, v) ∈ f
  | [], _, _, h => by simp [getFam] at h
  | (k0, v0) :: rest, k, v, h => by
    unfold getFam at h
    split at h
    · rename_i hk
      have := Option.some.inj h
      rw [← beq_iff_eq.mp hk, ← this]
      exact List.mem_cons_self _ _
    · exact List.mem_cons_of_mem _ (getFam_mem h)

theorem heavyCount_zero_of_none {hn : Option String} {f : Formula}
    (hnd : (keysOf f).Nodup)
    (hcv : ∀ fam hb idx x, itemAt f fam hb idx = some x →
      isHeavyNonHero hn x = true → False) :
    heavyCount hn f = 0 := by
  unfold heavyCount
  apply List.sum_eq_zero
  intro n hn'
  rw [List.mem_map] at hn'
  obtain ⟨p, hp, hpn⟩ := hn'
  rw [← hpn]
  have hget : getFam f p.1 = some p.2 := getFam_of_mem_nodup hnd (by exact hp)
  have hheart : heavyLayerCount hn p.2.heart = 0 := by
    unfold heavyLayerCount
    rw [List.length_eq_zero, List.filter_eq_nil_iff]
    intro a ha hpa
    obtain ⟨i, hi⟩ := List.mem_iff_get?.mp ha
    exact hcv p.1 true i a (by unfold itemAt; rw [hget]; exact hi) hpa
  have hbase : heavyLayerCount hn p.2.base = 0 := by
    unfold heavyLayerCount
    rw [List.length_eq_zero, List.filter_eq_nil_iff]
    intro a ha hpa
    obtain ⟨i, hi⟩ := List.mem_iff_get?.mp ha
    exact hcv p.1 false i a (by unfold itemAt; rw [hget]; exact hi) hpa
  omega

theorem enumFrom_collect_idx_ge (fam : String) (hb : Bool) :
    ∀ (items : List FormulaIngredient) (n : ℕ) (rec : HeavyItem),
      rec ∈ (List.enumFrom n items).filterMap (fun p =>
        if 5 < getUpperPct p.2 then
          some (⟨fam, hb, p.1, getUpperPct p.2, origPersistence fam p.2.name, p.2.name⟩
            : HeavyItem)
        else none) →
      n ≤ rec.idx
  | [], _, _, h => by simp at h
  | it :: rest, n, rec, h => by
    rw [List.enumFrom_cons, List.filterMap_cons] at h
    by_cases h5 : 5 < getUpperPct it
    · rw [if_pos h5] at h
      rcases List.mem_cons.mp h with h' | h'
      · rw [h']
      · exact Nat.le_of_succ_le (enumFrom_collect_idx_ge fam hb rest (n + 1) rec h')
    · rw [if_neg h5] at h
      exact Nat.le_of_succ_le (enumFrom_collect_idx_ge fam hb rest (n + 1) rec h)

theorem enumFrom_collect_pairwise (fam : String) (hb : Bool) :
    ∀ (items : List FormulaIngredient) (n : ℕ),
      List.Pairwise (fun a b : HeavyItem => a.idx < b.idx)
        ((List.enumFrom n items).filterMap (fun p =>
          if 5 < getUpperPct p.2 then
            some (⟨fam, hb, p.1, getUpperPct p.2, origPersistence fam p.2.name, p.2.name⟩
              : HeavyItem)
          else none))
  | [], _ => List.Pairwise.nil
  | it :: rest, n => by
    rw [List.enumFrom_cons, List.filterMap_cons]
    by_cases h5 : 5 < getUpperPct it
    · rw [if_pos h5]
      refine List.Pairwise.cons ?_ (enumFrom_collect_pairwise fam hb rest (n + 1))
      intro b hbm
      have := enumFrom_collect_idx_ge fam hb rest (n + 1) b hbm
      show n < b.idx
      omega
    · rw [if_neg h5]
      exact enumFrom_collect_pairwise fam hb rest (n + 1)

theorem collectLayer_pairwise (fam : String) (hb : Bool) (items : List FormulaIngredient) :
    List.Pairwise (fun a b : HeavyItem => a.idx < b.idx) (collectLayer fam hb items) :=
  enumFrom_collect_pairwise fam hb items 0

theorem collectHeavy_pos_pairwise {f : Formula} (hnd : (keysOf f).Nodup) :
    List.Pairwise (fun a b : HeavyItem => posOf a ≠ posOf b) (collectHeavy f) := by
  unfold collectHeavy
  rw [foldl_append_collect, List.nil_append, List.pairwise_flatten]
  constructor
  · intro l hl
    rw [List.mem_map] at hl
    obtain ⟨p, hp, hlp⟩ := hl
    rw [← hlp, List.pairwise_append]
    refine ⟨?_, ?_, ?_⟩
    · apply List.Pairwise.imp ?_ (collectLayer_pairwise p.1 true p.2.heart)
      intro a b hab hpos
      unfold posOf at hpos
      rw [Prod.mk.injEq, Prod.mk.injEq] at hpos
      omega
    · apply List.Pairwise.imp ?_ (collectLayer_pairwise p.1 false p.2.base)
      intro a b hab hpos
      unfold posOf at hpos
      rw [Prod.mk.injEq, Prod.mk.injEq] at hpos
      omega
    · intro a ha b hbm hpos
      obtain ⟨_, hah, _⟩ := mem_collectLayer ha
      obtain ⟨_, hbh, _⟩ := mem_collectLayer hbm
      unfold posOf at hpos
      rw [Prod.mk.injEq, Prod.mk.injEq] at hpos
      rw [hah, hbh] at hpos
      simp at hpos
  · have hkeys : List.Pairwise (fun p q : String × LayerSet => p.1 ≠ q.1) f := by
      unfold keysOf at hnd
      rw [List.Nodup, List.pairwise_map] at hnd
      exact hnd
    rw [List.pairwise_map]
    apply List.Pairwise.imp ?_ hkeys
    intro p q hpq x hx y hy hpos
    have hxf : x.fam = p.1 := by
      rcases List.mem_append.mp hx with hm | hm <;>
        exact (mem_collectLayer hm).1
    have hyf : y.fam = q.1 := by
      rcases List.mem_append.mp hy with hm | hm <;>
        exact (mem_collectLayer hm).1
    apply hpq
    unfold posOf at hpos
    rw [Prod.mk.injEq] at hpos
    rw [← hxf, ← hyf]
    exact hpos.1

theorem mem_enumFrom_of_get? {items : List FormulaIngredient} {i : ℕ}
    {x : FormulaIngredient} (h : items.get? i = some x) :
    (i, x) ∈ items.enum := by
  have hg : (List.enumFrom 0 items)[i]? = some (i, x) := by
    rw [List.getElem?_enumFrom, ← List.get?_eq_getElem?, h]
    simp
  show (i, x) ∈ List.enumFrom 0 items
  first
  | exact List.mem_of_getElem? hg
  | exact List.getElem?_mem hg

theorem mem_collectHeavy_of_itemAt {f : Formula} {fam : String} {hb : Bool} {idx : ℕ}
    {x : FormulaIngredient} (hit : itemAt f fam hb idx = some x)
    (h5 : 5 < getUpperPct x) :
    ∃ rec ∈ collectHeavy f, rec.fam = fam ∧ rec.isHeart = hb ∧ rec.idx = idx := by
  unfold itemAt at hit
  cases hL : getFam f fam with
  | none => rw [hL] at hit; simp at hit
  | some L =>
    rw [hL] at hit
    have hmem : (fam, L) ∈ f := getFam_mem hL
    have hrec : (⟨fam, hb, idx, getUpperPct x, origPersistence fam x.name, x.name⟩
        : HeavyItem) ∈ collectLayer fam hb (if hb then L.heart else L.base) := by
      unfold collectLayer
      rw [List.mem_filterMap]
      refine ⟨(idx, x), mem_enumFrom_of_get? hit, ?_⟩
      rw [if_pos h5]
    refine ⟨⟨fam, hb, idx, getUpperPct x, origPersistence fam x.name, x.name⟩, ?_, rfl, rfl, rfl⟩
    unfold collectHeavy
    rw [foldl_append_collect, List.nil_append, List.mem_flatten]
    refine ⟨collectLayer fam true L.heart ++ collectLayer fam false L.base,
      List.mem_map_of_mem _ hmem, ?_⟩
    cases hb
    · exact List.mem_append.mpr (Or.inr hrec)
    · exact List.mem_append.mpr (Or.inl hrec)

theorem hbCond_of_itemAt {hn : Option String} {f : Formula} {fam : String} {hb : Bool}
    {idx : ℕ} {x : FormulaIngredient} (hc : hbCondAll hn f)
    (hit : itemAt f fam hb idx = some x) : hbCond hn x := by
  unfold itemAt at hit
  cases hL : getFam f fam with
  | none => rw [hL] at hit; simp at hit
  | some L =>
    rw [hL] at hit
    apply hc (fam, L) (getFam_mem hL)
    cases hb
    · have hx : L.base.get? idx = some x := hit
      refine List.mem_append.mpr (Or.inr ?_)
      first
      | exact List.get?_mem hx
      | exact List.mem_of_get? hx
    · have hx : L.heart.get? idx = some x := hit
      refine List.mem_append.mpr (Or.inl ?_)
      first
      | exact List.get?_mem hx
      | exact List.mem_of_get? hx

theorem isHeavy_reduce07_false {hn : Option String} {x : FormulaIngredient}
    (hcap : getUpperPct x ≤ 6.5) : isHeavyNonHero hn (reduce07 x) = false := by
  have h46 : getUpperPct (reduce07 x) ≤ 4.6 := roundTenth_07_le hcap
  have h5 : ¬(5 < getUpperPct (reduce07 x)) := by
    intro hlt
    have hcontra : (5 : ℚ) ≤ 4.6 := le_trans (le_of_lt hlt) h46
    norm_num at hcontra
  unfold isHeavyNonHero
  simp [h5]

theorem keysOf_updateAt (f : Formula) (fam : String) (hb : Bool) (idx : ℕ)
    (g : FormulaIngredient → FormulaIngredient) :
    keysOf (updateAt f fam hb idx g) = keysOf f :=
  keysOf_modFam f fam _

theorem itemAt_updateAt_ne_pos {f : Formula} {fam : String} {hb : Bool} {idx : ℕ}
    {fam' : String} {hb' : Bool} {idx' : ℕ} (g : FormulaIngredient → FormulaIngredient)
    (hne : ¬(fam = fam' ∧ hb = hb' ∧ idx = idx')) :
    itemAt (updateAt f fam hb idx g) fam' hb' idx' = itemAt f fam' hb' idx' := by
  rw [itemAt_updateAt, if_neg hne]

theorem reduceLoop_count_le (hn : Option String) (total S0 : ℕ) (hS0 : S0 ≤ total) :
    ∀ (l : List HeavyItem) (r : ℕ) (f : Formula) (ns : List String),
      (keysOf f).Nodup →
      hbCondAll hn f →
      List.Pairwise (fun a b => posOf a ≠ posOf b) l →
      (∀ rec ∈ l, ∀ x, itemAt f rec.fam rec.isHeart rec.idx = some x →
        x.name = rec.name ∧ 5 < getUpperPct x) →
      (∀ fam hb idx x, itemAt f fam hb idx = some x → isHeavyNonHero hn x = true →
        ∃ rec ∈ l, rec.fam = fam ∧ rec.isHeart = hb ∧ rec.idx = idx) →
      heavyCount hn f + r = S0 →
      heavyCount hn (reduceLoop hn total l r f ns).1 ≤ 2
  | [], r, f, ns, hnd, hcap, hpw, hcons, hcv, hcnt => by
    show heavyCount hn f ≤ 2
    have h0 := heavyCount_zero_of_none hnd (fun fam hb idx x hit hx => by
      obtain ⟨rc, hrc, _⟩ := hcv fam hb idx x hit hx
      simp at hrc)
    omega
  | rec :: rest, r, f, ns, hnd, hcap, hpw, hcons, hcv, hcnt => by
    unfold reduceLoop
    split
    · rename_i hhero
      apply reduceLoop_count_le hn total S0 hS0 rest r f ns hnd hcap
        (List.pairwise_cons.mp hpw).2
        (fun rc hrc x hx => hcons rc (List.mem_cons_of_mem _ hrc) x hx)
        ?_ hcnt
      intro fam hb idx x hit hx
      obtain ⟨rc, hrc, hrcf⟩ := hcv fam hb idx x hit hx
      rcases List.mem_cons.mp hrc with hre | hre
      · exfalso
        subst hre
        obtain ⟨hf1, hf2, hf3⟩ := hrcf
        rw [← hf1, ← hf2, ← hf3] at hit
        have hnm := (hcons rc (List.mem_cons_self _ _) x hit).1
        unfold isHeavyNonHero at hx
        rw [Bool.and_eq_true, Bool.not_eq_true'] at hx
        rw [hnm] at hx
        rw [hx.1] at hhero
        exact Bool.false_ne_true hhero
      · exact ⟨rc, hre, hrcf⟩
    · rename_i hhero
      split
      · rename_i hbreak
        show heavyCount hn f ≤ 2
        omega
      · rename_i hnobreak
        split
        · rename_i item hitem
          obtain ⟨hname, h5item⟩ := hcons rec (List.mem_cons_self _ _) item hitem
          have hheavy : isHeavyNonHero hn item = true := by
            unfold isHeavyNonHero
            rw [Bool.and_eq_true]
            refine ⟨?_, by simpa using h5item⟩
            rw [Bool.not_eq_true', hname]
            cases hbb : (some rec.name == hn) with
            | false => rfl
            | true => exact absurd hbb hhero
          have hcapi : getUpperPct item ≤ 6.5 := by
            rcases hbCond_of_itemAt hcap hitem with hc | hc
            · exfalso
              rw [hname] at hc
              exact hhero (beq_iff_eq.mpr hc)
            · exact hc
          have hpy : isHeavyNonHero hn (reduce07 item) = false :=
            isHeavy_reduce07_false hcapi
          have hdec := heavyCount_updateAt_dec hitem hheavy hpy
          apply reduceLoop_count_le hn total S0 hS0 rest (r + 1)
            (updateAt f rec.fam rec.isHeart rec.idx reduce07) (ns ++ [note6c item])
            (by rw [keysOf_updateAt]; exact hnd)
            (hbCondAll_updateAt hcap (fun it hc => hbCond_reduce07 hc))
            (List.pairwise_cons.mp hpw).2
            ?_ ?_ (by omega)
          · intro rc hrc x hx
            have hposne := (List.pairwise_cons.mp hpw).1 rc hrc
            rw [itemAt_updateAt_ne_pos reduce07 (fun hc => hposne (by
              unfold posOf
              rw [hc.1, hc.2.1, hc.2.2]))] at hx
            exact hcons rc (List.mem_cons_of_mem _ hrc) x hx
          · intro fam hb idx x hit hx
            by_cases hpos : rec.fam = fam ∧ rec.isHeart = hb ∧ rec.idx = idx
            · exfalso
              obtain ⟨hf1, hf2, hf3⟩ := hpos
              subst hf1
              subst hf2
              subst hf3
              rw [itemAt_updateAt, if_pos ⟨rfl, rfl, rfl⟩, hitem] at hit
              have hxval : x = reduce07 item := (Option.some.inj hit).symm
              rw [hxval, hpy] at hx
              exact Bool.false_ne_true hx
            · rw [itemAt_updateAt_ne_pos reduce07 hpos] at hit
              obtain ⟨rc, hrc, hrcf⟩ := hcv fam hb idx x hit hx
              rcases List.mem_cons.mp hrc with hre | hre
              · exfalso
                subst hre
                exact hpos hrcf
              · exact ⟨rc, hre, hrcf⟩
        · rename_i hnone
          apply reduceLoop_count_le hn total S0 hS0 rest r f ns hnd hcap
            (List.pairwise_cons.mp hpw).2
            (fun rc hrc x hx => hcons rc (List.mem_cons_of_mem _ hrc) x hx)
            ?_ hcnt
          intro fam hb idx x hit hx
          obtain ⟨rc, hrc, hrcf⟩ := hcv fam hb idx x hit hx
          rcases List.mem_cons.mp hrc with hre | hre
          · exfalso
            subst hre
            obtain ⟨hf1, hf2, hf3⟩ := hrcf
            rw [← hf1, ← hf2, ← hf3] at hit
            rw [hnone] at hit
            exact Option.noConfusion hit
          · exact ⟨rc, hre, hrcf⟩

theorem heavyCount_pass6c_le {hn : Option String} {f : Formula} {ns : List String}
    (hnd : (keysOf f).Nodup) (hcap : hbCondAll hn f) :
    heavyCount hn (pass6c hn f ns).1 ≤ 2 := by
  simp only [pass6c]
  show heavyCount hn (if 2 < (collectHeavy f).length then
      reduceLoop hn (collectHeavy f).length
        (List.insertionSort (heavyRel hn) (collectHeavy f)) 0 f ns
    else (f, ns)).1 ≤ 2
  split
  · apply reduceLoop_count_le hn (collectHeavy f).length (heavyCount hn f)
      (heavyCount_le_collect hn f) (List.insertionSort (heavyRel hn) (collectHeavy f))
      0 f ns hnd hcap ?_ ?_ ?_ rfl
    · exact (collectHeavy_pos_pairwise hnd).perm
        (List.perm_insertionSort (heavyRel hn) (collectHeavy f)).symm
        (fun h => h.symm)
    · intro rc hrc x hx
      exact collect_consistent hnd rc ((List.mem_insertionSort _).mp hrc) x hx
    · intro fam hb idx x hit hx
      have h5 : 5 < getUpperPct x := by
        unfold isHeavyNonHero at hx
        rw [Bool.and_eq_true] at hx
        exact of_decide_eq_true hx.2
      obtain ⟨rc, hrc, hprops⟩ := mem_collectHeavy_of_itemAt hit h5
      exact ⟨rc, (List.mem_insertionSort _).mpr hrc, hprops⟩
  · rename_i hc
    have h1 := heavyCount_le_collect hn f
    show heavyCount hn f ≤ 2
    omega

theorem reduceLoop_frame {hn : Option String} {total : ℕ} :
    ∀ (l : List HeavyItem) (r : ℕ) (f : Formula) (ns : List String)
      (fam : String) (hb : Bool) (idx : ℕ), (fam, hb, idx) ∉ l.map posOf →
      itemAt (reduceLoop hn total l r f ns).1 fam hb idx = itemAt f fam hb idx
  | [], _, _, _, _, _, _, _ => rfl
  | rec :: rest, r, f, ns, fam, hb, idx, hnin => by
    have hnin' : (fam, hb, idx) ∉ rest.map posOf := by
      intro hin
      exact hnin (List.mem_cons_of_mem _ hin)
    have hh : ¬(rec.fam = fam ∧ rec.isHeart = hb ∧ rec.idx = idx) := by
      intro ⟨h1, h2, h3⟩
      apply hnin
      rw [List.map_cons, List.mem_cons]
      left
      unfold posOf
      rw [h1, h2, h3]
    unfold reduceLoop
    split
    · exact reduceLoop_frame rest r f ns fam hb idx hnin'
    · split
      · rfl
      · split
        · rw [reduceLoop_frame rest _ _ _ fam hb idx hnin']
          exact itemAt_updateAt_ne_pos reduce07 hh
        · exact reduceLoop_frame rest r f ns fam hb idx hnin'

theorem reduceLoop_shape {hn : Option String} {total : ℕ} :
    ∀ (l : List HeavyItem) (r : ℕ) (f : Formula) (ns : List String),
      List.Pairwise (fun a b => posOf a ≠ posOf b) l →
      (∀ rec ∈ l, ∀ x, itemAt f rec.fam rec.isHeart rec.idx = some x →
        x.name = rec.name ∧ 5 < getUpperPct x) →
      ∀ (fam : String) (hb : Bool) (idx : ℕ) (x' : FormulaIngredient),
        itemAt (reduceLoop hn total l r f ns).1 fam hb idx = some x' →
        ∃ x, itemAt f fam hb idx = some x ∧
          (x' = x ∨ (¬some x.name = hn ∧ 5 < getUpperPct x ∧ x' = reduce07 x))
  | [], _, _, _, _, _, fam, hb, idx, x', hx' => ⟨x', hx', Or.inl rfl⟩
  | rec :: rest, r, f, ns, hpw, hcons, fam, hb, idx, x', hx' => by
    rw [reduceLoop] at hx'
    split at hx'
    · exact reduceLoop_shape rest r f ns (List.pairwise_cons.mp hpw).2
        (fun rc hrc x hx => hcons rc (List.mem_cons_of_mem _ hrc) x hx) fam hb idx x' hx'
    · rename_i hhero
      split at hx'
      · exact ⟨x', hx', Or.inl rfl⟩
      · split at hx'
        · rename_i item hitem
          by_cases hpos : rec.fam = fam ∧ rec.isHeart = hb ∧ rec.idx = idx
          · obtain ⟨h1, h2, h3⟩ := hpos
            subst h1
            subst h2
            subst h3
            have hnotin : (rec.fam, rec.isHeart, rec.idx) ∉ rest.map posOf := by
              intro hin
              rw [List.mem_map] at hin
              obtain ⟨rc, hrc, hposeq⟩ := hin
              exact (List.pairwise_cons.mp hpw).1 rc hrc hposeq.symm
            rw [reduceLoop_frame rest _ _ _ _ _ _ hnotin,
              itemAt_updateAt, if_pos ⟨rfl, rfl, rfl⟩, hitem] at hx'
            obtain ⟨hname, h5⟩ := hcons rec (List.mem_cons_self _ _) item hitem
            refine ⟨item, hitem, Or.inr ⟨?_, h5, (Option.some.inj hx').symm⟩⟩
            intro he
            apply hhero
            rw [← hname]
            exact beq_iff_eq.mpr he
          · have hconsrest : ∀ rc ∈ rest, ∀ x,
                itemAt (updateAt f rec.fam rec.isHeart rec.idx reduce07)
                  rc.fam rc.isHeart rc.idx = some x →
                x.name = rc.name ∧ 5 < getUpperPct x := by
              intro rc hrc x hx
              have hposne := (List.pairwise_cons.mp hpw).1 rc hrc
              rw [itemAt_updateAt_ne_pos reduce07 (fun hc => hposne (by
                unfold posOf
                rw [hc.1, hc.2.1, hc.2.2]))] at hx
              exact hcons rc (List.mem_cons_of_mem _ hrc) x hx
            obtain ⟨x1, hit1, hsh⟩ := reduceLoop_shape rest _ _ _
              (List.pairwise_cons.mp hpw).2 hconsrest fam hb idx x' hx'
            rw [itemAt_updateAt_ne_pos reduce07 hpos] at hit1
            exact ⟨x1, hit1, hsh⟩
        · exact reduceLoop_shape rest r f ns (List.pairwise_cons.mp hpw).2
            (fun rc hrc x hx => hcons rc (List.mem_cons_of_mem _ hrc) x hx) fam hb idx x' hx'

theorem reduceLoop_notes {hn : Option String} {total : ℕ} :
    ∀ (l : List HeavyItem) (r : ℕ) (f : Formula) (ns : List String),
      ∃ ds, (reduceLoop hn total l r f ns).2 = ns ++ ds
  | [], _, _, ns => ⟨[], (List.append_nil ns).symm⟩
  | rec :: rest, r, f, ns => by
    unfold reduceLoop
    split
    · exact reduceLoop_notes rest r f ns
    · split
      · exact ⟨[], (List.append_nil ns).symm⟩
      · split
        · rename_i item hitem
          obtain ⟨ds, hds⟩ := reduceLoop_notes rest (r + 1)
            (updateAt f rec.fam rec.isHeart rec.idx reduce07) (ns ++ [note6c item])
          exact ⟨[note6c item] ++ ds, by rw [hds, List.append_assoc]⟩
        · exact reduceLoop_notes rest r f ns

theorem pass6c_shape {hn : Option String} {f : Formula} {ns : List String}
    (hnd : (keysOf f).Nodup) :
    ∀ (fam : String) (hb : Bool) (idx : ℕ) (x' : FormulaIngredient),
      itemAt (pass6c hn f ns).1 fam hb idx = some x' →
      ∃ x, itemAt f fam hb idx = some x ∧
        (x' = x ∨ (¬some x.name = hn ∧ 5 < getUpperPct x ∧ x' = reduce07 x)) := by
  intro fam hb idx x' hx'
  simp only [pass6c] at hx'
  rw [show (let heavyItems := collectHeavy f;
      if 2 < heavyItems.length then
        reduceLoop hn heavyItems.length (List.insertionSort (heavyRel hn) heavyItems) 0 f ns
      else (f, ns)) =
    (if 2 < (collectHeavy f).length then
        reduceLoop hn (collectHeavy f).length
          (List.insertionSort (heavyRel hn) (collectHeavy f)) 0 f ns
      else (f, ns)) from rfl] at hx'
  split at hx'
  · exact reduceLoop_shape _ _ _ _
      ((collectHeavy_pos_pairwise hnd).perm
        (List.perm_insertionSort (heavyRel hn) (collectHeavy f)).symm (fun h => h.symm))
      (fun rc hrc x hx =>
        collect_consistent hnd rc ((List.mem_insertionSort _).mp hrc) x hx)
      fam hb idx x' hx'
  · exact ⟨x', hx', Or.inl rfl⟩

theorem pass6c_notes (hn : Option String) (f : Formula) (ns : List String) :
    ∃ ds, (pass6c hn f ns).2 = ns ++ ds := by
  simp only [pass6c]
  show (∃ ds, (if 2 < (collectHeavy f).length then
      reduceLoop hn (collectHeavy f).length
        (List.insertionSort (heavyRel hn) (collectHeavy f)) 0 f ns
    else (f, ns)).2 = ns ++ ds)
  split
  · exact reduceLoop_notes _ _ _ _
  · exact ⟨[], (List.append_nil ns).symm⟩

/-- **C7** — At most two heavy entries after pass C.  For every input:
the returned formula is exactly pass D applied to the pass C output
(`stageC`); immediately after pass C the number of non-hero heart/base
entries whose upper bound exceeds 5 % is at most 2 (unconditionally, hence in
particular whenever at least 3 candidates existed); every entry of the pass C
output is either the corresponding pass B entry unchanged or a non-hero entry
with upper bound over 5 % rewritten to exactly 70 % of its band (rounded to
one decimal); pass C only appends perfumer notes; and the sequence it
processes is sorted hero-first, then by ascending original persistence. -/
theorem c7_at_most_two_heavy (dominant secondary accent scentCode : String)
    (concentration occasion intensity : Option String) :
    (generateLocalFormula dominant secondary accent scentCode
        concentration occasion intensity).formula =
      (pass7 (stageC dominant secondary accent scentCode
          concentration occasion intensity).1
        (stageC dominant secondary accent scentCode
          concentration occasion intensity).2).1 ∧
    heavyCount (heroNameOf (assembled dominant secondary accent scentCode
        concentration occasion intensity).1)
      (stageC dominant secondary accent scentCode
        concentration occasion intensity).1 ≤ 2 ∧
    (∀ (fam : String) (hb : Bool) (idx : ℕ) (x' : FormulaIngredient),
      itemAt (stageC dominant secondary accent scentCode
        concentration occasion intensity).1 fam hb idx = some x' →
      ∃ x, itemAt (stageB dominant secondary accent scentCode
          concentration occasion intensity) fam hb idx = some x ∧
        (x' = x ∨ (¬some x.name = heroNameOf (assembled dominant secondary accent scentCode
            concentration occasion intensity).1 ∧
          5 < getUpperPct x ∧ x' = reduce07 x))) ∧
    (∃ ds, (stageC dominant secondary accent scentCode
        concentration occasion intensity).2 =
      (assembled dominant secondary accent scentCode
        concentration occasion intensity).2.1.perfumerNotes ++ ds) ∧
    List.Sorted (heavyRel (heroNameOf (assembled dominant secondary accent scentCode
        concentration occasion intensity).1))
      (List.insertionSort (heavyRel (heroNameOf (assembled dominant secondary accent
          scentCode concentration occasion intensity).1))
        (collectHeavy (stageB dominant secondary accent scentCode
          concentration occasion intensity))) := by
  have hnd : (keysOf (stageB dominant secondary accent scentCode
      concentration occasion intensity)).Nodup := by
    unfold stageB
    rw [keysOf_pass6b, keysOf_pass6a]
    exact nodupKeys_assembled dominant secondary accent scentCode
      concentration occasion intensity
  have hcap : hbCondAll (heroNameOf (assembled dominant secondary accent scentCode
      concentration occasion intensity).1)
      (stageB dominant secondary accent scentCode concentration occasion intensity) := by
    unfold stageB
    exact pass6b_establishes_cap _ _
  refine ⟨rfl, ?_, ?_, ?_, List.sorted_insertionSort _ _⟩
  · exact heavyCount_pass6c_le hnd hcap
  · intro fam hb idx x' hx'
    exact pass6c_shape hnd fam hb idx x' hx'
  · exact pass6c_notes _ _ _

/-- Witness for `c7_at_most_two_heavy` at (oriental, floral, citrus, "AB"):
the heavy-entry bound holds, and the oriental heart entry at index 0 (the
hero, Oud Oil) is carried from the pass B stage into the pass C output
unchanged or 0.7-reduced. -/
theorem c7_at_most_two_heavy_witness :
    heavyCount (heroNameOf (assembled "oriental" "floral" "citrus" "AB" none none none).1)
      (stageC "oriental" "floral" "citrus" "AB" none none none).1 ≤ 2 ∧
    (∃ x, itemAt (stageB "oriental" "floral" "citrus" "AB" none none none)
        "oriental" true 0 = some x ∧
      ((⟨"Oud Oil (Hindi type)", ⟨7/5, 13/5⟩, "🌍 UAE (Dubai)", none⟩
          : FormulaIngredient) = x ∨
        (¬some x.name =
            heroNameOf (assembled "oriental" "floral" "citrus" "AB" none none none).1 ∧
          5 < getUpperPct x ∧
          (⟨"Oud Oil (Hindi type)", ⟨7/5, 13/5⟩, "🌍 UAE (Dubai)", none⟩
            : FormulaIngredient) = reduce07 x))) := by
  have h := c7_at_most_two_heavy "oriental" "floral" "citrus" "AB" none none none
  refine ⟨h.2.1, ?_⟩
  exact h.2.2.1 "oriental" true 0
    ⟨"Oud Oil (Hindi type)", ⟨7/5, 13/5⟩, "🌍 UAE (Dubai)", none⟩ (by decide)

/-!
### C6: the ingredient floor
-/

theorem totalCount_sum : ∀ (f : Formula) (init : ℕ),
    f.foldl (fun n p => n + layerCount p.2) init =
      init + (f.map (fun p => layerCount p.2)).sum
  | [], init => by simp
  | q :: rest, init => by
    rw [List.foldl_cons, totalCount_sum rest _, List.map_cons, List.sum_cons]
    omega

theorem totalFormulaCount_eq (f : Formula) :
    totalFormulaCount f = (f.map (fun p => layerCount p.2)).sum := by
  unfold totalFormulaCount
  rw [totalCount_sum]
  omega

theorem totalCount_ensureFam (f : Formula) (k : String) :
    totalFormulaCount (ensureFam f k) = totalFormulaCount f := by
  unfold ensureFam
  split
  · rfl
  · rw [totalFormulaCount_eq, totalFormulaCount_eq, List.map_append, List.sum_append]
    show _ + (layerCount ⟨[], [], []⟩ + 0) = _
    show _ + (0 + 0) = _
    omega

theorem totalCount_modFam_inc {f : Formula} {k : String} {g : LayerSet → LayerSet}
    (hsome : ∃ v0, getFam f k = some v0)
    (hg : ∀ v, getFam f k = some v → layerCount (g v) = layerCount v + 1) :
    totalFormulaCount (modFam f k g) = totalFormulaCount f + 1 := by
  induction f with
  | nil =>
    obtain ⟨v0, hv0⟩ := hsome
    simp [getFam] at hv0
  | cons q rest ih =>
    obtain ⟨k0, v0⟩ := q
    unfold modFam
    split
    · rename_i hk
      rw [totalFormulaCount_eq, totalFormulaCount_eq, List.map_cons, List.map_cons,
        List.sum_cons, List.sum_cons]
      have hv := hg v0 (by unfold getFam; rw [if_pos hk])
      simp only []
      omega
    · rename_i hk
      rw [totalFormulaCount_eq, totalFormulaCount_eq, List.map_cons, List.map_cons,
        List.sum_cons, List.sum_cons]
      have hsome' : ∃ v1, getFam rest k = some v1 := by
        obtain ⟨v1, hv1⟩ := hsome
        unfold getFam at hv1
        rw [if_neg hk] at hv1
        exact ⟨v1, hv1⟩
      have ih' := ih hsome' (fun v hv => hg v (by unfold getFam; rw [if_neg hk]; exact hv))
      rw [totalFormulaCount_eq, totalFormulaCount_eq] at ih'
      simp only []
      omega

theorem getFam_append_none {f : Formula} {d : String} (h : getFam f d = none)
    (r : Formula) : getFam (f ++ r) d = getFam r d := by
  induction f with
  | nil => rfl
  | cons q rest ih =>
    obtain ⟨k0, v0⟩ := q
    unfold getFam at h
    split at h
    · exact absurd h (by simp)
    · rename_i hk
      rw [List.cons_append]
      show (if (k0 == d) = true then some v0 else getFam (rest ++ r) d) = getFam r d
      rw [if_neg hk]
      exact ih h

theorem getFam_ensureFam_target (f : Formula) (k : String) :
    ∃ v, getFam (ensureFam f k) k = some v := by
  unfold ensureFam
  split
  · rename_i hs
    cases hg : getFam f k with
    | none => rw [hg] at hs; simp at hs
    | some v => exact ⟨v, rfl⟩
  · rename_i hs
    have hnone : getFam f k = none := by
      cases hg : getFam f k with
      | none => rfl
      | some v => rw [hg] at hs; simp at hs
    rw [getFam_append_none hnone]
    refine ⟨⟨[], [], []⟩, ?_⟩
    unfold getFam
    rw [if_pos (beq_iff_eq.mpr rfl)]

theorem totalCount_addFillItem (secondary accent : String) (p : St × Formula)
    (fill : RawIngredient) :
    totalFormulaCount (addFillItem secondary accent p fill).2 =
      totalFormulaCount p.2 + 1 := by
  unfold addFillItem
  simp only []
  rw [totalCount_modFam_inc (getFam_ensureFam_target _ _) ?_, totalCount_ensureFam]
  intro v _
  unfold layerCount
  split <;> split <;>
    (simp only [List.length_append, List.length_cons, List.length_nil]; omega)

theorem totalCount_fold_addFill (secondary accent : String) :
    ∀ (l : List RawIngredient) (p : St × Formula),
      totalFormulaCount ((l.foldl (addFillItem secondary accent) p).2) =
        totalFormulaCount p.2 + l.length
  | [], _ => rfl
  | fill :: rest, p => by
    rw [List.foldl_cons, totalCount_fold_addFill secondary accent rest _,
      totalCount_addFillItem]
    rw [List.length_cons]
    omega

theorem totalCount_step5b_floor {dominant secondary accent : String} {st : St} {f : Formula}
    (hheavy : heavyFamilies.contains dominant = true)
    (hpool : 9 ≤ totalFormulaCount f + (fillSourcesOf secondary accent st.used).length) :
    9 ≤ totalFormulaCount (step5b dominant secondary accent st f).2 := by
  unfold step5b
  simp only []
  split
  · rename_i hcond
    rw [totalCount_fold_addFill]
    rw [List.length_map, List.length_take]
    have hsortlen : (List.insertionSort (fun a b : Scored => b.score ≤ a.score)
        (fillScoreStep dominant secondary accent
          (fillSourcesOf secondary accent st.used) st.rng 0).2).length =
        (fillScoreStep dominant secondary accent
          (fillSourcesOf secondary accent st.used) st.rng 0).2.length :=
      (List.perm_insertionSort _ _).length_eq
    have hslen : (fillScoreStep dominant secondary accent
        (fillSourcesOf secondary accent st.used) st.rng 0).2.length =
        (fillSourcesOf secondary accent st.used).length := by
      have hh := congrArg List.length (fillScoreStep_ings dominant secondary accent
        (fillSourcesOf secondary accent st.used) st.rng 0)
      rw [List.length_map] at hh
      exact hh
    simp only []
    omega
  · rename_i hcond
    have hge : ¬totalFormulaCount f < 9 := fun hlt => hcond ⟨hheavy, hlt⟩
    show 9 ≤ totalFormulaCount f
    omega

theorem totalCount_addStructuralItem (dominant : String) (p : St × Formula)
    (s : RawIngredient) :
    totalFormulaCount (addStructuralItem dominant p s).2 =
      totalFormulaCount p.2 + 1 := by
  unfold addStructuralItem
  simp only []
  rw [totalCount_modFam_inc (getFam_ensureFam_target _ _) ?_, totalCount_ensureFam]
  intro v _
  unfold layerCount
  simp only [List.length_append, List.length_cons, List.length_nil]
  omega

theorem totalCount_step5c_ge (dominant : String) (concentration : Option String)
    (st : St) (f : Formula) :
    totalFormulaCount f ≤ totalFormulaCount (step5c dominant concentration st f).2 := by
  unfold step5c
  split
  · have hfold : ∀ (l : List RawIngredient) (p : St × Formula),
        totalFormulaCount p.2 ≤
          totalFormulaCount ((l.foldl (addStructuralItem dominant) p).2) := by
      intro l
      induction l with
      | nil => intro p; exact le_refl _
      | cons s rest ih =>
        intro p
        rw [List.foldl_cons]
        have h1 := totalCount_addStructuralItem dominant p s
        have h2 := ih (addStructuralItem dominant p s)
        omega
    exact hfold _ (st, f)
  · exact le_refl _

theorem setIdx_length (l : List FormulaIngredient) (idx : ℕ)
    (g : FormulaIngredient → FormulaIngredient) :
    (setIdx l idx g).length = l.length := by
  unfold setIdx
  split
  · apply List.length_set
  · rfl

theorem totalCount_mapHB (g : String → FormulaIngredient → FormulaIngredient)
    (f : Formula) : totalFormulaCount (mapHB g f) = totalFormulaCount f := by
  rw [totalFormulaCount_eq, totalFormulaCount_eq]
  unfold mapHB
  rw [List.map_map]
  congr 1
  apply List.map_congr_left
  intro p _
  show layerCount ⟨p.2.top, p.2.heart.map (g p.1), p.2.base.map (g p.1)⟩ = layerCount p.2
  unfold layerCount
  rw [List.length_map, List.length_map]

theorem totalCount_modFam_of_len {f : Formula} {k : String} {g : LayerSet → LayerSet}
    (hgg : ∀ v, getFam f k = some v → layerCount (g v) = layerCount v) :
    totalFormulaCount (modFam f k g) = totalFormulaCount f := by
  induction f with
  | nil => rfl
  | cons q rest ih =>
    obtain ⟨k0, v0⟩ := q
    unfold modFam
    split
    · rename_i hk
      rw [totalFormulaCount_eq, totalFormulaCount_eq, List.map_cons, List.map_cons,
        List.sum_cons, List.sum_cons]
      have hv := hgg v0 (by unfold getFam; rw [if_pos hk])
      simp only []
      omega
    · rename_i hk
      rw [totalFormulaCount_eq, totalFormulaCount_eq, List.map_cons, List.map_cons,
        List.sum_cons, List.sum_cons]
      have ih' := ih (fun v hv => hgg v (by unfold getFam; rw [if_neg hk]; exact hv))
      rw [totalFormulaCount_eq, totalFormulaCount_eq] at ih'
      simp only []
      omega

theorem totalCount_updateAt (f : Formula) (fam : String) (hb : Bool) (idx : ℕ)
    (g : FormulaIngredient → FormulaIngredient) :
    totalFormulaCount (updateAt f fam hb idx g) = totalFormulaCount f := by
  unfold updateAt
  apply totalCount_modFam_of_len
  intro v _
  unfold layerCount
  cases hb
  · show v.top.length + v.heart.length + (setIdx v.base idx g).length = _
    rw [setIdx_length]
  · show v.top.length + (setIdx v.heart idx g).length + v.base.length = _
    rw [setIdx_length]

theorem totalCount_generateLocal (dominant secondary accent scentCode : String)
    (concentration occasion intensity : Option String) :
    totalFormulaCount (generateLocalFormula dominant secondary accent scentCode
        concentration occasion intensity).formula =
      totalFormulaCount (assembled dominant secondary accent scentCode
        concentration occasion intensity).2.2 := by
  rw [generateLocalFormula_formula]
  have h7 : ∀ (f : Formula) (ns : List String),
      totalFormulaCount (pass7 f ns).1 = totalFormulaCount f := by
    intro f ns
    unfold pass7
    exact @measure_applyGroup_fold totalFormulaCount
      (fun w f => by unfold dampenWeaker; exact totalCount_mapHB _ f) _ _
  have h6c : ∀ (hn : Option String) (f : Formula) (ns : List String),
      totalFormulaCount (pass6c hn f ns).1 = totalFormulaCount f := by
    intro hn f ns
    simp only [pass6c]
    show totalFormulaCount (if 2 < (collectHeavy f).length then
        reduceLoop hn (collectHeavy f).length
          (List.insertionSort (heavyRel hn) (collectHeavy f)) 0 f ns
      else (f, ns)).1 = totalFormulaCount f
    split
    · exact @measure_reduceLoop totalFormulaCount
        (fun f fam hb idx => totalCount_updateAt f fam hb idx reduce07) hn _ _ _ _ _
    · rfl
  have h6b : ∀ (hn : Option String) (f : Formula),
      totalFormulaCount (pass6b hn f) = totalFormulaCount f := by
    intro hn f
    exact totalCount_mapHB _ f
  have h6a : ∀ (hn : Option String) (f : Formula),
      totalFormulaCount (pass6a hn f) = totalFormulaCount f := by
    intro hn f
    unfold pass6a
    split
    · exact totalCount_mapHB _ f
    · rfl
  rw [h7, h6c, h6b, h6a]

theorem stage5_to_assembled (dominant secondary accent scentCode : String)
    (concentration occasion intensity : Option String) :
    (assembled dominant secondary accent scentCode
        concentration occasion intensity).2.2 =
      (step5c dominant concentration
        (step5b dominant secondary accent
          (stage5 dominant secondary accent scentCode concentration occasion intensity).1
          (stage5 dominant secondary accent scentCode concentration occasion intensity).2).1
        (step5b dominant secondary accent
          (stage5 dominant secondary accent scentCode concentration occasion intensity).1
          (stage5 dominant secondary accent scentCode concentration occasion intensity).2).2).2 :=
  rfl

theorem get?_append_singleton {l : List FormulaIngredient} {a x : FormulaIngredient} :
    ∀ {i : ℕ}, (l ++ [a]).get? i = some x → l.get? i = some x ∨ x = a := by
  induction l with
  | nil =>
    intro i h
    cases i with
    | zero =>
      right
      exact (Option.some.inj h).symm
    | succ n => simp at h
  | cons b rest ih =>
    intro i h
    cases i with
    | zero =>
      left
      exact h
    | succ n => exact ih h

theorem getFam_ensureFam_cases (f : Formula) (k d : String) :
    getFam (ensureFam f k) d = getFam f d ∨
      (getFam f d = none ∧ d = k ∧ getFam (ensureFam f k) d = some ⟨[], [], []⟩) := by
  unfold ensureFam
  split
  · left
    rfl
  · cases hg : getFam f d with
    | some v => left; exact getFam_append_of_some hg
    | none =>
      rw [getFam_append_none hg]
      by_cases hdk : d = k
      · right
        refine ⟨rfl, hdk, ?_⟩
        subst hdk
        show (if (d == d) = true then some (⟨[], [], []⟩ : LayerSet) else none) = _
        rw [if_pos (beq_iff_eq.mpr rfl)]
      · left
        show (if (k == d) = true then some (⟨[], [], []⟩ : LayerSet) else none) = none
        rw [if_neg (fun hb => hdk (beq_iff_eq.mp hb).symm)]

theorem itemAt_ensureFam_some {f : Formula} {k fam : String} {hb : Bool} {idx : ℕ}
    {x : FormulaIngredient} (h : itemAt (ensureFam f k) fam hb idx = some x) :
    itemAt f fam hb idx = some x := by
  unfold itemAt at h ⊢
  rcases getFam_ensureFam_cases f k fam with hc | ⟨hnone, _, hv⟩
  · rw [hc] at h
    exact h
  · rw [hv] at h
    cases hb <;> simp at h

theorem itemAt_addFillItem {secondary accent : String} {p : St × Formula}
    {fill : RawIngredient} {fam : String} {hb : Bool} {idx : ℕ} {x : FormulaIngredient}
    (h : itemAt (addFillItem secondary accent p fill).2 fam hb idx = some x) :
    itemAt p.2 fam hb idx = some x ∨
      (x = fillItemOf fill ∧
        fam = (if (dbHeart secondary ++ dbBase secondary).any
          (fun j => j.name == fill.name) then secondary else accent) ∧
        hb = (dbHeart fam).any (fun j => j.name == fill.name)) := by
  unfold addFillItem at h
  simp only [] at h
  unfold itemAt at h
  rw [getFam_modFam] at h
  by_cases hfamt : (if (dbHeart secondary ++ dbBase secondary).any
      (fun i => i.name == fill.name) then secondary else accent) = fam
  · rw [if_pos hfamt] at h
    cases hE : getFam (ensureFam p.2
        (if (dbHeart secondary ++ dbBase secondary).any (fun i => i.name == fill.name)
          then secondary else accent)) fam with
    | none =>
      rw [hE] at h
      simp at h
    | some v =>
      rw [hE, Option.map_some'] at h
      by_cases hih : ((dbHeart (if (dbHeart secondary ++ dbBase secondary).any
          (fun i => i.name == fill.name) then secondary else accent)).any
          (fun h => h.name == fill.name)) = true
      · rw [if_pos hih] at h
        cases hb with
        | true =>
          have h2 : (v.heart ++ [(⟨fill.name, makeRange (parseMidpoint fill.percent * 0.4),
              fill.supplier, some (parseMidpoint fill.percent * 0.4)⟩ : FormulaIngredient)]).get?
              idx = some x := h
          rcases get?_append_singleton h2 with hold | hnew
          · have hens : itemAt (ensureFam p.2
                (if (dbHeart secondary ++ dbBase secondary).any
                  (fun i => i.name == fill.name) then secondary else accent))
                fam true idx = some x := by
              unfold itemAt
              rw [hE]
              exact hold
            exact Or.inl (itemAt_ensureFam_some hens)
          · right
            refine ⟨hnew, hfamt.symm, ?_⟩
            rw [← hfamt]
            exact hih.symm
        | false =>
          have hens : itemAt (ensureFam p.2
              (if (dbHeart secondary ++ dbBase secondary).any
                (fun i => i.name == fill.name) then secondary else accent))
              fam false idx = some x := by
            unfold itemAt
            rw [hE]
            exact h
          exact Or.inl (itemAt_ensureFam_some hens)
      · rw [if_neg hih] at h
        cases hb with
        | false =>
          have h2 : (v.base ++ [(⟨fill.name, makeRange (parseMidpoint fill.percent * 0.4),
              fill.supplier, some (parseMidpoint fill.percent * 0.4)⟩ : FormulaIngredient)]).get?
              idx = some x := h
          rcases get?_append_singleton h2 with hold | hnew
          · have hens : itemAt (ensureFam p.2
                (if (dbHeart secondary ++ dbBase secondary).any
                  (fun i => i.name == fill.name) then secondary else accent))
                fam false idx = some x := by
              unfold itemAt
              rw [hE]
              exact hold
            exact Or.inl (itemAt_ensureFam_some hens)
          · right
            refine ⟨hnew, hfamt.symm, ?_⟩
            rw [← hfamt]
            cases hx : ((dbHeart (if (dbHeart secondary ++ dbBase secondary).any
                (fun i => i.name == fill.name) then secondary else accent)).any
                (fun h => h.name == fill.name)) with
            | false => rfl
            | true => exact absurd hx hih
        | true =>
          have hens : itemAt (ensureFam p.2
              (if (dbHeart secondary ++ dbBase secondary).any
                (fun i => i.name == fill.name) then secondary else accent))
              fam true idx = some x := by
            unfold itemAt
            rw [hE]
            exact h
          exact Or.inl (itemAt_ensureFam_some hens)
  · rw [if_neg hfamt] at h
    have hens : itemAt (ensureFam p.2
        (if (dbHeart secondary ++ dbBase secondary).any
          (fun i => i.name == fill.name) then secondary else accent))
        fam hb idx = some x := by
      unfold itemAt
      exact h
    exact Or.inl (itemAt_ensureFam_some hens)

theorem step5b_shape (dominant secondary accent : String) (st : St) (f : Formula) :
    ∀ (fam : String) (hb : Bool) (idx : ℕ) (x : FormulaIngredient),
      itemAt (step5b dominant secondary accent st f).2 fam hb idx = some x →
      itemAt f fam hb idx = some x ∨
      ∃ i ∈ fillSourcesOf secondary accent st.used,
        x = fillItemOf i ∧
        fam = (if (dbHeart secondary ++ dbBase secondary).any
          (fun j => j.name == i.name) then secondary else accent) ∧
        hb = (dbHeart fam).any (fun j => j.name == i.name) := by
  unfold step5b
  simp only []
  split
  · have hfold : ∀ (l : List RawIngredient),
        (∀ i ∈ l, i ∈ fillSourcesOf secondary accent st.used) →
        ∀ (p : St × Formula),
        (∀ (fam : String) (hb : Bool) (idx : ℕ) (x : FormulaIngredient),
          itemAt p.2 fam hb idx = some x →
          itemAt f fam hb idx = some x ∨
          ∃ i ∈ fillSourcesOf secondary accent st.used,
            x = fillItemOf i ∧
            fam = (if (dbHeart secondary ++ dbBase secondary).any
              (fun j => j.name == i.name) then secondary else accent) ∧
            hb = (dbHeart fam).any (fun j => j.name == i.name)) →
        ∀ (fam : String) (hb : Bool) (idx : ℕ) (x : FormulaIngredient),
          itemAt ((l.foldl (addFillItem secondary accent) p).2) fam hb idx = some x →
          itemAt f fam hb idx = some x ∨
          ∃ i ∈ fillSourcesOf secondary accent st.used,
            x = fillItemOf i ∧
            fam = (if (dbHeart secondary ++ dbBase secondary).any
              (fun j => j.name == i.name) then secondary else accent) ∧
            hb = (dbHeart fam).any (fun j => j.name == i.name) := by
      intro l
      induction l with
      | nil =>
        intro _ p hp
        exact hp
      | cons fl rest ih =>
        intro hmem p hp
        rw [List.foldl_cons]
        apply ih (fun i hi => hmem i (List.mem_cons_of_mem _ hi))
        intro fam hb idx x hx
        rcases itemAt_addFillItem hx with hold | ⟨hfill, hfam, hhb⟩
        · exact hp fam hb idx x hold
        · exact Or.inr ⟨fl, hmem fl (List.mem_cons_self _ _), hfill, hfam, hhb⟩
    apply hfold _ ?_ _ ?_
    · intro i hi
      rw [List.mem_map] at hi
      obtain ⟨sc, hsc, hie⟩ := hi
      have hs2 := List.mem_of_mem_take hsc
      rw [List.mem_insertionSort] at hs2
      have hmm := List.mem_map_of_mem Scored.ing hs2
      rw [fillScoreStep_ings] at hmm
      rw [← hie]
      exact hmm
    · intro fam hb idx x hx
      exact Or.inl hx
  · intro fam hb idx x hx
    exact Or.inl hx

/-- Claim C6, counterexample: the heavy-family floor does not follow from the
combined database pools holding at least 9 candidates.  At input (oriental,
unknown, aquatic, "AB") the three families' pools hold 17 records (11 + 0 + 6),
yet the returned formula has fewer than 9 ingredients: the step 5b top-up can
draw only on *unused character-role* ingredients of the secondary and accent
families, and here too few of those exist. -/
theorem c6_counterexample :
    heavyFamilies.contains "oriental" = true ∧
    9 ≤ familyPoolCount "oriental" + familyPoolCount "unknown" + familyPoolCount "aquatic" ∧
    totalFormulaCount (generateLocalFormula "oriental" "unknown" "aquatic" "AB"
      none none none).formula < 9 := by
  refine ⟨by decide, by decide, by decide⟩

/-- **C6 (amended)** — Heavy-family floor.  The pool hypothesis must be about
the step 5b fill sources (unused character-role ingredients of the secondary
and accent families), not the raw database pools (see `c6_counterexample`).
When the dominant family is heavy and the step-5 ingredient count plus the
number of available fill sources reaches 9, the returned formula holds at
least 9 ingredients; and every entry present after step 5b is either a step-5
entry at the same position or a fill-source pick added at 0.4× its base
midpoint into its own family's matching heart or base layer. -/
theorem c6_floor_amended (dominant secondary accent scentCode : String)
    (concentration occasion intensity : Option String)
    (hheavy : heavyFamilies.contains dominant = true)
    (hpool : 9 ≤ totalFormulaCount (stage5 dominant secondary accent scentCode
        concentration occasion intensity).2 +
      (fillSourcesOf secondary accent (stage5 dominant secondary accent scentCode
        concentration occasion intensity).1.used).length) :
    9 ≤ totalFormulaCount (generateLocalFormula dominant secondary accent scentCode
      concentration occasion intensity).formula ∧
    (∀ (fam : String) (hb : Bool) (idx : ℕ) (x : FormulaIngredient),
      itemAt (step5b dominant secondary accent
        (stage5 dominant secondary accent scentCode concentration occasion intensity).1
        (stage5 dominant secondary accent scentCode
          concentration occasion intensity).2).2 fam hb idx = some x →
      itemAt (stage5 dominant secondary accent scentCode
        concentration occasion intensity).2 fam hb idx = some x ∨
      ∃ i ∈ fillSourcesOf secondary accent (stage5 dominant secondary accent scentCode
          concentration occasion intensity).1.used,
        x = fillItemOf i ∧
        fam = (if (dbHeart secondary ++ dbBase secondary).any
          (fun j => j.name == i.name) then secondary else accent) ∧
        hb = (dbHeart fam).any (fun j => j.name == i.name)) := by
  constructor
  · rw [totalCount_generateLocal, stage5_to_assembled]
    have h5b := totalCount_step5b_floor hheavy hpool
    have h5c := totalCount_step5c_ge dominant concentration
      (step5b dominant secondary accent
        (stage5 dominant secondary accent scentCode concentration occasion intensity).1
        (stage5 dominant secondary accent scentCode concentration occasion intensity).2).1
      (step5b dominant secondary accent
        (stage5 dominant secondary accent scentCode concentration occasion intensity).1
        (stage5 dominant secondary accent scentCode concentration occasion intensity).2).2
    omega
  · exact step5b_shape dominant secondary accent _ _

/-- Witness for `c6_floor_amended` at (oriental, floral, citrus, "AB"): the
dominant family is heavy, step 5 leaves 8 ingredients with 2 fill sources
available (8 + 2 ≥ 9), the returned formula reaches 9 ingredients, and the
oriental heart entry at index 0 is characterised by the shape conjunct. -/
theorem c6_floor_amended_witness :
    9 ≤ totalFormulaCount (generateLocalFormula "oriental" "floral" "citrus" "AB"
      none none none).formula ∧
    (itemAt (stage5 "oriental" "floral" "citrus" "AB" none none none).2
        "oriental" true 0 =
        some ⟨"Oud Oil (Hindi type)", ⟨7/5, 13/5⟩, "🌍 UAE (Dubai)", none⟩ ∨
      ∃ i ∈ fillSourcesOf "floral" "citrus"
          (stage5 "oriental" "floral" "citrus" "AB" none none none).1.used,
        (⟨"Oud Oil (Hindi type)", ⟨7/5, 13/5⟩, "🌍 UAE (Dubai)", none⟩
            : FormulaIngredient) = fillItemOf i ∧
        "oriental" = (if (dbHeart "floral" ++ dbBase "floral").any
          (fun j => j.name == i.name) then "floral" else "citrus") ∧
        true = (dbHeart "oriental").any (fun j => j.name == i.name)) := by
  have h := c6_floor_amended "oriental" "floral" "citrus" "AB" none none none
    (by decide) (by decide)
  refine ⟨h.1, ?_⟩
  exact h.2 "oriental" true 0
    ⟨"Oud Oil (Hindi type)", ⟨7/5, 13/5⟩, "🌍 UAE (Dubai)", none⟩ (by decide)

theorem map_id_of_mem {α : Type} (f : α → α) :
    ∀ (l : List α), (∀ a ∈ l, f a = a) → l.map f = l
  | [], _ => rfl
  | a :: t, h => by
    rw [List.map_cons, h a (List.mem_cons_self a t),
      map_id_of_mem f t (fun b hb => h b (List.mem_cons_of_mem a hb))]

theorem mapHB_eq_self (g : String → FormulaIngredient → FormulaIngredient) :
    ∀ (f : Formula),
      (∀ p ∈ f, (∀ it ∈ p.2.heart, g p.1 it = it) ∧ (∀ it ∈ p.2.base, g p.1 it = it)) →
      mapHB g f = f
  | [], _ => rfl
  | (k, v) :: rest, h => by
    have hh := h (k, v) (List.mem_cons_self _ _)
    show (k, (⟨v.top, v.heart.map (g k), v.base.map (g k)⟩ : LayerSet)) :: mapHB g rest
      = (k, v) :: rest
    rw [map_id_of_mem (g k) v.heart hh.1, map_id_of_mem (g k) v.base hh.2,
      mapHB_eq_self g rest (fun p hp => h p (List.mem_cons_of_mem _ hp))]

theorem itemAt_mapHB (g : String → FormulaIngredient → FormulaIngredient)
    (f : Formula) (fam : String) (hb : Bool) (idx : ℕ) :
    itemAt (mapHB g f) fam hb idx = (itemAt f fam hb idx).map (g fam) := by
  cases hg : getFam f fam with
  | none =>
    have hmap : getFam (mapHB g f) fam = none := by
      rw [getFam_mapHB, hg]
      rfl
    unfold itemAt
    rw [hmap, hg]
    rfl
  | some ls =>
    have hmap : getFam (mapHB g f) fam =
        some ⟨ls.top, ls.heart.map (g fam), ls.base.map (g fam)⟩ := by
      rw [getFam_mapHB, hg]
      rfl
    unfold itemAt
    rw [hmap, hg]
    cases hb with
    | false =>
      show (ls.base.map (g fam)).get? idx = (ls.base.get? idx).map (g fam)
      exact List.get?_map (g fam) ls.base idx
    | true =>
      show (ls.heart.map (g fam)).get? idx = (ls.heart.get? idx).map (g fam)
      exact List.get?_map (g fam) ls.heart idx

theorem itemAt_dampenWeaker (w : String) (f : Formula) (fam : String)
    (hb : Bool) (idx : ℕ) :
    itemAt (dampenWeaker w f) fam hb idx =
      (itemAt f fam hb idx).map
        (fun it => if it.name == w then reduce06 it else it) := by
  unfold dampenWeaker
  exact itemAt_mapHB _ f fam hb idx

theorem foldl_applyGroup_char :
    ∀ (L : List (String × List String)) (f : Formula) (ns : List String),
      ((L.foldl applyGroup (f, ns)).2 = ns ++ overlapNotesOf L) ∧
      (∀ fam hb idx, itemAt (L.foldl applyGroup (f, ns)).1 fam hb idx =
        (itemAt f fam hb idx).map (fun it => L.foldl applySecond it))
  | [], f, ns => by
    constructor
    · show ns = ns ++ []
      rw [List.append_nil]
    · intro fam hb idx
      show itemAt f fam hb idx =
        (itemAt f fam hb idx).map (fun it => List.foldl applySecond it [])
      cases itemAt f fam hb idx <;> rfl
  | (g, ms) :: tl, f, ns => by
    cases ms with
    | nil =>
      have happ : applyGroup (f, ns) (g, []) = (f, ns) := rfl
      rw [List.foldl_cons, happ]
      obtain ⟨hN, hI⟩ := foldl_applyGroup_char tl f ns
      refine ⟨?_, ?_⟩
      · rw [hN]
        rfl
      · intro fam hb idx
        exact hI fam hb idx
    | cons m0 ms1 =>
      cases ms1 with
      | nil =>
        have happ : applyGroup (f, ns) (g, [m0]) = (f, ns) := rfl
        rw [List.foldl_cons, happ]
        obtain ⟨hN, hI⟩ := foldl_applyGroup_char tl f ns
        refine ⟨?_, ?_⟩
        · rw [hN]
          rfl
        · intro fam hb idx
          exact hI fam hb idx
      | cons m1 ms2 =>
        have happ : applyGroup (f, ns) (g, m0 :: m1 :: ms2) =
            (dampenWeaker m1 f, ns ++ [overlapNote g (m0 :: m1 :: ms2)]) := rfl
        rw [List.foldl_cons, happ]
        obtain ⟨hN, hI⟩ := foldl_applyGroup_char tl (dampenWeaker m1 f)
          (ns ++ [overlapNote g (m0 :: m1 :: ms2)])
        refine ⟨?_, ?_⟩
        · rw [hN, List.append_assoc]
          rfl
        · intro fam hb idx
          rw [hI fam hb idx, itemAt_dampenWeaker]
          cases itemAt f fam hb idx <;> rfl

theorem foldl_applyGroup_id :
    ∀ (L : List (String × List String)), (∀ gp ∈ L, gp.2.length ≤ 1) →
      ∀ p : Formula × List String, L.foldl applyGroup p = p
  | [], _, _ => rfl
  | (g, ms) :: tl, h, p => by
    have h0 := h (g, ms) (List.mem_cons_self _ _)
    rw [List.foldl_cons]
    cases ms with
    | nil =>
      have happ : applyGroup p (g, []) = p := rfl
      rw [happ]
      exact foldl_applyGroup_id tl (fun gp hgp => h gp (List.mem_cons_of_mem _ hgp)) p
    | cons m0 ms1 =>
      cases ms1 with
      | nil =>
        have happ : applyGroup p (g, [m0]) = p := rfl
        rw [happ]
        exact foldl_applyGroup_id tl (fun gp hgp => h gp (List.mem_cons_of_mem _ hgp)) p
      | cons m1 ms2 =>
        have hlen : ¬((g, m0 :: m1 :: ms2).2.length ≤ 1) := by
          show ¬((m0 :: m1 :: ms2).length ≤ 1)
          simp only [List.length_cons]
          omega
        exact absurd h0 hlen

theorem clamp6bItem_eq_self (hn : Option String) (it : FormulaIngredient)
    (h : getUpperPct it ≤ 6.5) : clamp6bItem hn it = it := by
  unfold clamp6bItem
  split
  · rfl
  · rw [if_neg (not_lt.mpr h)]

/-- Claim C3, counterexample: at input (smoky, powdery, floral, "AB") the
formula entering the conflict stage has at most one high-dominance entry and
no heart/base band above 6.5 %, yet the four passes change a band: pass C
triggers on uppers above 5 % (not 6.5 %), and here three such entries exist,
so "Guaiac Wood EO" is reduced to 70 %. -/
theorem c3_counterexample :
    highDomCount (assembled "smoky" "powdery" "floral" "AB" none none none).2.2 ≤ 1 ∧
    capAll (assembled "smoky" "powdery" "floral" "AB" none none none).2.2 ∧
    (generateLocalFormula "smoky" "powdery" "floral" "AB" none none none).formula =
      (conflictPasses
        (heroNameOf (assembled "smoky" "powdery" "floral" "AB" none none none).1)
        (assembled "smoky" "powdery" "floral" "AB" none none none).2.2
        (assembled "smoky" "powdery" "floral" "AB" none none none).2.1.perfumerNotes).1 ∧
    itemAt (assembled "smoky" "powdery" "floral" "AB" none none none).2.2
        "smoky" true 1 =
      some ⟨"Guaiac Wood EO", ⟨14/5, 26/5⟩, "📦 Bulkaroma", some 4⟩ ∧
    itemAt (generateLocalFormula "smoky" "powdery" "floral" "AB" none none none).formula
        "smoky" true 1 =
      some ⟨"Guaiac Wood EO", ⟨2, 18/5⟩, "📦 Bulkaroma", some 4⟩ := by
  refine ⟨by decide, by decide, by decide, by decide, by decide⟩

/-- **C3 (amended)** — No-conflict idempotence.  The claim's two entry
conditions (at most one high-dominance entry, no band above 6.5 %) do not
cover the triggers of pass C (more than two heart/base uppers above 5 %) and
pass D (a functional group recorded more than once); see `c3_counterexample`.
With those two triggers also excluded, the four conflict passes return the
formula and the note list unchanged. -/
theorem c3_no_conflict_amended (hn : Option String) (f : Formula) (ns : List String)
    (hdom : highDomCount f ≤ 1) (hcap : capAll f)
    (hheavy : (collectHeavy f).length ≤ 2)
    (hdup : ∀ gp ∈ usedGroupsOf f, gp.2.length ≤ 1) :
    conflictPasses hn f ns = (f, ns) := by
  have h6a : pass6a hn f = f := by
    unfold pass6a
    exact if_neg (by omega)
  have h6b : pass6b hn f = f := by
    unfold pass6b
    exact mapHB_eq_self _ f (fun p hp =>
      ⟨fun it hit => clamp6bItem_eq_self hn it ((hcap p hp).1 it hit),
       fun it hit => clamp6bItem_eq_self hn it ((hcap p hp).2 it hit)⟩)
  have h6c : pass6c hn f ns = (f, ns) := by
    show (if 2 < (collectHeavy f).length then
        reduceLoop hn (collectHeavy f).length
          (List.insertionSort (heavyRel hn) (collectHeavy f)) 0 f ns
      else (f, ns)) = (f, ns)
    exact if_neg (by omega)
  have h7 : pass7 f ns = (f, ns) := by
    unfold pass7
    exact foldl_applyGroup_id (usedGroupsOf f) hdup (f, ns)
  unfold conflictPasses
  rw [h6a, h6b, h6c]
  exact h7

/-- Witness for `c3_no_conflict_amended` on `c3w`. -/
theorem c3_no_conflict_amended_witness :
    highDomCount c3w ≤ 1 ∧ capAll c3w ∧ (collectHeavy c3w).length ≤ 2 ∧
    (∀ gp ∈ usedGroupsOf c3w, gp.2.length ≤ 1) ∧
    conflictPasses none c3w ["n"] = (c3w, ["n"]) :=
  ⟨by decide, by decide, by decide, by decide,
    c3_no_conflict_amended none c3w ["n"] (by decide) (by decide) (by decide) (by decide)⟩

/-- Claim C4, counterexample: at input (citrus, woody, aromatic, "AB") both
cedar-group members appear, but in occurrence order (Virginia in the citrus
base, then Atlas in the woody heart) — the reverse of the table order.  Pass D
reduces the table's FIRST-listed member "Cedarwood Atlas EO" to 60 % and
leaves the table's second-listed member "Cedarwood Virginia" untouched,
contradicting the claimed first-listed/second-listed roles. -/
theorem c4_counterexample :
    functionalGroups.contains
      ("cedar", ["Cedarwood Atlas EO", "Cedarwood Virginia"]) = true ∧
    (usedGroupsOf (stageC "citrus" "woody" "aromatic" "AB" none none none).1).contains
      ("cedar", ["Cedarwood Virginia", "Cedarwood Atlas EO"]) = true ∧
    (generateLocalFormula "citrus" "woody" "aromatic" "AB" none none none).formula =
      (pass7 (stageC "citrus" "woody" "aromatic" "AB" none none none).1
        (stageC "citrus" "woody" "aromatic" "AB" none none none).2).1 ∧
    itemAt (stageC "citrus" "woody" "aromatic" "AB" none none none).1 "woody" true 0 =
      some ⟨"Cedarwood Atlas EO", ⟨16/5, 59/10⟩, "🌍 Morocco", some (91/20)⟩ ∧
    itemAt (generateLocalFormula "citrus" "woody" "aromatic" "AB" none none none).formula
        "woody" true 0 =
      some ⟨"Cedarwood Atlas EO", ⟨19/10, 7/2⟩, "🌍 Morocco", some (91/20)⟩ ∧
    itemAt (generateLocalFormula "citrus" "woody" "aromatic" "AB" none none none).formula
        "citrus" false 0 =
      some ⟨"Cedarwood Virginia", ⟨14/5, 26/5⟩, "📦 Bulkaroma", some 4⟩ ∧
    itemAt (stageC "citrus" "woody" "aromatic" "AB" none none none).1 "citrus" false 0 =
      itemAt (generateLocalFormula "citrus" "woody" "aromatic" "AB" none none none).formula
        "citrus" false 0 := by
  refine ⟨by decide, by decide, by decide, by decide, by decide, by decide, by decide⟩

/-- **C4 (amended)** — Pass D dampening target.  The member reduced to 60 % is
the second *recorded occurrence* of the group (formula traversal order), not
the second member of the `functionalGroups` table (see `c4_counterexample`).
Precisely: pass D appends one overlap note per group recorded with at least
two occurrences, in recording order, and rewrites every heart/base entry by
applying the 60 % reduction once for each such group whose second recorded
occurrence bears the entry's name — entries named like no such occurrence
(the first recorded member included) keep their band. -/
theorem c4_pass_d_amended (f : Formula) (ns : List String) :
    (pass7 f ns).2 = ns ++ overlapNotesOf (usedGroupsOf f) ∧
    ∀ fam hb idx, itemAt (pass7 f ns).1 fam hb idx =
      (itemAt f fam hb idx).map
        (fun it => (usedGroupsOf f).foldl applySecond it) := by
  unfold pass7
  exact foldl_applyGroup_char (usedGroupsOf f) f ns

/-- **C1** — Determinism of the facade: for every fixed input tuple
(dominant, secondary, accent, scentCode, concentration, occasion, intensity),
two invocations of `generateSmartFormula` return identical `FormulaResult`
values (same ingredient names, same percent bands, same `ifraWarnings` and
`perfumerNotes` lists, in the same order).  The only mutable state of the
module is the `_lastMeta` slot, which an invocation overwrites but never
reads, so a second invocation — from any slot state, in particular from the
state the first invocation left behind — returns the same result. -/
theorem c1_facade_determinism (o : GenerateOpts) (s₁ s₂ : Option GenMeta) :
    (runGenerate o s₁).1 = (runGenerate o s₂).1 ∧
    (runGenerate o (runGenerate o s₁).2).1 = (runGenerate o s₁).1 :=
  ⟨rfl, rfl⟩

/-- **C9** — Seed collision at the public interface: the RNG seed is the sum
of the identifier's character codes, so any two identifiers with equal
character-code sums, given otherwise identical parameters, produce identical
`FormulaResult` values. -/
theorem c9_seed_collision (dominant secondary accent c₁ c₂ : String)
    (concentration occasion intensity : Option String)
    (h : seedOf c₁ = seedOf c₂) :
    generateLocalFormula dominant secondary accent c₁ concentration occasion intensity =
      generateLocalFormula dominant secondary accent c₂ concentration occasion intensity := by
  unfold generateLocalFormula assembled
  rw [h]

/-- Witness for C9 at the permuted identifiers `"AB"`/`"BA"`. -/
theorem c9_seed_collision_witness :
    seedOf "AB" = seedOf "BA" ∧
    generateLocalFormula "oriental" "woody" "spicy" "AB" none none none =
      generateLocalFormula "oriental" "woody" "spicy" "BA" none none none :=
  ⟨by decide, c9_seed_collision "oriental" "woody" "spicy" "AB" "BA" none none none (by decide)⟩

/-- **C8** — The hero is not protected from Pass D: at the input
(dominant `"oriental"`, secondary `"floral"`, accent `"citrus"`, identifier
`"CA"`) the chosen hero is `Amber Accord (in-house blend)`; `Labdanum
Absolute` is picked into the oriental heart and is recorded first for the
`labdanum-amber` group, so the hero, as the second-recorded member, has its
band reduced to 60 % by the duplicate-dampening pass: it enters Pass D with
band 4.6–8.5 and leaves with band 2.8–5.1. -/
theorem c8_hero_dampened_by_pass_d :
    heroNameOf (assembled "oriental" "floral" "citrus" "CA" none none none).1 =
      some "Amber Accord (in-house blend)" ∧
    itemAt ((pass6c (heroNameOf (assembled "oriental" "floral" "citrus" "CA" none none none).1)
        (pass6b (heroNameOf (assembled "oriental" "floral" "citrus" "CA" none none none).1)
          (pass6a (heroNameOf (assembled "oriental" "floral" "citrus" "CA" none none none).1)
            (assembled "oriental" "floral" "citrus" "CA" none none none).2.2))
        (assembled "oriental" "floral" "citrus" "CA" none none none).2.1.perfumerNotes).1)
      "oriental" true 0 =
      some ⟨"Labdanum Absolute", ⟨2.1, 3.9⟩, "📦 Fraterworks", some 3⟩ ∧
    itemAt ((pass6c (heroNameOf (assembled "oriental" "floral" "citrus" "CA" none none none).1)
        (pass6b (heroNameOf (assembled "oriental" "floral" "citrus" "CA" none none none).1)
          (pass6a (heroNameOf (assembled "oriental" "floral" "citrus" "CA" none none none).1)
            (assembled "oriental" "floral" "citrus" "CA" none none none).2.2))
        (assembled "oriental" "floral" "citrus" "CA" none none none).2.1.perfumerNotes).1)
      "oriental" false 0 =
      some ⟨"Amber Accord (in-house blend)", ⟨4.6, 8.5⟩, "🇪🇬 MUSK Aromatics", none⟩ ∧
    itemAt (generateLocalFormula "oriental" "floral" "citrus" "CA" none none none).formula
      "oriental" false 0 =
      some ⟨"Amber Accord (in-house blend)", ⟨2.8, 5.1⟩, "🇪🇬 MUSK Aromatics", none⟩ ∧
    (reduce06 ⟨"Amber Accord (in-house blend)", ⟨4.6, 8.5⟩, "🇪🇬 MUSK Aromatics", none⟩).percent =
      ⟨2.8, 5.1⟩ ∧
    (⟨4.6, 8.5⟩ : Pct) ≠ ⟨2.8, 5.1⟩ := by
  refine ⟨by decide, by decide, by decide, by decide, by decide, by decide⟩

/-- **C2** — Cap invariant: for every input, in the `FormulaResult` returned
by `generateSmartFormula` (= `generateLocalFormula`), every heart-layer or
base-layer `FormulaIngredient` whose name is not the hero's name has an upper
percentage bound of at most 6.5 %: Pass B clamps (low → min(low, 3.5),
high → min(high, 6.5)) and the subsequent Pass C and Pass D only shrink
bands (0.7× and 0.6×, rounded to one decimal). -/
theorem c2_cap_invariant (dominant secondary accent scentCode : String)
    (concentration occasion intensity : Option String)
    (fam : String) (ls : LayerSet) (it : FormulaIngredient)
    (hmem : (fam, ls) ∈ (generateLocalFormula dominant secondary accent scentCode
      concentration occasion intensity).formula)
    (hit : it ∈ ls.heart ++ ls.base)
    (hname : some it.name ≠ heroNameOf (assembled dominant secondary accent scentCode
      concentration occasion intensity).1) :
    getUpperPct it ≤ 6.5 := by
  have hall : hbCondAll
      (heroNameOf (assembled dominant secondary accent scentCode concentration occasion intensity).1)
      (generateLocalFormula dominant secondary accent scentCode concentration occasion intensity).formula := by
    exact pass7_preserves_cap (pass6c_preserves_cap (pass6b_establishes_cap _ _))
  rcases hall (fam, ls) hmem it hit with h | h
  · exact absurd h hname
  · exact h

/-- Witness for C2: a concrete generation, the non-hero `Labdanum Absolute`
entry in the oriental heart, and its bound. -/
theorem c2_cap_invariant_witness :
    ("oriental", c2wLayers) ∈ c2wFormula ∧
    c2wItem ∈ c2wLayers.heart ++ c2wLayers.base ∧
    some c2wItem.name ≠ heroNameOf (assembled "oriental" "floral" "citrus" "AB" none none none).1 ∧
    getUpperPct c2wItem ≤ 6.5 := by
  refine ⟨by decide, by decide, by decide, ?_⟩
  exact c2_cap_invariant "oriental" "floral" "citrus" "AB" none none none
    "oriental" c2wLayers c2wItem (by decide) (by decide) (by decide)

/-- Counterexample to **C10** as stated: with dominant = secondary =
`"citrus"` (accent `"woody"`, identifier `"AB"`), step 4 overwrites the
`formula["citrus"]` object, so the final citrus top layer holds the single
secondary lift pick, whose band went through `makeRange` at 0.8 scale — not
the database's published percent pair.  The statement does not name the pick:
whichever citrus lift ingredient the RNG selects, the 0.8-scaled band differs
from every published citrus top band by at least 0.8, so no citrus top entry
carries the published range of its own record. -/
theorem c10_counterexample :
    (topAt (generateLocalFormula "citrus" "citrus" "woody" "AB" none none none).formula
      "citrus").length = 1 ∧
    (∀ it ∈ topAt (generateLocalFormula "citrus" "citrus" "woody" "AB" none none none).formula
        "citrus",
      ∀ rec ∈ dbTop "citrus", rec.name = it.name → it.percent ≠ rec.percent) ∧
    ¬ topRaw "citrus" (generateLocalFormula "citrus" "citrus" "woody" "AB" none none none).formula := by
  refine ⟨by decide, by decide, ?_⟩
  unfold topRaw
  decide

/-- **C10 (amended)** — Top-layer entries are frozen after selection: no
conflict-resolution pass rewrites any top-layer list (Passes A, B, C iterate
only heart and base, and Pass D reduces only heart/base occurrences); and
*provided the dominant family name differs from the secondary family name*,
the dominant family's top-layer picks carry the database's published percent
pair verbatim (no `makeRange` conversion and no context scaling) into the
final output.  (The distinctness proviso is forced by `c10_counterexample`:
with dominant = secondary the dominant object is overwritten by the secondary
fill.) -/
theorem c10_top_frozen_amended (dominant secondary accent scentCode : String)
    (concentration occasion intensity : Option String)
    (hds : dominant ≠ secondary) :
    (∀ d, topAt (generateLocalFormula dominant secondary accent scentCode
        concentration occasion intensity).formula d =
      topAt (assembled dominant secondary accent scentCode
        concentration occasion intensity).2.2 d) ∧
    topRaw dominant (generateLocalFormula dominant secondary accent scentCode
      concentration occasion intensity).formula := by
  have hframe : ∀ d, topAt (generateLocalFormula dominant secondary accent scentCode
      concentration occasion intensity).formula d =
      topAt (assembled dominant secondary accent scentCode
        concentration occasion intensity).2.2 d := by
    intro d
    have hdec : (generateLocalFormula dominant secondary accent scentCode
        concentration occasion intensity).formula =
        (pass7
          (pass6c (heroNameOf (assembled dominant secondary accent scentCode
            concentration occasion intensity).1)
            (pass6b (heroNameOf (assembled dominant secondary accent scentCode
              concentration occasion intensity).1)
              (pass6a (heroNameOf (assembled dominant secondary accent scentCode
                concentration occasion intensity).1)
                (assembled dominant secondary accent scentCode
                  concentration occasion intensity).2.2))
            (assembled dominant secondary accent scentCode
              concentration occasion intensity).2.1.perfumerNotes).1
          (pass6c (heroNameOf (assembled dominant secondary accent scentCode
            concentration occasion intensity).1)
            (pass6b (heroNameOf (assembled dominant secondary accent scentCode
              concentration occasion intensity).1)
              (pass6a (heroNameOf (assembled dominant secondary accent scentCode
                concentration occasion intensity).1)
                (assembled dominant secondary accent scentCode
                  concentration occasion intensity).2.2))
            (assembled dominant secondary accent scentCode
              concentration occasion intensity).2.1.perfumerNotes).2).1 := rfl
    rw [hdec, topAt_pass7, topAt_pass6c, topAt_pass6b, topAt_pass6a]
  refine ⟨hframe, ?_⟩
  intro it hit
  rw [hframe dominant] at hit
  exact topRaw_step5bc dominant secondary accent concentration _ _ _
    (topRaw_step5 dominant secondary accent _ _ _
      (topRaw_step4 dominant secondary accent _ _ _ hds
        (topRaw_step3 dominant secondary accent _ _ _))) it hit

/-- Witness for the amended C10 at a concrete input with distinct dominant
and secondary families. -/
theorem c10_top_frozen_witness :
    "oriental" ≠ "floral" ∧
    ((∀ d, topAt (generateLocalFormula "oriental" "floral" "citrus" "AB" none none none).formula d =
      topAt (assembled "oriental" "floral" "citrus" "AB" none none none).2.2 d) ∧
    topRaw "oriental" (generateLocalFormula "oriental" "floral" "citrus" "AB" none none none).formula) :=
  ⟨by decide, c10_top_frozen_amended "oriental" "floral" "citrus" "AB" none none none (by decide)⟩

/-- Claim C5, counterexample: the claim says that whenever the chosen hero is
non-null it appears in exactly one layer of the dominant family's sub-formula.
At input (floral, floral, citrus, "AB") the hero is Rose Absolute (Turkish),
yet the returned formula contains no entry of that name at all: with
dominant = secondary, step 4 overwrites `formula[dominant]` wholesale and the
hero placed there by step 3 is deleted. -/
theorem c5_counterexample :
    heroNameOf (assembled "floral" "floral" "citrus" "AB" none none none).1 =
      some "Rose Absolute (Turkish)" ∧
    countName (generateLocalFormula "floral" "floral" "citrus" "AB" none none none).formula
      "Rose Absolute (Turkish)" = 0 := by
  constructor
  · decide
  · decide

/-- **C5 (amended)** — Hero exclusivity holds *provided the secondary and
accent family names differ from the dominant one* (forced by
`c5_counterexample`: with dominant = secondary the dominant object is
overwritten and the hero vanishes).  Under that proviso, when the chosen hero
is non-null it appears exactly once in the returned formula, in the dominant
family's heart layer if its record is in the dominant heart pool and in the
dominant base layer otherwise, and the hero-named entries are untouched by
passes A (dominance correction), B (hard cap) and C (auto-correction):
the hero occurrences after pass C are exactly those the assembly produced. -/
theorem c5_hero_exclusivity_amended (dominant secondary accent scentCode : String)
    (concentration occasion intensity : Option String) (h : RawIngredient)
    (hds : secondary ≠ dominant) (hda : accent ≠ dominant)
    (hh : (assembled dominant secondary accent scentCode
      concentration occasion intensity).1 = some h) :
    countName (generateLocalFormula dominant secondary accent scentCode
      concentration occasion intensity).formula h.name = 1 ∧
    (if inHeartOf dominant h.name then
      heartCountAt (generateLocalFormula dominant secondary accent scentCode
        concentration occasion intensity).formula dominant h.name = 1 ∧
      baseCountAt (generateLocalFormula dominant secondary accent scentCode
        concentration occasion intensity).formula dominant h.name = 0
    else
      baseCountAt (generateLocalFormula dominant secondary accent scentCode
        concentration occasion intensity).formula dominant h.name = 1 ∧
      heartCountAt (generateLocalFormula dominant secondary accent scentCode
        concentration occasion intensity).formula dominant h.name = 0) ∧
    namedItems (pass6c (some h.name)
        (pass6b (some h.name) (pass6a (some h.name)
          (assembled dominant secondary accent scentCode
            concentration occasion intensity).2.2))
        (assembled dominant secondary accent scentCode
          concentration occasion intensity).2.1.perfumerNotes).1 h.name =
      namedItems (assembled dominant secondary accent scentCode
        concentration occasion intensity).2.2 h.name := by
  have hnd := nodupKeys_assembled dominant secondary accent scentCode
    concentration occasion intensity
  have hb := assembled_bundle hds hda hh
  have hcounts := counts_of_bundle hnd hb
  rw [generateLocalFormula_formula, hh,
    show heroNameOf (some h) = some h.name from rfl]
  refine ⟨?_, ?_, ?_⟩
  · rw [countName_pass7, countName_pass6c, countName_pass6b, countName_pass6a]
    exact hcounts.1
  · have h2 := hcounts.2
    cases hinh : inHeartOf dominant h.name with
    | true =>
      rw [hinh, if_pos rfl] at h2
      rw [if_pos rfl]
      constructor
      · rw [heartCountAt_pass7, heartCountAt_pass6c, heartCountAt_pass6b, heartCountAt_pass6a]
        exact h2.1
      · rw [baseCountAt_pass7, baseCountAt_pass6c, baseCountAt_pass6b, baseCountAt_pass6a]
        exact h2.2
    | false =>
      rw [hinh, if_neg (by simp)] at h2
      rw [if_neg (by simp)]
      constructor
      · rw [baseCountAt_pass7, baseCountAt_pass6c, baseCountAt_pass6b, baseCountAt_pass6a]
        exact h2.1
      · rw [heartCountAt_pass7, heartCountAt_pass6c, heartCountAt_pass6b, heartCountAt_pass6a]
        exact h2.2
  · have hnd6b : (keysOf (pass6b (some h.name) (pass6a (some h.name)
        (assembled dominant secondary accent scentCode
          concentration occasion intensity).2.2))).Nodup := by
      rw [keysOf_pass6b, keysOf_pass6a]
      exact hnd
    rw [namedItems_pass6c hnd6b, namedItems_pass6b, namedItems_pass6a]

/-- Witness for `c5_hero_exclusivity_amended` at (oriental, floral, citrus,
"AB"): the hero is Oud Oil (Hindi type), whose record is in the oriental
heart pool, and it survives into the final formula exactly once, in the
oriental heart. -/
theorem c5_hero_exclusivity_amended_witness :
    countName (generateLocalFormula "oriental" "floral" "citrus" "AB" none none none).formula
      "Oud Oil (Hindi type)" = 1 ∧
    heartCountAt (generateLocalFormula "oriental" "floral" "citrus" "AB" none none none).formula
      "oriental" "Oud Oil (Hindi type)" = 1 := by
  have happ := c5_hero_exclusivity_amended "oriental" "floral" "citrus" "AB" none none none
    ⟨"Oud Oil (Hindi type)", ⟨1, 3⟩, "🌍 UAE (Dubai)", none, 10, 5,
      ["woody", "smoky", "leather"], Role.hero, 10, 9⟩
    (by decide) (by decide) (by decide)
  refine ⟨happ.1, ?_⟩
  have h2 := happ.2.1
  have hinh : inHeartOf "oriental" "Oud Oil (Hindi type)" = true := by decide
  rw [hinh, if_pos rfl] at h2
  exact h2.1
